import Mathlib

/-!
# SevenSeg: a shallow embedding of `SevenSeg.cpp`

The library multiplexes a seven-segment display.  The embedding has two layers.

* The *call layer*: a public method (`write`, `writeClock`, `interruptAction`) is a
  function from the object's fields to the new fields and the list of the low-level
  member calls it performs, in program order (`Call`).
* The *pin layer*: each low-level member (`changeDigit`, `writeDigit`, `setDP`, ...) is a
  function from the object's fields to the new fields and the list of hardware events
  (`digitalWrite`, delays) it performs (`Event`).

Machine integers.  `long int` is the 32-bit two's-complement type of the target:
every `long` result that can leave the range is reduced with `wrapLong`.  `int` values
are kept as mathematical integers: in the code embedded here they are slot indices,
digit counts and clock fields, whose intermediate results stay between `-1` and the
digit count (or below `10000` for the clock), and the duty cycle and the refresh rate,
which enter `long int` arithmetic only.  `char` values are their codes `0..255`.
C division and remainder truncate towards zero: `Int.tdiv`, `Int.tmod`.
-/

namespace SevenSeg

/-! ## Machine integers -/

/-- Reduction of an integer to the signed 32-bit range of `long int`. -/
def wrapLong (x : Int) : Int := (x + 2147483648) % 4294967296 - 2147483648

/-- The largest `long int`. -/
def LONG_MAX : Int := 2147483647

/-- The smallest `long int`. -/
def LONG_MIN : Int := -2147483648

/-- The value is a `long int`. -/
def isLong (x : Int) : Prop := LONG_MIN ≤ x ∧ x ≤ LONG_MAX

instance (x : Int) : Decidable (isLong x) := by unfold isLong; infer_instance

/-- Conversion `(char)x`, as a character code. -/
def toChar (x : Int) : Int := x % 256

/-! ## The object -/

/-- The private fields of `class SevenSeg` (SevenSeg.h), without the leading underscore.
`dig` is the caller's array of digit pins; `writeStr` and `writeStrObj` are the
characters of the staged text (before the terminating NUL). -/
structure State where
  A : Int
  B : Int
  C : Int
  D : Int
  E : Int
  F : Int
  G : Int
  DP : Int
  colonState : Int
  aposState : Int
  colonSegPin : Int
  colonSegLPin : Int
  aposSegPin : Int
  symbDigPin : Int
  dig : List Int
  numOfDigits : Int
  digitDelay : Int
  digitOnDelay : Int
  digitOffDelay : Int
  dutyCycle : Int
  digOn : Int
  digOff : Int
  segOn : Int
  segOff : Int
  timerDigit : Int
  timerPhase : Int
  timerID : Int
  timerCounter : Int
  timerCounterOnEnd : Int
  timerCounterOffEnd : Int
  writeInt : Int
  writePoint : Int
  writeStr : List Int
  writeMode : Int
  writeStrObj : List Int

/-- The low-level member calls a high-level method performs.  `changeDigit` and
`writeDigit` are the `int` overloads, `changeDigitChar` and `writeDigitChar` the `char`
overloads (argument: the character code). -/
inductive Call where
  | changeDigit (digit : Int)
  | changeDigitChar (digit : Int)
  | writeDigit (digit : Int)
  | writeDigitChar (digit : Int)
  | setDP
  | clearDP
  | setColon
  | clearColon
  | execDelay (usec : Int)
  deriving DecidableEq, Repr

/-- Hardware events: the Arduino primitives the library calls. -/
inductive Event where
  | digitalWrite (pin : Int) (level : Int)
  | delayMicroseconds (us : Int)
  | delay (ms : Int)
  deriving DecidableEq, Repr

/-! ## Segment encoder (`writeDigit`) -/

/-- The seven segments. -/
inductive Seg where
  | A | B | C | D | E | F | G
  deriving DecidableEq, Repr

/-- The seven `digitalWrite(_X, _segOff)` at the head of both `writeDigit` overloads;
a pair is (segment, written on?). -/
def segsOff : List (Seg × Bool) :=
  [(Seg.A, false), (Seg.B, false), (Seg.C, false), (Seg.D, false), (Seg.E, false),
   (Seg.F, false), (Seg.G, false)]

/-- The `digitalWrite(_X, _segOn)` of one `if` body. -/
def segsOn (l : List Seg) : List (Seg × Bool) := l.map (fun x => (x, true))

/-- One branch `if(digit==code){ digitalWrite(_X, _segOn); ... }`. -/
def branch (digit : Int) (code : Int) (l : List Seg) : List (Seg × Bool) :=
  if digit = code then segsOn l else []

/-- The segment writes of `SevenSeg::writeDigit(int digit)`, in program order. -/
def writeDigit (digit : Int) : List (Seg × Bool) :=
  segsOff
  ++ branch digit 1 [Seg.B, Seg.C]
  ++ branch digit 2 [Seg.A, Seg.B, Seg.G, Seg.E, Seg.D]
  ++ branch digit 3 [Seg.A, Seg.B, Seg.G, Seg.C, Seg.D]
  ++ branch digit 4 [Seg.F, Seg.G, Seg.B, Seg.C]
  ++ branch digit 5 [Seg.A, Seg.F, Seg.G, Seg.C, Seg.D]
  ++ branch digit 6 [Seg.A, Seg.F, Seg.E, Seg.D, Seg.C, Seg.G]
  ++ branch digit 7 [Seg.A, Seg.B, Seg.C]
  ++ branch digit 8 [Seg.A, Seg.B, Seg.C, Seg.D, Seg.E, Seg.F, Seg.G]
  ++ branch digit 9 [Seg.G, Seg.F, Seg.A, Seg.B, Seg.C, Seg.D]
  ++ branch digit 0 [Seg.A, Seg.B, Seg.C, Seg.D, Seg.E, Seg.F]

/-- Capitalisation step of `writeDigit(char)`: `if(digit>=97&&digit<=122) digit-=32;`. -/
def capitalize (digit : Int) : Int := if digit ≥ 97 ∧ digit ≤ 122 then digit - 32 else digit

/-- The letter branches of `SevenSeg::writeDigit(char digit)` (after capitalisation). -/
def writeLetter (digit : Int) : List (Seg × Bool) :=
  branch digit 65 [Seg.A, Seg.B, Seg.C, Seg.E, Seg.F, Seg.G]
  ++ branch digit 66 [Seg.C, Seg.D, Seg.E, Seg.F, Seg.G]
  ++ branch digit 67 [Seg.A, Seg.D, Seg.E, Seg.F]
  ++ branch digit 68 [Seg.B, Seg.C, Seg.D, Seg.E, Seg.G]
  ++ branch digit 69 [Seg.A, Seg.D, Seg.E, Seg.F, Seg.G]
  ++ branch digit 70 [Seg.A, Seg.E, Seg.F, Seg.G]
  ++ branch digit 71 [Seg.A, Seg.C, Seg.D, Seg.E, Seg.F]
  ++ branch digit 72 [Seg.B, Seg.C, Seg.E, Seg.F, Seg.G]
  ++ branch digit 73 [Seg.E, Seg.F]
  ++ branch digit 74 [Seg.B, Seg.C, Seg.D, Seg.E]
  ++ branch digit 75 [Seg.B, Seg.C, Seg.E, Seg.F, Seg.G]
  ++ branch digit 76 [Seg.D, Seg.E, Seg.F]
  ++ branch digit 77 [Seg.A, Seg.C, Seg.E]
  ++ branch digit 78 [Seg.C, Seg.E, Seg.G]
  ++ branch digit 79 [Seg.A, Seg.B, Seg.C, Seg.D, Seg.E, Seg.F]
  ++ branch digit 80 [Seg.A, Seg.B, Seg.E, Seg.F, Seg.G]
  ++ branch digit 81 [Seg.A, Seg.B, Seg.C, Seg.F, Seg.G]
  ++ branch digit 82 [Seg.E, Seg.G]
  ++ branch digit 83 [Seg.A, Seg.C, Seg.D, Seg.F, Seg.G]
  ++ branch digit 84 [Seg.D, Seg.E, Seg.F, Seg.G]
  ++ branch digit 85 [Seg.B, Seg.C, Seg.D, Seg.E, Seg.F]
  ++ branch digit 86 [Seg.C, Seg.D, Seg.E]
  ++ branch digit 87 [Seg.B, Seg.D, Seg.F]
  ++ branch digit 88 [Seg.B, Seg.C, Seg.E, Seg.F, Seg.G]
  ++ branch digit 89 [Seg.B, Seg.C, Seg.D, Seg.F, Seg.G]
  ++ branch digit 90 [Seg.A, Seg.B, Seg.D, Seg.E, Seg.G]

/-- The segment writes of `SevenSeg::writeDigit(char digit)`, in program order; the
digit characters go through `writeDigit(int)`. -/
def writeDigitChar (digit : Int) : List (Seg × Bool) :=
  segsOff
  ++ branch digit 45 [Seg.G]
  ++ branch digit 248 [Seg.A, Seg.B, Seg.F, Seg.G]
  ++ (if digit ≥ 48 ∧ digit ≤ 57 then writeDigit (digit - 48) else [])
  ++ writeLetter (capitalize digit)

/-- The segment pattern (A..G lit?) that a sequence of segment writes leaves: the last
write to each segment decides, a segment never written is dark. -/
def pattern (ws : List (Seg × Bool)) : List Bool :=
  [Seg.A, Seg.B, Seg.C, Seg.D, Seg.E, Seg.F, Seg.G].map
    (fun x => (((ws.filter (fun w => decide (w.1 = x))).getLast?).map Prod.snd).getD false)

/-! ## Number limits and digit extraction -/

/-- The loop `for(int i=1;i<=_numOfDigits-1;i++) maxNegNum*=10;`, by the number of
iterations left. -/
def mulTenLoop : Nat → Int → Int
  | 0, maxNegNum => maxNegNum
  | k + 1, maxNegNum => mulTenLoop k (wrapLong (maxNegNum * 10))

/-- The loop `for(int i=0;i<_numOfDigits-digit-1;i++) number/=10L;`, by the number of
iterations left. -/
def divTenLoop : Nat → Int → Int
  | 0, number => number
  | k + 1, number => divTenLoop k (Int.tdiv number 10)

/-- The method `SevenSeg::iaLimitInt(long int number)`. -/
def iaLimitInt (s : State) (number : Int) : Int :=
  let maxNegNum := mulTenLoop (s.numOfDigits - 1).toNat 1
  let maxPosNum := wrapLong (wrapLong (10 * maxNegNum) - 1)
  let maxNegNum := wrapLong (wrapLong (-maxNegNum) + 1)
  let number := if number > maxPosNum then maxPosNum else number
  let number := if number < maxNegNum then maxNegNum else number
  number

/-- The method `SevenSeg::iaExtractDigit(long int number, int digit, int point)`; the
result is a character code.  The recursive call is made on `digit + 1` and only when
`digit <= point - 1`, which is the termination measure. -/
def iaExtractDigit (s : State) (number : Int) (digit : Int) (point : Int) : Int :=
  let old_number := number
  let minus : Bool := decide (number < 0)
  let number := if number < 0 then wrapLong (number * -1) else number
  let number :=
    if digit ≠ s.numOfDigits - 1 then divTenLoop (s.numOfDigits - digit - 1).toNat number
    else number
  if h : digit > point - 1 ∨ digit = s.numOfDigits - 1 ∨ number ≠ 0 then
    toChar (Int.tmod number 10 + 48)
  else
    if iaExtractDigit s old_number (digit + 1) point ≠ 45
        ∧ iaExtractDigit s old_number (digit + 1) point ≠ 32 ∧ minus = true then 45
    else 32
termination_by (point - digit).toNat
decreasing_by
  all_goals simp_wf
  all_goals omega

/-! ## Synchronous sweeps -/

/-- The sweep loop of `write(long int,int)`, `for(int i=_numOfDigits-1;i>=0;i--)`, by
`i + 1`: the calls of the iterations `i = k, k-1, ..., 0` with `num` and `minus` as they
stand on entry. -/
def writeLoop (s : State) (point : Int) : Nat → Int → Bool → List Call
  | 0, _, _ => []
  | k + 1, num, minus =>
    let i : Int := k
    let nextDigit := Int.tmod num 10
    let shows : Bool := decide (num ≠ 0 ∨ i > point - 1 ∨ i = s.numOfDigits - 1)
    [Call.changeDigit i]
    ++ (if shows then [Call.writeDigit nextDigit]
        else if minus then [Call.writeDigitChar 45]
        else [Call.writeDigitChar 32])
    ++ (if point = i then [Call.setDP] else [])
    ++ [Call.execDelay s.digitOnDelay, Call.writeDigitChar 32, Call.clearDP,
        Call.execDelay s.digitOffDelay]
    ++ writeLoop s point k (Int.tdiv num 10)
        (if shows then minus else if minus then false else minus)

/-- The method `SevenSeg::write(long int num,int point)`: the new fields and the calls
performed. -/
def write (s : State) (num : Int) (point : Int) : State × List Call :=
  if s.timerID = -1 then
    let maxNegNum := mulTenLoop (s.numOfDigits - 1).toNat 1
    let maxPosNum := wrapLong (wrapLong (10 * maxNegNum) - 1)
    let maxNegNum := wrapLong (wrapLong (-maxNegNum) + 1)
    let num := if num > maxPosNum then maxPosNum else num
    let num := if num < maxNegNum then maxNegNum else num
    let point := if point = 0 then s.numOfDigits else s.numOfDigits - point - 1
    let minus : Bool := decide (num < 0)
    let num := if num < 0 then wrapLong (num * -1) else num
    (s, writeLoop s point s.numOfDigits.toNat num minus)
  else
    let point := if point = 0 then s.numOfDigits else s.numOfDigits - point - 1
    ({ s with writeMode := 112, writeInt := iaLimitInt s num, writePoint := point }, [])

/-- The sweep loop of `writeClock(int,int,char)`, by `i + 1`. -/
def writeClockLoop (s : State) (c : Int) (symbColon : Bool) : Nat → Int → List Call
  | 0, _ => []
  | k + 1, num =>
    let i : Int := k
    let nextDigit := Int.tmod num 10
    [Call.changeDigit i, Call.writeDigit nextDigit]
    ++ (if c = 58 ∧ symbColon = false then [Call.setColon] else [])
    ++ (if c = 46 ∧ i = s.numOfDigits - 3 then [Call.setDP] else [])
    ++ [Call.execDelay s.digitOnDelay]
    ++ (if c = 58 ∧ symbColon = false then [Call.clearColon] else [])
    ++ (if c = 46 then [Call.clearDP] else [])
    ++ [Call.writeDigitChar 32, Call.execDelay s.digitOffDelay]
    ++ writeClockLoop s c symbColon k (Int.tdiv num 10)

/-- The method `SevenSeg::writeClock(int mm, int ss, char c)`. -/
def writeClock (s : State) (mm : Int) (ss : Int) (c : Int) : State × List Call :=
  if s.timerID = -1 then
    let num := mm * 100 + ss
    let symbColon : Bool := decide (s.symbDigPin ≠ -1)
    (s, writeClockLoop s c symbColon s.numOfDigits.toNat num
        ++ (if symbColon = true ∧ c = 58 then
              [Call.changeDigitChar 115, Call.setColon, Call.execDelay s.digitOnDelay,
               Call.clearColon, Call.execDelay s.digitOffDelay]
            else []))
  else
    ({ s with writeMode := c, writeInt := mm * 100 + ss }, [])

/-! ## Tick-driven rendering -/

/-- Character `i` of a C string: the stored characters, then NUL. -/
def strAt (str : List Int) (i : Nat) : Int := str.getD i 0

/-- The counting loop of `interruptAction` for `_writeMode=='s'`,
`while(_writeStr[i]!=0 && j<_timerDigit)`, by the number of `j` steps left; returns `i`. -/
def countStr (str : List Int) : Nat → Nat → Nat
  | 0, i => i
  | k + 1, i =>
    if strAt str i ≠ 0 then countStr str k (if strAt str (i + 1) = 46 then i + 1 + 1 else i + 1)
    else i

/-- The counting loop of `interruptAction` for `_writeMode=='o'`,
`while(i<_writeStrObj.length() && j<_timerDigit)`, by the number of `j` steps left. -/
def countStrObj (str : List Int) : Nat → Nat → Nat
  | 0, i => i
  | k + 1, i =>
    if i < str.length then
      countStrObj str k (if strAt str (i + 1) = 46 then i + 1 + 1 else i + 1)
    else i

/-- The calls of the body `if(_timerDigit!=_numOfDigits){...}` of `interruptAction`:
the glyph of slot `_timerDigit` for the staged target. -/
def iaGlyphCalls (s : State) : List Call :=
  (if s.writeMode = 112 then
      [Call.writeDigitChar (iaExtractDigit s s.writeInt s.timerDigit s.writePoint)]
      ++ (if s.writePoint = s.timerDigit ∧ s.writePoint ≠ s.numOfDigits - 1 then [Call.setDP]
          else [])
    else [])
  ++ (if s.writeMode = 105 then
      [Call.writeDigitChar (iaExtractDigit s s.writeInt s.timerDigit s.numOfDigits)]
    else [])
  ++ (if s.writeMode = 58 ∨ s.writeMode = 46 ∨ s.writeMode = 95 then
      let symbColon : Bool := decide (s.symbDigPin ≠ -1)
      if s.timerDigit = s.numOfDigits then [Call.setColon]
      else
        [Call.writeDigitChar (iaExtractDigit s s.writeInt s.timerDigit s.numOfDigits)]
        ++ (if s.writeMode = 58 ∧ symbColon = false then [Call.setColon] else [])
        ++ (if s.writeMode = 46 ∧ s.timerDigit = s.numOfDigits - 3 then [Call.setDP] else [])
    else [])
  ++ (if s.writeMode = 115 then
      let i := countStr s.writeStr s.timerDigit.toNat 0
      [Call.writeDigitChar (strAt s.writeStr i)]
      ++ (if strAt s.writeStr (i + 1) = 46 then [Call.setDP] else [])
    else [])
  ++ (if s.writeMode = 111 then
      let i := countStrObj s.writeStrObj s.timerDigit.toNat 0
      [Call.writeDigitChar (strAt s.writeStrObj i)]
      ++ (if strAt s.writeStrObj (i + 1) = 46 then [Call.setDP] else [])
    else [])

/-- The first `if` of `interruptAction`: end of the on-part. -/
def iaOnEnd (s : State) : State × List Call :=
  if s.timerCounter ≥ s.timerCounterOnEnd ∧ s.timerPhase = 1 then
    ({ s with timerCounter := 0, timerPhase := 0 },
      [Call.writeDigitChar 32]
      ++ (if s.writeMode = 112 ∨ s.writeMode = 46 ∨ s.writeMode = 115 then [Call.clearDP]
          else [])
      ++ (if s.writeMode = 58 then [Call.clearColon] else []))
  else (s, [])

/-- The slot advance `_timerDigit++` with its wrap-around. -/
def iaNextDigit (s : State) : Int :=
  let timerDigit := s.timerDigit + 1
  if timerDigit ≥ s.numOfDigits then
    if s.symbDigPin ≠ -1 ∧ timerDigit = s.numOfDigits then timerDigit else 0
  else timerDigit

/-- The cursor at the start of the on-part of the next slot:
`_timerCounter=0; _timerPhase=1; _timerDigit++` with the wrap-around. -/
def iaSelect (s : State) : State :=
  { s with timerCounter := 0, timerPhase := 1, timerDigit := iaNextDigit s }

/-- The second `if` of `interruptAction`: end of the off-part, next slot. -/
def iaOffEnd (s : State) : State × List Call :=
  if s.timerCounter ≥ s.timerCounterOffEnd ∧ s.timerPhase = 0 then
    (iaSelect s,
      (if (iaSelect s).timerDigit = (iaSelect s).numOfDigits then [Call.changeDigitChar 115]
       else [Call.changeDigit (iaSelect s).timerDigit])
      ++ (if (iaSelect s).timerDigit ≠ (iaSelect s).numOfDigits then iaGlyphCalls (iaSelect s)
          else []))
  else (s, [])

/-- The counter increment `_timerCounter++` at the head of `interruptAction`. -/
def iaCount (s : State) : State :=
  { s with timerCounter := wrapLong (s.timerCounter + 1) }

/-- The method `SevenSeg::interruptAction()`: one tick. -/
def interruptAction (s : State) : State × List Call :=
  let r1 := iaOnEnd (iaCount s)
  let r2 := iaOffEnd r1.1
  (r2.1, r1.2 ++ r2.2)

/-! ## What a sequence of calls shows -/

/-- A multiplex slot: an ordinary digit or the symbol digit. -/
inductive Slot where
  | digit (i : Int)
  | symbol
  deriving DecidableEq, Repr

/-- What one slot shows: the selected slot, the segment pattern A..G and whether the
decimal point was set. -/
structure Frame where
  slot : Slot
  segs : List Bool
  dp : Bool
  deriving DecidableEq, Repr

/-- The effect of one call on what is shown.  `changeDigit` selects a slot and (through
`clearDisp`) darkens segments and decimal point; `writeDigit` replaces the pattern;
`setDP`/`clearDP` switch the point.  With no slot selected nothing is shown. -/
def showCall (cur : Option Frame) : Call → Option Frame
  | Call.changeDigit i => some ⟨Slot.digit i, pattern segsOff, false⟩
  | Call.changeDigitChar c =>
    if c = 115 then some ⟨Slot.symbol, pattern segsOff, false⟩
    else if c = 32 then none
    else cur
  | Call.writeDigit d => cur.map (fun f => { f with segs := pattern (writeDigit d) })
  | Call.writeDigitChar c => cur.map (fun f => { f with segs := pattern (writeDigitChar c) })
  | Call.setDP => cur.map (fun f => { f with dp := true })
  | Call.clearDP => cur.map (fun f => { f with dp := false })
  | Call.setColon => cur
  | Call.clearColon => cur
  | Call.execDelay _ => cur

/-- What is shown after a sequence of calls (tick-driven mode: what a tick leaves on
the display). -/
def shown (cur : Option Frame) (cs : List Call) : Option Frame := cs.foldl showCall cur

/-- The frames of a synchronous sweep: what each selected slot shows during its
on-phase, that is at the first `execDelay` after its `changeDigit`, in program order.
The calls after that delay (blanking and off-delay) show no further frame. -/
def frames : Option Frame → List Call → List Frame
  | _, [] => []
  | cur, Call.execDelay _ :: cs => cur.toList ++ frames none cs
  | cur, c :: cs => frames (showCall cur c) cs

/-- The pattern a sweep shows on digit slot `i` (the first frame of that slot). -/
def glyphAt (fs : List Frame) (i : Int) : Option (List Bool) :=
  (fs.find? (fun f => decide (f.slot = Slot.digit i))).map Frame.segs

/-- The slots of a sweep on which the decimal point is set. -/
def dpSlots (fs : List Frame) : List Slot := (fs.filter (fun f => f.dp)).map Frame.slot

/-- The row of patterns on the digit slots `0 .. n-1`, most significant first; `none`
for a slot the sweep never selects. -/
def displayRow (fs : List Frame) (n : Nat) : List (Option (List Bool)) :=
  (List.range n).map (fun (i : Nat) => glyphAt fs (Int.ofNat i))

/-! ## Reading a display -/

/-- What a reader sees in one pattern: a decimal digit, the minus sign, a blank, or
something else. -/
inductive Glyph where
  | digit (d : Nat)
  | minus
  | blank
  | other
  deriving DecidableEq, Repr

/-- Reads a pattern back: blank is the pattern of `writeDigit(' ')`, minus that of
`writeDigit('-')`, digit `d` that of `writeDigit(d)`. -/
def readGlyph (p : List Bool) : Glyph :=
  if p = pattern (writeDigitChar 32) then Glyph.blank
  else if p = pattern (writeDigitChar 45) then Glyph.minus
  else
    match (List.range 10).find? (fun (d : Nat) => decide (pattern (writeDigit (Int.ofNat d)) = p)) with
    | some d => Glyph.digit d
    | none => Glyph.other

/-- The number written by a run of digit glyphs, most significant first, continuing
from `acc`; `none` if a glyph is not a digit. -/
def readDigits : List Glyph → Nat → Option Nat
  | [], acc => some acc
  | Glyph.digit d :: gs, acc => readDigits gs (acc * 10 + d)
  | _ :: _, _ => none

/-- Reads a row of glyphs as a decimal number: leading blanks are skipped, an optional
minus sign follows, then at least one digit up to the end of the row. -/
def readNumber : List Glyph → Option Int
  | [] => none
  | Glyph.blank :: gs => readNumber gs
  | Glyph.minus :: gs =>
    if gs = [] then none else (readDigits gs 0).map (fun v => -(Int.ofNat v))
  | Glyph.digit d :: gs => (readDigits (Glyph.digit d :: gs) 0).map Int.ofNat
  | Glyph.other :: _ => none

/-- Reads a display row as a decimal number; a slot never selected is unreadable. -/
def readBack (row : List (Option (List Bool))) : Option Int :=
  readNumber (row.map (fun o => (o.map readGlyph).getD Glyph.other))

/-! ## Closed form of a number sweep

`a` is the magnitude of the number on entry to the sweep loop, `neg` its sign flag,
`point` the mapped decimal-point slot, `n` the digit count. -/

/-- Slot `j` is a leading zero that the sweep suppresses: the remaining number
`a / 10^(n-1-j)` is zero, the slot lies left of the decimal-point slot and is not the
last slot (the negation of the condition `num || i>point-1 || i==_numOfDigits-1`). -/
def suppressed (n : Nat) (a : Nat) (point : Int) (j : Nat) : Prop :=
  a / 10 ^ (n - 1 - j) = 0 ∧ (j : Int) ≤ point - 1 ∧ j + 1 < n

instance (n a : Nat) (point : Int) (j : Nat) : Decidable (suppressed n a point j) := by
  unfold suppressed; infer_instance

/-- The pattern on slot `j`: the digit `a / 10^(n-1-j) mod 10` unless the slot is a
suppressed zero; the rightmost suppressed slot carries the minus sign of a negative
number, the other suppressed slots are blank. -/
def slotGlyph (n : Nat) (a : Nat) (neg : Bool) (point : Int) (j : Nat) : List Bool :=
  if suppressed n a point j then
    if neg = true ∧ ¬ suppressed n a point (j + 1) then pattern (writeDigitChar 45)
    else pattern (writeDigitChar 32)
  else pattern (writeDigit (Int.ofNat (a / 10 ^ (n - 1 - j) % 10)))

/-- The frames of a sweep in closed form: slots `k-1, ..., 0` in this order. -/
def sweepFrames (n : Nat) (a : Nat) (neg : Bool) (point : Int) (k : Nat) : List Frame :=
  (List.range k).reverse.map
    (fun j => Frame.mk (Slot.digit (Int.ofNat j)) (slotGlyph n a neg point j)
      (decide (point = Int.ofNat j)))

/-! ## Pin layer -/

/-- The pin of a segment. -/
def segPin (s : State) : Seg → Int
  | Seg.A => s.A
  | Seg.B => s.B
  | Seg.C => s.C
  | Seg.D => s.D
  | Seg.E => s.E
  | Seg.F => s.F
  | Seg.G => s.G

/-- One segment write of `writeDigit` as a `digitalWrite`. -/
def segWrite (s : State) (w : Seg × Bool) : Event :=
  Event.digitalWrite (segPin s w.1) (if w.2 then s.segOn else s.segOff)

/-- The array read `_dig[i]`; a read outside the stored pins is not modelled and
yields pin `0`. -/
def digPin (s : State) (i : Int) : Int := if i < 0 then 0 else s.dig.getD i.toNat 0

/-- The method `SevenSeg::clearDisp()`. -/
def clearDisp (s : State) : List Event :=
  (List.range s.numOfDigits.toNat).map
    (fun (i : Nat) => Event.digitalWrite (digPin s (Int.ofNat i)) s.digOff)
  ++ [Event.digitalWrite s.A s.segOff, Event.digitalWrite s.B s.segOff,
      Event.digitalWrite s.C s.segOff, Event.digitalWrite s.D s.segOff,
      Event.digitalWrite s.E s.segOff, Event.digitalWrite s.F s.segOff,
      Event.digitalWrite s.G s.segOff]
  ++ (if s.DP ≠ -1 then [Event.digitalWrite s.DP s.segOff] else [])
  ++ (if s.symbDigPin ≠ -1 then [Event.digitalWrite s.symbDigPin s.digOff] else [])

/-- The method `SevenSeg::changeDigit(int digit)`. -/
def changeDigit (s : State) (digit : Int) : List Event :=
  clearDisp s ++ [Event.digitalWrite (digPin s digit) s.digOn]

/-- The method `SevenSeg::changeDigit(char digit)`. -/
def changeDigitChar (s : State) (digit : Int) : List Event :=
  (if digit = 115 then
      clearDisp s
      ++ [Event.digitalWrite s.symbDigPin s.digOn,
          Event.digitalWrite s.colonSegPin s.colonState,
          Event.digitalWrite s.colonSegLPin s.colonState,
          Event.digitalWrite s.aposSegPin s.aposState]
    else [])
  ++ (if digit = 32 then clearDisp s else [])

/-- The method `SevenSeg::setColon()`. -/
def setColon (s : State) : State × List Event :=
  ({ s with colonState := s.segOn },
    if s.symbDigPin = -1 then [Event.digitalWrite s.colonSegPin s.segOn] else [])

/-- The method `SevenSeg::clearColon()`. -/
def clearColon (s : State) : State × List Event :=
  ({ s with colonState := s.segOff },
    if s.symbDigPin = -1 then [Event.digitalWrite s.colonSegPin s.segOff] else [])

/-- The method `SevenSeg::execDelay(int usec)`; the argument is taken as passed. -/
def execDelay (usec : Int) : List Event :=
  if usec ≠ 0 then
    if usec ≤ 16383 then [Event.delayMicroseconds usec] else [Event.delay (Int.tdiv usec 1000)]
  else []

/-- The fields and the hardware events of one low-level call. -/
def execCall (s : State) : Call → State × List Event
  | Call.changeDigit digit => (s, changeDigit s digit)
  | Call.changeDigitChar digit => (s, changeDigitChar s digit)
  | Call.writeDigit digit => (s, (writeDigit digit).map (segWrite s))
  | Call.writeDigitChar digit => (s, (writeDigitChar digit).map (segWrite s))
  | Call.setDP => (s, [Event.digitalWrite s.DP s.segOn])
  | Call.clearDP => (s, [Event.digitalWrite s.DP s.segOff])
  | Call.setColon => setColon s
  | Call.clearColon => clearColon s
  | Call.execDelay usec => (s, execDelay usec)

/-- The fields and the hardware events of a sequence of calls, in program order. -/
def execCalls : State → List Call → State × List Event
  | s, [] => (s, [])
  | s, c :: cs =>
    let r := execCall s c
    let r2 := execCalls r.1 cs
    (r2.1, r.2 ++ r2.2)

/-- The levels written to one pin, in program order. -/
def pinWrites (pin : Int) : List Event → List Int
  | [] => []
  | Event.digitalWrite p level :: es =>
    if p = pin then level :: pinWrites pin es else pinWrites pin es
  | _ :: es => pinWrites pin es

/-- The colon calls and the delays among a sequence of calls. -/
def colonTimeline (cs : List Call) : List Call :=
  cs.filter (fun c =>
    match c with
    | Call.setColon => true
    | Call.clearColon => true
    | Call.execDelay _ => true
    | _ => false)

/-! ## Example objects -/

/-- The object after the constructor `SevenSeg(2,3,4,5,6,7,8)` (common anode) and
`setDigitPins(numOfDigits, pins)` with the pins `10, 11, ...`, which sets the refresh
rate to 100 Hz; `timerID` is `-1` when no timer is set. -/
def exampleState (numOfDigits : Int) (timerID : Int) : State :=
  { A := 2, B := 3, C := 4, D := 5, E := 6, F := 7, G := 8, DP := -1,
    colonState := 1, aposState := 1, colonSegPin := -1, colonSegLPin := -1,
    aposSegPin := -1, symbDigPin := -1,
    dig := (List.range numOfDigits.toNat).map (fun (i : Nat) => 10 + Int.ofNat i),
    numOfDigits := numOfDigits,
    digitDelay := Int.tdiv 10000 numOfDigits, digitOnDelay := Int.tdiv 10000 numOfDigits,
    digitOffDelay := 0, dutyCycle := 100, digOn := 1, digOff := 0, segOn := 0, segOff := 1,
    timerDigit := 0, timerPhase := 1, timerID := timerID, timerCounter := 0,
    timerCounterOnEnd := 0, timerCounterOffEnd := 0, writeInt := 0, writePoint := 0,
    writeStr := [], writeMode := 32, writeStrObj := [] }

/-- A tick-driven object: timer 0 set and started, colon pin 9, duty cycle 50 percent
(`updDelay`: on- and off-delay 1250 microseconds, both counter ends `1250/16 - 1 = 77`). -/
def exampleTickState : State :=
  { exampleState 4 0 with
    colonSegPin := 9, dutyCycle := 50, digitOnDelay := 1250, digitOffDelay := 1250,
    timerCounterOnEnd := 77, timerCounterOffEnd := 77 }

/-- The state after `k` ticks (calls of `interruptAction`), cursor and staged target. -/
def ticks : Nat → State → State
  | 0, s => s
  | k + 1, s => ticks k (interruptAction s).1

/-- The tick-driven object with the clock `02:05` staged by `writeClock(2, 5, ':')` and
the given cursor. -/
def clockCursor (timerDigit timerPhase timerCounter : Int) : State :=
  { (writeClock exampleTickState 2 5 58).1 with
    timerDigit := timerDigit, timerPhase := timerPhase, timerCounter := timerCounter }

/-- The clock object at the last tick of the off-part of slot 3: the next tick selects
slot 0. -/
def exampleClockTick : State := clockCursor 3 0 76

/-- The tick-driven object with the number `-7` staged by `write(-7, 0)`, at the last
tick of the off-part of slot 1: the next tick selects slot 2. -/
def exampleFixedTick : State :=
  { (write exampleTickState (-7) 0).1 with
    timerDigit := 1, timerPhase := 0, timerCounter := 76 }

/-- The synchronous four-digit object after `setColonPin(9)`. -/
def exampleColonState : State := { exampleState 4 (-1) with colonSegPin := 9 }

/-- A dedicated colon pin (`setColonPin`, no symbol digit): the colon pin is assigned
and is none of the segment pins, the decimal-point pin or the digit pins. -/
def dedicatedColon (s : State) : Prop :=
  s.symbDigPin = -1 ∧ s.colonSegPin ≠ -1
  ∧ s.colonSegPin ∉ [s.A, s.B, s.C, s.D, s.E, s.F, s.G, s.DP]
  ∧ ∀ i : Nat, i < s.numOfDigits.toNat → digPin s (Int.ofNat i) ≠ s.colonSegPin

instance (s : State) : Decidable (dedicatedColon s) := by
  unfold dedicatedColon; infer_instance

/-- The levels that the colon calls among a sequence of calls write to a dedicated
colon pin: `setColon` writes `lvOn`, `clearColon` writes `lvOff`. -/
def colonLevels (lvOn lvOff : Int) : List Call → List Int
  | [] => []
  | Call.setColon :: cs => lvOn :: colonLevels lvOn lvOff cs
  | Call.clearColon :: cs => lvOff :: colonLevels lvOn lvOff cs
  | _ :: cs => colonLevels lvOn lvOff cs

/-- The call selects an ordinary digit slot below `n`, or selects no slot at all. -/
def selectsBelow (n : Nat) : Call → Prop
  | Call.changeDigit i => 0 ≤ i ∧ i < (n : Int)
  | Call.changeDigitChar _ => False
  | _ => True

/-- The decimal digits of a natural number, most significant first; `0` has the one
digit `0`. -/
def decimalDigits (a : Nat) : List Nat := if a = 0 then [0] else (Nat.digits 10 a).reverse

/-- The glyphs a reader sees on the `n` digit slots after a synchronous sweep. -/
def readRow (cs : List Call) (n : Nat) : List Glyph :=
  (displayRow (frames none cs) n).map (fun o => (o.map readGlyph).getD Glyph.other)

/-! ## Configuration and timing -/

/-- The method `SevenSeg::setCommonAnode()`; `HIGH` is `1`, `LOW` is `0`. -/
def setCommonAnode (s : State) : State :=
  { s with digOn := 1, digOff := 0, segOn := 0, segOff := 1 }

/-- The method `SevenSeg::setCommonCathode()`. -/
def setCommonCathode (s : State) : State :=
  { s with digOn := 0, digOff := 1, segOn := 1, segOff := 0 }

/-- The C operator `!` on an `int`. -/
def logicalNot (x : Int) : Int := if x = 0 then 1 else 0

/-- The method `SevenSeg::setActivePinState(int segActive, int digActive)`. -/
def setActivePinState (s : State) (segActive : Int) (digActive : Int) : State :=
  { s with digOn := digActive, digOff := logicalNot digActive,
           segOn := segActive, segOff := logicalNot segActive }

/-- The method `SevenSeg::updDelay()`.  `temp` is a `long int`: the product is reduced
to 32 bits, as is the difference `_digitDelay-_digitOnDelay`; the quotients by 16 and
the subtraction of 1 stay in range.  `cli()`/`sei()` mask the interrupt while the two
counter ends change and have no effect on the fields. -/
def updDelay (s : State) : State :=
  let temp := s.digitDelay
  let temp := wrapLong (temp * s.dutyCycle)
  let temp := Int.tdiv temp 100
  let digitOnDelay := temp
  let digitOffDelay := wrapLong (s.digitDelay - digitOnDelay)
  if s.timerID ≠ -1 then
    let timerCounterOnEnd := Int.tdiv digitOnDelay 16 - 1
    let timerCounterOffEnd := Int.tdiv digitOffDelay 16 - 1
    let timerCounterOnEnd := if digitOnDelay = 0 then 0 else timerCounterOnEnd
    let timerCounterOffEnd := if digitOffDelay = 0 then 0 else timerCounterOffEnd
    { s with digitOnDelay := digitOnDelay, digitOffDelay := digitOffDelay,
             timerCounterOnEnd := timerCounterOnEnd, timerCounterOffEnd := timerCounterOffEnd }
  else
    { s with digitOnDelay := digitOnDelay, digitOffDelay := digitOffDelay }

/-- The method `SevenSeg::setDigitDelay(long int delay)`. -/
def setDigitDelay (s : State) (delay : Int) : State :=
  updDelay { s with digitDelay := delay }

/-- The method `SevenSeg::setDutyCycle(int dc)`. -/
def setDutyCycle (s : State) (dc : Int) : State :=
  updDelay { s with dutyCycle := dc }

/-- The method `SevenSeg::setRefreshRate(int freq)`; `none` when one of the divisions
performed divides by zero.  `period/_numOfDigits` is evaluated before the symbol digit
is looked at. -/
def setRefreshRate (s : State) (freq : Int) : Option State :=
  if freq = 0 then none
  else
    let period := Int.tdiv 1000000 freq
    if s.numOfDigits = 0 then none
    else
      let digitDelay := Int.tdiv period s.numOfDigits
      if s.symbDigPin ≠ -1 then
        if s.numOfDigits + 1 = 0 then none
        else some (setDigitDelay s (Int.tdiv period (s.numOfDigits + 1)))
      else some (setDigitDelay s digitDelay)

/-- The constructor `SevenSeg::SevenSeg(int A,...,int G)`: the fields it sets and the
writes of its `clearDisp()`.  The digit-pin array is not yet assigned and the staged
texts are empty; the `pinMode` calls write no level. -/
def construct (A B C D E F G : Int) : State × List Event :=
  let s : State :=
    { A := A, B := B, C := C, D := D, E := E, F := F, G := G, DP := -1,
      colonState := 1, aposState := 1, colonSegPin := -1, colonSegLPin := -1,
      aposSegPin := -1, symbDigPin := -1, dig := [], numOfDigits := 0,
      digitDelay := 0, digitOnDelay := 0, digitOffDelay := 0, dutyCycle := 100,
      digOn := 1, digOff := 0, segOn := 0, segOff := 1,
      timerDigit := 0, timerPhase := 1, timerID := -1, timerCounter := 0,
      timerCounterOnEnd := 0, timerCounterOffEnd := 0, writeInt := 0, writePoint := 0,
      writeStr := [], writeMode := 32, writeStrObj := [] }
  (s, clearDisp s)

/-- The method `SevenSeg::setDigitPins(int numOfDigits, int *pDigitPins)`: the fields
and the writes of its `clearDisp()` (the `pinMode` calls write no level); `none` when
`setRefreshRate(100)` divides by zero. -/
def setDigitPins (s : State) (numOfDigits : Int) (pDigitPins : List Int) :
    Option (State × List Event) :=
  let s1 := { s with dig := pDigitPins, numOfDigits := numOfDigits }
  (setRefreshRate s1 100).map (fun s2 => (s2, clearDisp s1))

/-- The method `SevenSeg::setColonPin(int colonPin)`. -/
def setColonPin (s : State) (colonPin : Int) : State × List Event :=
  ({ s with colonSegPin := colonPin }, [Event.digitalWrite colonPin s.colonState])

/-- The method `SevenSeg::setSymbPins(int digPin, int segUCPin, int segLCPin,
int segAPin)`. -/
def setSymbPins (s : State) (digPin segUCPin segLCPin segAPin : Int) : State × List Event :=
  ({ s with colonSegPin := segUCPin, colonSegLPin := segLCPin, aposSegPin := segAPin,
            symbDigPin := digPin, aposState := s.segOff, colonState := s.segOff },
    [Event.digitalWrite segUCPin s.segOff, Event.digitalWrite segLCPin s.segOff,
     Event.digitalWrite segAPin s.segOff])

/-- The method `SevenSeg::setTimer(int timerID)` (the ATmega variant; on other targets
the four timer methods are empty). -/
def setTimer (s : State) (timerID : Int) : State := { s with timerID := timerID }

/-- The method `SevenSeg::startTimer()` (the ATmega variant): after the timer registers
are programmed, `updDelay(); _timerCounter=0;`. -/
def startTimer (s : State) : State := { updDelay s with timerCounter := 0 }

/-! ## Text sweeps -/

/-- The sweep loop of `write(char *str)`, `while(str[i]!=0)`, from the indices `i` and
`j`.  Every iteration moves `i` forward, and `str[i]!=0` holds only inside the stored
characters: the loop ends. -/
def writeStrLoop (s : State) (str : List Int) (i : Nat) (j : Int) : List Call :=
  if strAt str i ≠ 0 then
    [Call.changeDigit j, Call.writeDigitChar (strAt str i)]
    ++ (if strAt str (i + 1) = 46 then [Call.setDP] else [])
    ++ [Call.execDelay s.digitOnDelay, Call.writeDigitChar 32, Call.clearDP,
        Call.execDelay s.digitOffDelay]
    ++ writeStrLoop s str ((if strAt str (i + 1) = 46 then i + 1 else i) + 1) (j + 1)
  else []
termination_by str.length - i
decreasing_by
  rename_i hne
  have hi : i < str.length := by
    by_contra hc
    apply hne
    unfold strAt
    exact List.getD_eq_default _ _ (by omega)
  split_ifs <;> omega

/-- The method `SevenSeg::write(char *str)`. -/
def writeCStr (s : State) (str : List Int) : State × List Call :=
  if s.timerID = -1 then
    (s, [Call.clearColon] ++ writeStrLoop s str 0 0)
  else
    ({ s with writeMode := 115, writeStr := str }, [])

/-- The sweep loop of `write(String str)`, `while(i<str.length())`, from the indices
`i` and `j`. -/
def writeStringLoop (s : State) (str : List Int) (i : Nat) (j : Int) : List Call :=
  if i < str.length then
    [Call.changeDigit j, Call.writeDigitChar (strAt str i)]
    ++ (if strAt str (i + 1) = 46 then [Call.setDP] else [])
    ++ [Call.execDelay s.digitOnDelay, Call.writeDigitChar 32, Call.clearDP,
        Call.execDelay s.digitOffDelay]
    ++ writeStringLoop s str ((if strAt str (i + 1) = 46 then i + 1 else i) + 1) (j + 1)
  else []
termination_by str.length - i
decreasing_by
  split_ifs <;> omega

/-- The method `SevenSeg::write(String str)`. -/
def writeString (s : State) (str : List Int) : State × List Call :=
  if s.timerID = -1 then
    (s, [Call.clearColon] ++ writeStringLoop s str 0 0)
  else
    ({ s with writeMode := 111, writeStrObj := str }, [])

/-- The text built from (glyph, point flag) pairs: each glyph, followed by `'.'` exactly
when its flag is set. -/
def buildText (l : List (Int × Bool)) : List Int :=
  l.flatMap (fun p => if p.2 then [p.1, 46] else [p.1])

/-- The calls of one slot of a text sweep: slot `j`, glyph `g`, decimal point `b`. -/
def textSlot (s : State) (j : Int) (g : Int) (b : Bool) : List Call :=
  [Call.changeDigit j, Call.writeDigitChar g]
  ++ (if b then [Call.setDP] else [])
  ++ [Call.execDelay s.digitOnDelay, Call.writeDigitChar 32, Call.clearDP,
      Call.execDelay s.digitOffDelay]

/-- The calls of a text sweep over the pairs `l`, the first on slot `j`. -/
def textSweep (s : State) : List (Int × Bool) → Int → List Call
  | [], _ => []
  | p :: l, j => textSlot s j p.1 p.2 ++ textSweep s l (j + 1)

/-! ## Pin levels -/

/-- The pin levels after one hardware event: `digitalWrite` sets the level of its pin
(the level is the value written), a delay changes nothing. -/
def applyEvent (lv : Int → Int) : Event → Int → Int
  | Event.digitalWrite pin level => fun p => if p = pin then level else lv p
  | _ => lv

/-- The pin levels after a sequence of events, from the levels `lv`. -/
def applyEvents (lv : Int → Int) (es : List Event) : Int → Int := es.foldl applyEvent lv

/-- The pin levels after each single event of a sequence, in program order. -/
def pinStates : (Int → Int) → List Event → List (Int → Int)
  | _, [] => []
  | lv, e :: es => applyEvent lv e :: pinStates (applyEvent lv e) es

/-- The digit-common pins: the `_numOfDigits` pins of the array, and the symbol digit
pin when assigned. -/
def digitPins (s : State) : List Int :=
  (List.range s.numOfDigits.toNat).map (fun (i : Nat) => digPin s (Int.ofNat i))
  ++ (if s.symbDigPin ≠ -1 then [s.symbDigPin] else [])

/-- The segment pins: A to G, and the decimal-point pin when assigned. -/
def segmentPins (s : State) : List Int :=
  [s.A, s.B, s.C, s.D, s.E, s.F, s.G] ++ (if s.DP ≠ -1 then [s.DP] else [])

/-- The digit-common and segment pins are pairwise distinct. -/
def distinctPins (s : State) : Prop := (digitPins s ++ segmentPins s).Nodup

instance (s : State) : Decidable (distinctPins s) := by
  unfold distinctPins; infer_instance

/-- The digit-common pins that are asserted (at the digit-on level). -/
def assertedDigits (s : State) (lv : Int → Int) : List Int :=
  (digitPins s).filter (fun p => decide (lv p = s.digOn))

/-- The symbol segment pins written by `changeDigit('s')` are no digit-common pins. -/
def symbolSegsApart (s : State) : Prop :=
  s.colonSegPin ∉ digitPins s ∧ s.colonSegLPin ∉ digitPins s ∧ s.aposSegPin ∉ digitPins s

instance (s : State) : Decidable (symbolSegsApart s) := by
  unfold symbolSegsApart; infer_instance

/-- The segment is lit after a sequence of segment writes: the last write to it is an
on-write. -/
def lit (ws : List (Seg × Bool)) (x : Seg) : Bool :=
  (((ws.filter (fun w => decide (w.1 = x))).getLast?).map Prod.snd).getD false

/-- The standard seven-segment shapes of the decimal digits. -/
def standardPattern (d : Int) : List Seg :=
  if d = 0 then [Seg.A, Seg.B, Seg.C, Seg.D, Seg.E, Seg.F]
  else if d = 1 then [Seg.B, Seg.C]
  else if d = 2 then [Seg.A, Seg.B, Seg.D, Seg.E, Seg.G]
  else if d = 3 then [Seg.A, Seg.B, Seg.C, Seg.D, Seg.G]
  else if d = 4 then [Seg.B, Seg.C, Seg.F, Seg.G]
  else if d = 5 then [Seg.A, Seg.C, Seg.D, Seg.F, Seg.G]
  else if d = 6 then [Seg.A, Seg.C, Seg.D, Seg.E, Seg.F, Seg.G]
  else if d = 7 then [Seg.A, Seg.B, Seg.C]
  else if d = 8 then [Seg.A, Seg.B, Seg.C, Seg.D, Seg.E, Seg.F, Seg.G]
  else if d = 9 then [Seg.A, Seg.B, Seg.C, Seg.D, Seg.F, Seg.G]
  else []

/-- The character is one the encoder knows: a digit, a letter, `'-'` or the degree
code 248. -/
def knownGlyph (c : Int) : Prop :=
  (48 ≤ c ∧ c ≤ 57) ∨ (65 ≤ c ∧ c ≤ 90) ∨ (97 ≤ c ∧ c ≤ 122) ∨ c = 45 ∨ c = 248

instance (c : Int) : Decidable (knownGlyph c) := by
  unfold knownGlyph; infer_instance

/-! ## Phase transitions of a tick -/

/-- The tick performs the ON-to-OFF transition: the condition of the first `if` of
`interruptAction` holds after the counter increment. -/
def onToOff (s : State) : Prop :=
  (iaCount s).timerCounter ≥ (iaCount s).timerCounterOnEnd ∧ (iaCount s).timerPhase = 1

instance (s : State) : Decidable (onToOff s) := by
  unfold onToOff; infer_instance

/-- The tick performs the OFF-to-ON transition: the condition of the second `if` of
`interruptAction` holds when it is reached, after the first `if`. -/
def offToOn (s : State) : Prop :=
  (iaOnEnd (iaCount s)).1.timerCounter ≥ (iaOnEnd (iaCount s)).1.timerCounterOffEnd
  ∧ (iaOnEnd (iaCount s)).1.timerPhase = 0

instance (s : State) : Decidable (offToOn s) := by
  unfold offToOn; infer_instance

/-- The object after `SevenSeg(2,3,4,5,6,7,8)`, `setDigitPins(4, pins)`, `setTimer(0)`,
`startTimer()` and `write(1234, 0)`: duty cycle 100 percent, as the constructor leaves
it. -/
def exampleStarted : State := (write (startTimer (setTimer (exampleState 4 (-1)) 0)) 1234 0).1

/-- The four-digit object after `setSymbPins(14, 2, 3, 4)`: symbol digit pin 14, the
colon and apostrophe segments on the segment pins 2, 3 and 4. -/
def exampleSymbolState : State := (setSymbPins (exampleState 4 (-1)) 14 2 3 4).1

/-- The started object with the counter at `c`. -/
def startedCursor (c : Int) : State := { exampleStarted with timerCounter := c }

/-! ## Further methods and observations -/

/-- The method `SevenSeg::write(long int num)`. -/
def writeLong (s : State) (num : Int) : State × List Call :=
  if s.timerID = -1 then write s num 0
  else ({ s with writeMode := 105, writeInt := iaLimitInt s num }, [])

/-- The method `SevenSeg::setDPPin(int DPPin)` (its `pinMode` call writes no level). -/
def setDPPin (s : State) (DPPin : Int) : State := { s with DP := DPPin }

/-- The slots a sequence of calls selects, in program order: `changeDigit(i)` selects
the digit slot `i`, `changeDigit('s')` the symbol slot, any other `changeDigit(char)`
selects none. -/
def selectedSlots : List Call → List Slot
  | [] => []
  | Call.changeDigit i :: cs => Slot.digit i :: selectedSlots cs
  | Call.changeDigitChar c :: cs =>
    if c = 115 then Slot.symbol :: selectedSlots cs else selectedSlots cs
  | _ :: cs => selectedSlots cs

/-- The fields outside the staged target (`_writeMode`, `_writeInt`, `_writePoint`,
`_writeStr`) are the same in both objects: pins, flags, digit count, timing, polarity,
cursor, counter ends and the staged `String`. -/
def sameOutsideTarget (s t : State) : Prop :=
  (t.A = s.A ∧ t.B = s.B ∧ t.C = s.C ∧ t.D = s.D ∧ t.E = s.E ∧ t.F = s.F ∧ t.G = s.G
    ∧ t.DP = s.DP)
  ∧ (t.colonState = s.colonState ∧ t.aposState = s.aposState)
  ∧ (t.colonSegPin = s.colonSegPin ∧ t.colonSegLPin = s.colonSegLPin
    ∧ t.aposSegPin = s.aposSegPin ∧ t.symbDigPin = s.symbDigPin ∧ t.dig = s.dig
    ∧ t.numOfDigits = s.numOfDigits)
  ∧ (t.digitDelay = s.digitDelay ∧ t.digitOnDelay = s.digitOnDelay
    ∧ t.digitOffDelay = s.digitOffDelay ∧ t.dutyCycle = s.dutyCycle)
  ∧ (t.digOn = s.digOn ∧ t.digOff = s.digOff ∧ t.segOn = s.segOn ∧ t.segOff = s.segOff)
  ∧ (t.timerDigit = s.timerDigit ∧ t.timerPhase = s.timerPhase ∧ t.timerID = s.timerID
    ∧ t.timerCounter = s.timerCounter ∧ t.timerCounterOnEnd = s.timerCounterOnEnd
    ∧ t.timerCounterOffEnd = s.timerCounterOffEnd)
  ∧ t.writeStrObj = s.writeStrObj

/-- The object with the tick counter at `c`. -/
def withCounter (s : State) (c : Int) : State := { s with timerCounter := c }

/-- One tick at pin level: `interruptAction()` with the fields and the hardware events
of the calls it performs. -/
def tick (s : State) : State × List Event :=
  execCalls (interruptAction s).1 (interruptAction s).2

/-- The object and the pin levels after `k` ticks. -/
def runTicks : Nat → State → (Int → Int) → State × (Int → Int)
  | 0, s, lv => (s, lv)
  | k + 1, s, lv => runTicks k (tick s).1 (applyEvents lv (tick s).2)

/-- The number `iaExtractDigit` looks at for one digit: the magnitude (`number*=-1` for
a negative number), divided by ten `_numOfDigits-digit-1` times unless the digit is the
last one. -/
def iaShifted (s : State) (number digit : Int) : Int :=
  if digit ≠ s.numOfDigits - 1 then
    divTenLoop (s.numOfDigits - digit - 1).toNat
      (if number < 0 then wrapLong (number * -1) else number)
  else (if number < 0 then wrapLong (number * -1) else number)

/-- The method `iaExtractDigit` with its recursion made explicit: `fuel` bounds the
number of nested activations; the result comes with the `digit` arguments of the nested
recursive calls, outermost first (the two recursive calls of one activation have the same
arguments); `none` when the fuel does not suffice. -/
def iaExtractDigitTrace (s : State) : Nat → Int → Int → Int → Option (Int × List Int)
  | 0, _, _, _ => none
  | fuel + 1, number, digit, point =>
    let old_number := number
    let minus : Bool := decide (number < 0)
    let number := if number < 0 then wrapLong (number * -1) else number
    let number :=
      if digit ≠ s.numOfDigits - 1 then divTenLoop (s.numOfDigits - digit - 1).toNat number
      else number
    if digit > point - 1 ∨ digit = s.numOfDigits - 1 ∨ number ≠ 0 then
      some (toChar (Int.tmod number 10 + 48), [])
    else
      match iaExtractDigitTrace s fuel old_number (digit + 1) point with
      | none => none
      | some r =>
        some (if r.1 ≠ 45 ∧ r.1 ≠ 32 ∧ minus = true then 45 else 32, (digit + 1) :: r.2)

/-- The four-digit object with the decimal-point pin 9, duty cycle 50 percent, timer 0
set and started, and the text `"1."` staged: by `write(String)` for `true`, by
`write(char*)` for `false`. -/
def exampleTextTick (o : Bool) : State :=
  let s := startTimer (setTimer (setDutyCycle (setDPPin (exampleState 4 (-1)) 9) 50) 0)
  if o then (writeString s [49, 46]).1 else (writeCStr s [49, 46]).1

/-- The text example with the given cursor. -/
def textCursor (o : Bool) (timerDigit timerPhase timerCounter : Int) : State :=
  { exampleTextTick o with
    timerDigit := timerDigit, timerPhase := timerPhase, timerCounter := timerCounter }

/-! ## Configuration order and defaults -/

/-- The divisors of the divisions `setRefreshRate(freq)` executes, in program order, up
to and including the first that is zero: `1000000L/freq`, `period/_numOfDigits`, and
with a symbol digit `period/(_numOfDigits+1)`. -/
def setRefreshRateDivisors (s : State) (freq : Int) : List Int :=
  if freq = 0 then [freq]
  else if s.numOfDigits = 0 then [freq, s.numOfDigits]
  else if s.symbDigPin ≠ -1 then [freq, s.numOfDigits, s.numOfDigits + 1]
  else [freq, s.numOfDigits]

/-- The number of slots of a configuration: the digit count, and one more with a symbol
digit. -/
def slotCount (s : State) : Int := s.numOfDigits + (if s.symbDigPin ≠ -1 then 1 else 0)

/-- The object after `SevenSeg(2,3,4,5,6,7,8)` and `setSymbPins(14, 2, 3, 4)`, with no
digit pins assigned: digit count 0 and a symbol digit. -/
def exampleSymbolOnly : State := (setSymbPins (construct 2 3 4 5 6 7 8).1 14 2 3 4).1

/-- The object after `SevenSeg(2,3,4,5,6,7,8)` and `setCommonCathode()`. -/
def exampleCathode : State := setCommonCathode (construct 2 3 4 5 6 7 8).1

/-- Configuration order "digits first": `setDigitPins(n, pins)` and then
`setSymbPins(14, 2, 3, 4)` on the constructed object. -/
def digitsThenSymbol (n : Int) (pins : List Int) : Option State :=
  (setDigitPins (construct 2 3 4 5 6 7 8).1 n pins).map
    (fun r => (setSymbPins r.1 14 2 3 4).1)

/-- Configuration order "symbol first": `setSymbPins(14, 2, 3, 4)` and then
`setDigitPins(n, pins)` on the constructed object. -/
def symbolThenDigits (n : Int) (pins : List Int) : Option State :=
  (setDigitPins (setSymbPins (construct 2 3 4 5 6 7 8).1 14 2 3 4).1 n pins).map Prod.fst

/-- The four-digit object with a symbol digit in tick-driven mode: `setTimer(0)`,
`startTimer()` and `write(7, 0)` on `exampleSymbolState`, with the given cursor.  The
on-part of a slot ends at counter 155, the off-part has length zero. -/
def symbolCursor (timerDigit timerPhase timerCounter : Int) : State :=
  { (write (startTimer (setTimer exampleSymbolState 0)) 7 0).1 with
    timerDigit := timerDigit, timerPhase := timerPhase, timerCounter := timerCounter }

/-! ## Machine arithmetic without overflow -/

theorem wrapLong_eq {x : Int} (h : isLong x) : wrapLong x = x := by
  unfold isLong LONG_MIN LONG_MAX at h
  unfold wrapLong
  omega

theorem isLong_wrapLong (x : Int) : isLong (wrapLong x) := by
  unfold isLong LONG_MIN LONG_MAX wrapLong
  omega

theorem mulTenLoop_eq (k : Nat) : ∀ x : Int, 0 ≤ x → x * 10 ^ k ≤ LONG_MAX →
    mulTenLoop k x = x * 10 ^ k := by
  induction k with
  | zero => intro x _ _; simp [mulTenLoop]
  | succ k ih =>
    intro x hx h
    have hp : (1 : Int) ≤ 10 ^ k := one_le_pow₀ (by norm_num)
    have h10 : x * 10 ≤ LONG_MAX := by
      have : x * 10 ≤ x * 10 ^ (k + 1) := by
        rw [pow_succ, ← mul_assoc, mul_right_comm]
        exact le_mul_of_one_le_right (by omega) hp
      omega
    have hw : wrapLong (x * 10) = x * 10 :=
      wrapLong_eq ⟨by unfold LONG_MIN; omega, h10⟩
    simp only [mulTenLoop, hw]
    rw [ih (x * 10) (by omega) (by rw [mul_assoc, ← pow_succ']; exact h)]
    rw [mul_assoc, ← pow_succ']

theorem tdiv_natCast (a : Nat) : Int.tdiv (a : Int) 10 = ((a / 10 : Nat) : Int) := by
  rw [Int.tdiv_eq_ediv (Int.ofNat_nonneg a) (by norm_num)]
  norm_cast

theorem tmod_natCast (a : Nat) : Int.tmod (a : Int) 10 = ((a % 10 : Nat) : Int) := by
  rw [Int.tmod_eq_emod (Int.ofNat_nonneg a) (by norm_num)]
  norm_cast

theorem tdiv_natCast' (a : Nat) : Int.tdiv (Int.ofNat a) 10 = Int.ofNat (a / 10) :=
  tdiv_natCast a

theorem tmod_natCast' (a : Nat) : Int.tmod (Int.ofNat a) 10 = Int.ofNat (a % 10) :=
  tmod_natCast a

theorem divTenLoop_natCast (k : Nat) : ∀ a : Nat,
    divTenLoop k (a : Int) = ((a / 10 ^ k : Nat) : Int) := by
  induction k with
  | zero => intro a; simp [divTenLoop]
  | succ k ih =>
    intro a
    simp only [divTenLoop, tdiv_natCast]
    rw [ih (a / 10), Nat.div_div_eq_div_mul, pow_succ']

/-- The two limits computed at the head of `write` and of `iaLimitInt`, when `10^n` is a
`long int`: `maxNegNum` after the loop, `maxPosNum` and the final `maxNegNum`. -/
theorem limits_eq (m : Nat) (h : (10 : Int) ^ (m + 1) ≤ LONG_MAX) :
    mulTenLoop m 1 = 10 ^ m
    ∧ wrapLong (wrapLong (10 * mulTenLoop m 1) - 1) = 10 ^ (m + 1) - 1
    ∧ wrapLong (wrapLong (-mulTenLoop m 1) + 1) = -(10 ^ m) + 1 := by
  have hp : (1 : Int) ≤ 10 ^ m := one_le_pow₀ (by norm_num)
  have hs : (10 : Int) ^ (m + 1) = 10 * 10 ^ m := pow_succ' 10 m
  have hm : mulTenLoop m 1 = 10 ^ m := by
    rw [mulTenLoop_eq m 1 (by norm_num) (by rw [one_mul]; omega), one_mul]
  unfold LONG_MAX at h
  refine ⟨hm, ?_, ?_⟩
  · rw [hm, ← hs]
    rw [wrapLong_eq (x := 10 ^ (m + 1)) ⟨by unfold LONG_MIN; omega, by unfold LONG_MAX; omega⟩]
    exact wrapLong_eq ⟨by unfold LONG_MIN; omega, by unfold LONG_MAX; omega⟩
  · rw [hm]
    rw [wrapLong_eq (x := -(10 ^ m)) ⟨by unfold LONG_MIN; omega, by unfold LONG_MAX; omega⟩]
    exact wrapLong_eq ⟨by unfold LONG_MIN; omega, by unfold LONG_MAX; omega⟩

/-- The clamp of `iaLimitInt` when `10^n` is a `long int`. -/
theorem iaLimitInt_eq (s : State) (m : Nat) (hn : s.numOfDigits = ((m + 1 : Nat) : Int))
    (h : (10 : Int) ^ (m + 1) ≤ LONG_MAX) (v : Int) :
    iaLimitInt s v = max (min v (10 ^ (m + 1) - 1)) (-(10 ^ m) + 1) := by
  obtain ⟨h1, h2, h3⟩ := limits_eq m h
  have hk : (s.numOfDigits - 1).toNat = m := by rw [hn]; omega
  have hp : (1 : Int) ≤ 10 ^ m := one_le_pow₀ (by norm_num)
  have hs : (10 : Int) ^ (m + 1) = 10 * 10 ^ m := pow_succ' 10 m
  simp only [iaLimitInt, hk, h2, h3]
  rw [min_def, max_def]
  split_ifs <;> omega
/-! ## The sweep loop of `write` in closed form -/

theorem suppressed_succ {n a : Nat} {point : Int} {j : Nat}
    (h : suppressed n a point (j + 1)) : suppressed n a point j := by
  obtain ⟨h1, h2, h3⟩ := h
  refine ⟨?_, by omega, by omega⟩
  have e : n - 1 - j = (n - 1 - (j + 1)) + 1 := by omega
  rw [e, pow_succ, ← Nat.div_div_eq_div_mul, h1]

/-- One iteration of the sweep loop of `write` shows one frame. -/
theorem frames_writeLoop_succ (s : State) (point : Int) (k : Nat) (num : Int) (minus : Bool)
    (cur : Option Frame) :
    frames cur (writeLoop s point (k + 1) num minus)
    = Frame.mk (Slot.digit (Int.ofNat k))
        (if num ≠ 0 ∨ (k : Int) > point - 1 ∨ (k : Int) = s.numOfDigits - 1 then
            pattern (writeDigit (Int.tmod num 10))
          else if minus = true then pattern (writeDigitChar 45)
          else pattern (writeDigitChar 32))
        (decide (point = Int.ofNat k))
      :: frames none (writeLoop s point k (Int.tdiv num 10)
          (if num ≠ 0 ∨ (k : Int) > point - 1 ∨ (k : Int) = s.numOfDigits - 1 then minus
            else if minus = true then false else minus)) := by
  by_cases hsh : num ≠ 0 ∨ (k : Int) > point - 1 ∨ (k : Int) = s.numOfDigits - 1
  · by_cases hp : point = (k : Int)
    · simp [writeLoop, frames, showCall, hsh, hp]
    · simp [writeLoop, frames, showCall, hsh, hp]
  · cases minus
    · by_cases hp : point = (k : Int)
      · simp [writeLoop, frames, showCall, hsh, hp]
      · simp [writeLoop, frames, showCall, hsh, hp]
    · by_cases hp : point = (k : Int)
      · simp [writeLoop, frames, showCall, hsh, hp]
      · simp [writeLoop, frames, showCall, hsh, hp]

theorem frames_writeLoop (s : State) (n a : Nat) (neg : Bool) (point : Int)
    (hn : s.numOfDigits = (n : Int)) (k : Nat) : k ≤ n → ∀ cur : Option Frame,
    frames cur (writeLoop s point k (Int.ofNat (a / 10 ^ (n - k)))
      (decide (neg = true ∧ ¬ suppressed n a point k)))
    = sweepFrames n a neg point k := by
  induction k with
  | zero => intro _ cur; simp [writeLoop, frames, sweepFrames]
  | succ k ih =>
    intro hk cur
    have ih' := ih (by omega) none
    have e1 : n - (k + 1) = n - 1 - k := by omega
    have e2 : Int.tdiv (Int.ofNat (a / 10 ^ (n - (k + 1)))) 10 = Int.ofNat (a / 10 ^ (n - k)) := by
      have e : n - k = (n - (k + 1)) + 1 := by omega
      rw [e, pow_succ, ← Nat.div_div_eq_div_mul]
      exact tdiv_natCast _
    have e3 : Int.tmod (Int.ofNat (a / 10 ^ (n - (k + 1)))) 10
        = Int.ofNat (a / 10 ^ (n - 1 - k) % 10) := by
      rw [e1]; exact tmod_natCast _
    have hshow : (Int.ofNat (a / 10 ^ (n - (k + 1))) ≠ 0 ∨ (k : Int) > point - 1
        ∨ (k : Int) = s.numOfDigits - 1) ↔ ¬ suppressed n a point k := by
      unfold suppressed
      rw [e1, hn]
      constructor
      · rintro h ⟨h1, h2, h3⟩
        rcases h with h | h | h
        · exact h (by simp [h1])
        · omega
        · omega
      · intro h
        by_cases c1 : a / 10 ^ (n - 1 - k) = 0
        · by_cases c2 : (k : Int) ≤ point - 1
          · right; right
            by_contra c3
            exact h ⟨c1, c2, by omega⟩
          · right; left; omega
        · left
          intro h0
          exact c1 (Int.ofNat.inj h0)
    have hlist : sweepFrames n a neg point (k + 1)
        = Frame.mk (Slot.digit (Int.ofNat k)) (slotGlyph n a neg point k)
            (decide (point = Int.ofNat k)) :: sweepFrames n a neg point k := by
      simp [sweepFrames, List.range_succ]
    rw [hlist, ← ih', frames_writeLoop_succ, e2, e3]
    by_cases hs : suppressed n a point k
    · have hns : ¬ (Int.ofNat (a / 10 ^ (n - (k + 1))) ≠ 0 ∨ (k : Int) > point - 1
          ∨ (k : Int) = s.numOfDigits - 1) := fun h => (hshow.mp h) hs
      have hd : decide (neg = true ∧ ¬ suppressed n a point k) = false := by simp [hs]
      have hb : ∀ b : Bool, (if b = true then false else b) = false := by
        intro b; cases b <;> rfl
      rw [if_neg hns, if_neg hns, hb, hd]
      unfold slotGlyph
      rw [if_pos hs]
      simp only [decide_eq_true_eq]
    · have hsh := hshow.mpr hs
      have hd : decide (neg = true ∧ ¬ suppressed n a point (k + 1))
          = decide (neg = true ∧ ¬ suppressed n a point k) := by
        have : ¬ suppressed n a point (k + 1) := fun h => hs (suppressed_succ h)
        simp [hs, this]
      rw [if_pos hsh, if_pos hsh, hd]
      unfold slotGlyph
      rw [if_neg hs]
/-! ## Digits on the display -/

/-- The `char` overload of `writeDigit` on a digit character leaves the pattern of the
`int` overload on that digit. -/
theorem pattern_writeDigitChar_digit (d : Nat) (hd : d < 10) :
    pattern (writeDigitChar (Int.ofNat d + 48)) = pattern (writeDigit (Int.ofNat d)) := by
  interval_cases d <;> decide

theorem toChar_digit (d : Nat) (hd : d < 10) : toChar (Int.ofNat d + 48) = Int.ofNat d + 48 := by
  unfold toChar
  have : (Int.ofNat d) = (d : Int) := rfl
  omega

/-! ## `iaExtractDigit` in closed form -/

/-- The magnitude computed at the head of `write` and of `iaExtractDigit`. -/
theorem negate_eq (c : Int) (h1 : LONG_MIN < c) (h2 : c ≤ LONG_MAX) :
    (if c < 0 then wrapLong (c * -1) else c) = Int.ofNat c.natAbs := by
  unfold LONG_MIN at h1
  unfold LONG_MAX at h2
  have : Int.ofNat c.natAbs = (c.natAbs : Int) := rfl
  split_ifs with h
  · unfold wrapLong; omega
  · omega

/-- One unfolding of `iaExtractDigit` on a slot of the display. -/
theorem iaExtractDigit_step (s : State) (n : Nat) (hn : s.numOfDigits = (n : Int)) (c : Int)
    (h1 : LONG_MIN < c) (h2 : c ≤ LONG_MAX) (point : Int) (j : Nat) (hj : j < n) :
    iaExtractDigit s c (Int.ofNat j) point
    = if suppressed n c.natAbs point j then
        (if iaExtractDigit s c (Int.ofNat j + 1) point ≠ 45
            ∧ iaExtractDigit s c (Int.ofNat j + 1) point ≠ 32 ∧ c < 0 then 45 else 32)
      else Int.ofNat (c.natAbs / 10 ^ (n - 1 - j) % 10) + 48 := by
  rw [iaExtractDigit]
  simp only [negate_eq c h1 h2]
  have hnum : (if Int.ofNat j ≠ s.numOfDigits - 1 then
        divTenLoop (s.numOfDigits - Int.ofNat j - 1).toNat (Int.ofNat c.natAbs)
      else Int.ofNat c.natAbs) = Int.ofNat (c.natAbs / 10 ^ (n - 1 - j)) := by
    have hofn : Int.ofNat j = (j : Int) := rfl
    have e : (s.numOfDigits - Int.ofNat j - 1).toNat = n - 1 - j := by rw [hn, hofn]; omega
    split_ifs with h
    · rw [e]; exact divTenLoop_natCast _ _
    · have : n - 1 - j = 0 := by rw [hn, hofn] at h; omega
      rw [this]; simp
  rw [hnum]
  have hofn : Int.ofNat j = (j : Int) := rfl
  by_cases hs : suppressed n c.natAbs point j
  · have hcond : ¬ (Int.ofNat j > point - 1 ∨ Int.ofNat j = s.numOfDigits - 1
        ∨ Int.ofNat (c.natAbs / 10 ^ (n - 1 - j)) ≠ 0) := by
      obtain ⟨a1, a2, a3⟩ := hs
      rw [hn, hofn, a1]
      intro h
      rcases h with h | h | h
      · omega
      · omega
      · exact h rfl
    rw [dif_neg hcond, if_pos hs]
    simp only [decide_eq_true_eq]
  · have hcond : (Int.ofNat j > point - 1 ∨ Int.ofNat j = s.numOfDigits - 1
        ∨ Int.ofNat (c.natAbs / 10 ^ (n - 1 - j)) ≠ 0) := by
      rw [hn, hofn]
      by_contra hc
      push_neg at hc
      obtain ⟨a1, a2, a3⟩ := hc
      exact hs ⟨Int.ofNat.inj a3, by omega, by omega⟩
    rw [dif_pos hcond, if_neg hs]
    rw [show Int.tmod (Int.ofNat (c.natAbs / 10 ^ (n - 1 - j))) 10
        = Int.ofNat (c.natAbs / 10 ^ (n - 1 - j) % 10) from tmod_natCast _]
    exact toChar_digit _ (Nat.mod_lt _ (by norm_num))

/-- The character `iaExtractDigit` returns is a digit character exactly on the slots
that are not suppressed, and the pattern it leaves is the closed form `slotGlyph`. -/
theorem iaExtractDigit_spec (s : State) (n : Nat) (hn : s.numOfDigits = (n : Int)) (c : Int)
    (h1 : LONG_MIN < c) (h2 : c ≤ LONG_MAX) (point : Int) (j : Nat) (hj : j < n) :
    (suppressed n c.natAbs point j →
      iaExtractDigit s c (Int.ofNat j) point = 45 ∨ iaExtractDigit s c (Int.ofNat j) point = 32)
    ∧ (¬ suppressed n c.natAbs point j →
      iaExtractDigit s c (Int.ofNat j) point
        = Int.ofNat (c.natAbs / 10 ^ (n - 1 - j) % 10) + 48) := by
  rw [iaExtractDigit_step s n hn c h1 h2 point j hj]
  constructor
  · intro hs
    rw [if_pos hs]
    split_ifs
    · left; rfl
    · right; rfl
  · intro hs
    rw [if_neg hs]

theorem pattern_iaExtractDigit (s : State) (n : Nat) (hn : s.numOfDigits = (n : Int)) (c : Int)
    (h1 : LONG_MIN < c) (h2 : c ≤ LONG_MAX) (point : Int) (j : Nat) (hj : j < n) :
    pattern (writeDigitChar (iaExtractDigit s c (Int.ofNat j) point))
    = slotGlyph n c.natAbs (decide (c < 0)) point j := by
  have hmod : c.natAbs / 10 ^ (n - 1 - j) % 10 < 10 := Nat.mod_lt _ (by norm_num)
  by_cases hs : suppressed n c.natAbs point j
  · have hj1 : j + 1 < n := hs.2.2
    rw [iaExtractDigit_step s n hn c h1 h2 point j hj]
    unfold slotGlyph
    rw [if_pos hs, if_pos hs]
    have hsucc : Int.ofNat j + 1 = Int.ofNat (j + 1) := rfl
    rw [hsucc]
    obtain ⟨ha, hb⟩ := iaExtractDigit_spec s n hn c h1 h2 point (j + 1) hj1
    by_cases hs1 : suppressed n c.natAbs point (j + 1)
    · have hx := ha hs1
      have hcond : ¬ (iaExtractDigit s c (Int.ofNat (j + 1)) point ≠ 45
          ∧ iaExtractDigit s c (Int.ofNat (j + 1)) point ≠ 32 ∧ c < 0) := by
        rintro ⟨x1, x2, _⟩
        rcases hx with hx | hx
        · exact x1 hx
        · exact x2 hx
      rw [if_neg hcond, if_neg (by simp [hs1])]
    · have hx := hb hs1
      have hm : c.natAbs / 10 ^ (n - 1 - (j + 1)) % 10 < 10 := Nat.mod_lt _ (by norm_num)
      have hofn : Int.ofNat (c.natAbs / 10 ^ (n - 1 - (j + 1)) % 10)
          = ((c.natAbs / 10 ^ (n - 1 - (j + 1)) % 10 : Nat) : Int) := rfl
      by_cases hc : c < 0
      · rw [if_pos ⟨by rw [hx, hofn]; omega, by rw [hx, hofn]; omega, hc⟩,
          if_pos ⟨by simp [hc], hs1⟩]
      · rw [if_neg (fun h => hc h.2.2), if_neg (by simp [hc])]
  · rw [(iaExtractDigit_spec s n hn c h1 h2 point j hj).2 hs]
    unfold slotGlyph
    rw [if_neg hs]
    exact pattern_writeDigitChar_digit _ hmod
/-! ## The synchronous sweep of `write` -/

/-- The mapping of the number of decimals to the decimal-point slot, at the head of
`write`. -/
theorem write_calls (s : State) (v dp : Int) (ht : s.timerID = -1) :
    (write s v dp).2
    = writeLoop s (if dp = 0 then s.numOfDigits else s.numOfDigits - dp - 1)
        s.numOfDigits.toNat
        (if iaLimitInt s v < 0 then wrapLong (iaLimitInt s v * -1) else iaLimitInt s v)
        (decide (iaLimitInt s v < 0)) := by
  simp only [write, ht, iaLimitInt, if_true]

theorem mulTenLoop_even (k : Nat) : ∀ x : Int, x % 2 = 0 → mulTenLoop k x % 2 = 0 := by
  induction k with
  | zero => intro x h; simpa [mulTenLoop] using h
  | succ k ih =>
    intro x _
    simp only [mulTenLoop]
    apply ih
    unfold wrapLong
    omega

/-- The clamped number is a `long int` other than `LONG_MIN`, for every digit count:
the lower limit is odd when the loop multiplies at least once and `0` otherwise. -/
theorem iaLimitInt_bounds (s : State) (v : Int) (hv : isLong v) :
    LONG_MIN < iaLimitInt s v ∧ iaLimitInt s v ≤ LONG_MAX := by
  unfold isLong at hv
  have hodd : ∃ M : Int, mulTenLoop (s.numOfDigits - 1).toNat 1 = M ∧ (M = 1 ∨ M % 2 = 0) := by
    refine ⟨_, rfl, ?_⟩
    rcases Nat.eq_zero_or_pos (s.numOfDigits - 1).toNat with h | h
    · left; rw [h]; rfl
    · right
      obtain ⟨k, hk⟩ := Nat.exists_eq_succ_of_ne_zero (Nat.pos_iff_ne_zero.mp h)
      rw [hk]
      simp only [mulTenLoop]
      apply mulTenLoop_even
      unfold wrapLong
      omega
  obtain ⟨M, hM, hM2⟩ := hodd
  simp only [iaLimitInt, hM]
  have b1 := isLong_wrapLong (wrapLong (10 * M) - 1)
  have b2 := isLong_wrapLong (wrapLong (-M) + 1)
  have b3 : wrapLong (wrapLong (-M) + 1) ≠ LONG_MIN := by
    unfold wrapLong LONG_MIN
    omega
  unfold isLong at b1 b2
  unfold LONG_MIN LONG_MAX at *
  split_ifs <;> omega

/-- The frames of a synchronous `write` in closed form, for every digit count and
every `long int` value. -/
theorem frames_write (s : State) (n : Nat) (hn : s.numOfDigits = (n : Int))
    (ht : s.timerID = -1) (v dp : Int) (hv : isLong v) :
    frames none (write s v dp).2
    = sweepFrames n (iaLimitInt s v).natAbs (decide (iaLimitInt s v < 0))
        (if dp = 0 then (n : Int) else (n : Int) - dp - 1) n := by
  obtain ⟨b1, b2⟩ := iaLimitInt_bounds s v hv
  rw [write_calls s v dp ht, negate_eq _ b1 b2, hn, Int.toNat_ofNat]
  have h := frames_writeLoop s n (iaLimitInt s v).natAbs (decide (iaLimitInt s v < 0))
    (if dp = 0 then (n : Int) else (n : Int) - dp - 1) hn n (le_refl n) none
  have hsup : ¬ suppressed n (iaLimitInt s v).natAbs
      (if dp = 0 then (n : Int) else (n : Int) - dp - 1) n := by
    rintro ⟨_, _, h3⟩; omega
  have hd : decide (decide (iaLimitInt s v < 0) = true ∧ ¬ suppressed n (iaLimitInt s v).natAbs
      (if dp = 0 then (n : Int) else (n : Int) - dp - 1) n) = decide (iaLimitInt s v < 0) := by
    simp [hsup]
  rw [Nat.sub_self, pow_zero, Nat.div_one, hd] at h
  exact h

theorem sweepFrames_succ (n a : Nat) (neg : Bool) (point : Int) (k : Nat) :
    sweepFrames n a neg point (k + 1)
    = Frame.mk (Slot.digit (Int.ofNat k)) (slotGlyph n a neg point k)
        (decide (point = Int.ofNat k)) :: sweepFrames n a neg point k := by
  simp [sweepFrames, List.range_succ]

theorem glyphAt_sweepFrames (n a : Nat) (neg : Bool) (point : Int) (k : Nat) :
    ∀ j : Nat, j < k →
      glyphAt (sweepFrames n a neg point k) (Int.ofNat j) = some (slotGlyph n a neg point j) := by
  induction k with
  | zero => intro j hj; omega
  | succ k ih =>
    intro j hj
    rw [sweepFrames_succ]
    by_cases h : j = k
    · subst h
      simp [glyphAt, List.find?]
    · have hne : ¬ (Slot.digit (Int.ofNat k) = Slot.digit (Int.ofNat j)) := by
        intro e
        injection e with e
        exact h (Int.ofNat.inj e).symm
      have := ih j (by omega)
      unfold glyphAt at this ⊢
      rw [List.find?_cons_of_neg _ (by simpa using hne)]
      exact this

theorem displayRow_sweepFrames (n a : Nat) (neg : Bool) (point : Int) :
    displayRow (sweepFrames n a neg point n) n
    = (List.range n).map (fun j => some (slotGlyph n a neg point j)) := by
  unfold displayRow
  apply List.map_congr_left
  intro j hj
  exact glyphAt_sweepFrames n a neg point n j (List.mem_range.mp hj)

theorem dpSlots_sweepFrames (n a : Nat) (neg : Bool) (point : Int) (k : Nat) :
    dpSlots (sweepFrames n a neg point k)
    = if 0 ≤ point ∧ point < (k : Int) then [Slot.digit point] else [] := by
  induction k with
  | zero =>
    have : ¬ (0 ≤ point ∧ point < ((0 : Nat) : Int)) := by omega
    rw [if_neg this]; rfl
  | succ k ih =>
    rw [sweepFrames_succ]
    unfold dpSlots at ih ⊢
    by_cases hp : point = Int.ofNat k
    · have hk : ¬ (0 ≤ point ∧ point < (k : Int)) := by
        have : Int.ofNat k = (k : Int) := rfl
        omega
      rw [if_neg hk] at ih
      have hk1 : 0 ≤ point ∧ point < ((k + 1 : Nat) : Int) := by
        have : Int.ofNat k = (k : Int) := rfl
        omega
      rw [if_pos hk1, List.filter_cons_of_pos (by simp [hp]), List.map_cons, ih, hp]
    · rw [List.filter_cons_of_neg (by simpa using hp), ih]
      have : Int.ofNat k = (k : Int) := rfl
      by_cases hk : 0 ≤ point ∧ point < (k : Int)
      · rw [if_pos hk, if_pos (by omega)]
      · rw [if_neg hk, if_neg (by omega)]
theorem readGlyph_digit (d : Nat) (hd : d < 10) :
    readGlyph (pattern (writeDigit (Int.ofNat d))) = Glyph.digit d := by
  interval_cases d <;> decide

theorem readGlyph_blank : readGlyph (pattern (writeDigitChar 32)) = Glyph.blank := by decide

theorem readGlyph_minus : readGlyph (pattern (writeDigitChar 45)) = Glyph.minus := by decide

/-! ## Reading a sweep back -/

theorem suppressed_mono {n a : Nat} {point : Int} {i j : Nat} (hij : i ≤ j)
    (h : suppressed n a point j) : suppressed n a point i := by
  induction j with
  | zero =>
    have : i = 0 := by omega
    rw [this]; exact h
  | succ j ih =>
    rcases Nat.eq_or_lt_of_le hij with e | e
    · rw [e]; exact h
    · exact ih (by omega) (suppressed_succ h)

theorem readGlyph_slotGlyph (n a : Nat) (neg : Bool) (point : Int) (j : Nat) :
    readGlyph (slotGlyph n a neg point j)
    = if suppressed n a point j then
        (if neg = true ∧ ¬ suppressed n a point (j + 1) then Glyph.minus else Glyph.blank)
      else Glyph.digit (a / 10 ^ (n - 1 - j) % 10) := by
  unfold slotGlyph
  split_ifs
  · exact readGlyph_minus
  · exact readGlyph_blank
  · exact readGlyph_digit _ (Nat.mod_lt _ (by norm_num))

/-- Reading the unsuppressed slots `j .. n-1` appends the last `r = n - j` digits of
`a`. -/
theorem readDigits_slots (n a : Nat) (neg : Bool) (point : Int) (r : Nat) :
    ∀ (j acc : Nat), j + r = n → ¬ suppressed n a point j →
      readDigits ((List.range' j r).map (fun i => readGlyph (slotGlyph n a neg point i))) acc
      = some (acc * 10 ^ r + a % 10 ^ r) := by
  induction r with
  | zero => intro j acc _ _; simp [readDigits, Nat.mod_one]
  | succ r ih =>
    intro j acc hjr hns
    have hns1 : ¬ suppressed n a point (j + 1) := fun h => hns (suppressed_succ h)
    rw [List.range'_succ, List.map_cons, readGlyph_slotGlyph, if_neg hns]
    simp only [readDigits]
    rw [ih (j + 1) _ (by omega) hns1]
    have e : n - 1 - j = r := by omega
    rw [e, Nat.mod_pow_succ]
    congr 1
    ring

/-- Reading the slots `j .. n-1` of a sweep without decimals when the slots before `j`
were blank: the number comes back. -/
theorem readNumber_slots (n a : Nat) (neg : Bool) (r : Nat) :
    ∀ j : Nat, j + r = n → 1 ≤ r → a < 10 ^ r → (neg = true → suppressed n a (n : Int) j) →
      readNumber ((List.range' j r).map (fun i => readGlyph (slotGlyph n a neg (n : Int) i)))
      = some (if neg = true then -(Int.ofNat a) else Int.ofNat a) := by
  induction r with
  | zero => intro j _ h; omega
  | succ r ih =>
    intro j hjr _ ha hneg
    by_cases hs : suppressed n a (n : Int) j
    · obtain ⟨s1, _, s3⟩ := hs
      have e : n - 1 - j = r := by omega
      rw [e] at s1
      have har : a < 10 ^ r := by
        by_contra hc
        have : 1 ≤ a / 10 ^ r := (Nat.one_le_div_iff (by positivity)).mpr (by omega)
        omega
      rw [List.range'_succ, List.map_cons, readGlyph_slotGlyph,
        if_pos (show suppressed n a (n : Int) j from ⟨by rw [e]; exact s1, by omega, s3⟩)]
      by_cases hm : neg = true ∧ ¬ suppressed n a (n : Int) (j + 1)
      · rw [if_pos hm]
        have hne : (List.range' (j + 1) r).map
            (fun i => readGlyph (slotGlyph n a neg (n : Int) i)) ≠ [] := by
          have hr : r ≠ 0 := by omega
          obtain ⟨r', hr'⟩ := Nat.exists_eq_succ_of_ne_zero hr
          rw [hr', List.range'_succ, List.map_cons]
          exact List.cons_ne_nil _ _
        simp only [readNumber, if_neg hne]
        rw [readDigits_slots n a neg (n : Int) r (j + 1) 0 (by omega) hm.2, zero_mul, zero_add,
          Nat.mod_eq_of_lt har, if_pos hm.1]
        rfl
      · rw [if_neg hm]
        simp only [readNumber]
        apply ih (j + 1) (by omega) (by omega) har
        intro hn
        by_contra hc
        exact hm ⟨hn, hc⟩
    · have hnn : ¬ (neg = true) := fun h => hs (hneg h)
      rw [List.range'_succ, List.map_cons, readGlyph_slotGlyph, if_neg hs]
      simp only [readNumber]
      have h := readDigits_slots n a neg (n : Int) (r + 1) j 0 (by omega) hs
      rw [List.range'_succ, List.map_cons, readGlyph_slotGlyph, if_neg hs] at h
      rw [h, zero_mul, zero_add, Nat.mod_eq_of_lt ha, if_neg hnn]
      rfl
/-! ## One tick in fixed-point mode -/

/-- The tick that ends the off-part in fixed-point mode selects the next slot and
writes the character `iaExtractDigit` returns for it. -/
theorem shown_interruptAction_fixed (c : State) (n i : Nat)
    (hn : c.numOfDigits = (n : Int)) (hi : i < n) (hmode : c.writeMode = 112)
    (hphase : c.timerPhase = 0)
    (hend : c.timerCounterOffEnd ≤ wrapLong (c.timerCounter + 1))
    (hnext : iaNextDigit c = Int.ofNat i) :
    (interruptAction c).1.numOfDigits = (n : Int)
    ∧ (interruptAction c).1.timerDigit = Int.ofNat i
    ∧ (shown none (interruptAction c).2).map Frame.segs
        = some (pattern (writeDigitChar
            (iaExtractDigit (interruptAction c).1 c.writeInt (Int.ofNat i) c.writePoint))) := by
  have hofn : Int.ofNat i = (i : Int) := rfl
  have e1 : iaOnEnd (iaCount c) = (iaCount c, []) := by
    unfold iaOnEnd
    rw [if_neg]
    rintro ⟨_, h⟩
    have : (iaCount c).timerPhase = c.timerPhase := rfl
    omega
  have hd : (iaSelect (iaCount c)).timerDigit = Int.ofNat i := hnext
  have hnn : (iaSelect (iaCount c)).numOfDigits = (n : Int) := hn
  have hne : (iaSelect (iaCount c)).timerDigit ≠ (iaSelect (iaCount c)).numOfDigits := by
    rw [hd, hnn, hofn]; omega
  have e2 : iaOffEnd (iaCount c)
      = (iaSelect (iaCount c),
          [Call.changeDigit (Int.ofNat i)] ++ iaGlyphCalls (iaSelect (iaCount c))) := by
    unfold iaOffEnd
    rw [if_pos ⟨hend, hphase⟩, if_neg hne, if_pos hne, hd]
  have e3 : interruptAction c
      = (iaSelect (iaCount c),
          [Call.changeDigit (Int.ofNat i)] ++ iaGlyphCalls (iaSelect (iaCount c))) := by
    unfold interruptAction
    simp only [e1, e2, List.nil_append]
  have hm : (iaSelect (iaCount c)).writeMode = 112 := hmode
  have e4 : iaGlyphCalls (iaSelect (iaCount c))
      = [Call.writeDigitChar (iaExtractDigit (iaSelect (iaCount c)) c.writeInt (Int.ofNat i)
          c.writePoint)]
        ++ (if c.writePoint = Int.ofNat i ∧ c.writePoint ≠ (n : Int) - 1 then [Call.setDP]
            else []) := by
    have m1 : ¬ ((iaSelect (iaCount c)).writeMode = 105) := by rw [hm]; decide
    have m2 : ¬ ((iaSelect (iaCount c)).writeMode = 58 ∨ (iaSelect (iaCount c)).writeMode = 46
        ∨ (iaSelect (iaCount c)).writeMode = 95) := by rw [hm]; decide
    have m3 : ¬ ((iaSelect (iaCount c)).writeMode = 115) := by rw [hm]; decide
    have m4 : ¬ ((iaSelect (iaCount c)).writeMode = 111) := by rw [hm]; decide
    unfold iaGlyphCalls
    rw [if_pos hm, if_neg m1, if_neg m2, if_neg m3, if_neg m4, hd, hnn]
    simp only [List.append_nil]
    rfl
  rw [e3]
  refine ⟨hn, hnext, ?_⟩
  simp only [e4]
  split_ifs <;> rfl
/-! ## The cursor of the clock example -/

theorem ticks_add (a b : Nat) : ∀ s : State, ticks (a + b) s = ticks b (ticks a s) := by
  induction a with
  | zero => intro s; simp [ticks]
  | succ a ih =>
    intro s
    rw [Nat.add_right_comm]
    simp only [ticks]
    exact ih _

/-- A tick inside the on-part or the off-part only counts. -/
theorem interruptAction_wait (d p c : Int) (h0 : 0 ≤ c) (h1 : c + 1 < 77) :
    (interruptAction (clockCursor d p c)).1 = clockCursor d p (c + 1) := by
  have hw : wrapLong (c + 1) = c + 1 := by unfold wrapLong; omega
  have e0 : iaCount (clockCursor d p c) = clockCursor d p (c + 1) := by
    unfold iaCount
    rw [show (clockCursor d p c).timerCounter = c from rfl, hw]
    rfl
  have e1 : iaOnEnd (clockCursor d p (c + 1)) = (clockCursor d p (c + 1), []) := by
    unfold iaOnEnd
    rw [if_neg]
    rintro ⟨h, _⟩
    have : (clockCursor d p (c + 1)).timerCounter = c + 1 := rfl
    have : (clockCursor d p (c + 1)).timerCounterOnEnd = 77 := rfl
    omega
  have e2 : iaOffEnd (clockCursor d p (c + 1)) = (clockCursor d p (c + 1), []) := by
    unfold iaOffEnd
    rw [if_neg]
    rintro ⟨h, _⟩
    have : (clockCursor d p (c + 1)).timerCounter = c + 1 := rfl
    have : (clockCursor d p (c + 1)).timerCounterOffEnd = 77 := rfl
    omega
  unfold interruptAction
  simp only [e0, e1, e2]

theorem ticks_wait (k : Nat) : ∀ (d p c : Int), 0 ≤ c → c + k < 77 →
    ticks k (clockCursor d p c) = clockCursor d p (c + k) := by
  induction k with
  | zero => intro d p c _ _; simp [ticks]
  | succ k ih =>
    intro d p c h0 h1
    simp only [ticks]
    rw [interruptAction_wait d p c h0 (by omega),
      ih d p (c + 1) (by omega) (by push_cast at h1; omega)]
    congr 1
    push_cast
    ring

theorem tick_on_end (d : Int) : (interruptAction (clockCursor d 1 76)).1 = clockCursor d 0 0 := by
  rfl

theorem tick_off_end (d : Int) (hd : 0 ≤ d ∧ d < 3) :
    (interruptAction (clockCursor d 0 76)).1 = clockCursor (d + 1) 1 0 := by
  have e0 : iaCount (clockCursor d 0 76) = clockCursor d 0 77 := rfl
  have e1 : iaOnEnd (clockCursor d 0 77) = (clockCursor d 0 77, []) := rfl
  have e3 : iaNextDigit (clockCursor d 0 77) = d + 1 := by
    unfold iaNextDigit
    have : (clockCursor d 0 77).timerDigit = d := rfl
    have : (clockCursor d 0 77).numOfDigits = 4 := rfl
    simp only [*]
    rw [if_neg (by omega)]
  have e2 : (iaOffEnd (clockCursor d 0 77)).1 = clockCursor (d + 1) 1 0 := by
    unfold iaOffEnd
    rw [if_pos ⟨by show (77 : Int) ≥ 77; omega, rfl⟩]
    show iaSelect (clockCursor d 0 77) = _
    unfold iaSelect
    rw [e3]
    rfl
  unfold interruptAction
  simp only [e0, e1, e2]

/-- The cursor of the clock example 615 ticks after the target was staged. -/
theorem ticks_clockCursor : ticks 615 (clockCursor 0 1 0) = clockCursor 3 0 76 := by
  have w := fun d p => ticks_wait 76 d p 0 (by decide) (by decide)
  have step1 : ∀ d : Int, ticks 77 (clockCursor d 1 0) = clockCursor d 0 0 := by
    intro d
    rw [show 77 = 76 + 1 from rfl, ticks_add, w d 1]
    simp only [ticks]
    exact tick_on_end d
  have step0 : ∀ d : Int, 0 ≤ d ∧ d < 3 → ticks 77 (clockCursor d 0 0) = clockCursor (d + 1) 1 0 := by
    intro d hd
    rw [show 77 = 76 + 1 from rfl, ticks_add, w d 0]
    simp only [ticks]
    exact tick_off_end d hd
  rw [show 615 = 77 + (77 + (77 + (77 + (77 + (77 + (77 + 76)))))) from rfl]
  rw [ticks_add, step1, ticks_add, step0 0 (by decide), ticks_add, step1, ticks_add,
    step0 (0 + 1) (by decide), ticks_add, step1, ticks_add, step0 (0 + 1 + 1) (by decide),
    ticks_add, step1, w _ 0]
  rfl

/-! ## The colon pin during a clock sweep -/

theorem pinWrites_append (p : Int) (l1 l2 : List Event) :
    pinWrites p (l1 ++ l2) = pinWrites p l1 ++ pinWrites p l2 := by
  induction l1 with
  | nil => rfl
  | cons e es ih =>
    cases e with
    | digitalWrite q level =>
      by_cases h : q = p
      · simp [pinWrites, h, ih]
      · simp [pinWrites, h, ih]
    | delayMicroseconds us => simpa [pinWrites] using ih
    | delay ms => simpa [pinWrites] using ih

theorem execCalls_append (l1 l2 : List Call) : ∀ s : State,
    execCalls s (l1 ++ l2)
    = ((execCalls (execCalls s l1).1 l2).1, (execCalls s l1).2 ++ (execCalls (execCalls s l1).1 l2).2) := by
  induction l1 with
  | nil => intro s; simp [execCalls]
  | cons c cs ih =>
    intro s
    rw [List.cons_append]
    simp only [execCalls]
    rw [ih]
    simp only [List.append_assoc]

theorem pinWrites_digits (s : State) (p : Int) (l : List Nat)
    (h : ∀ i ∈ l, digPin s (Int.ofNat i) ≠ p) :
    pinWrites p (l.map (fun (i : Nat) => Event.digitalWrite (digPin s (Int.ofNat i)) s.digOff))
    = [] := by
  induction l with
  | nil => rfl
  | cons i is ih =>
    have h1 : digPin s (Int.ofNat i) ≠ p := h i (List.mem_cons_self _ _)
    have h2 := ih (fun j hj => h j (List.mem_cons_of_mem _ hj))
    simp only [List.map_cons, pinWrites, if_neg h1]
    exact h2

theorem pinWrites_segWrites (s : State) (p : Int)
    (h : p ∉ [s.A, s.B, s.C, s.D, s.E, s.F, s.G]) (ws : List (Seg × Bool)) :
    pinWrites p (ws.map (segWrite s)) = [] := by
  induction ws with
  | nil => rfl
  | cons w ws ih =>
    have hne : segPin s w.1 ≠ p := by
      intro e
      apply h
      rw [← e]
      cases w.1 <;> simp [segPin]
    simp only [List.map_cons, segWrite, pinWrites, if_neg hne]
    exact ih

theorem pinWrites_clearDisp (s : State) (hd : dedicatedColon s) :
    pinWrites s.colonSegPin (clearDisp s) = [] := by
  obtain ⟨h1, h2, h3, h4⟩ := hd
  have hA : s.A ≠ s.colonSegPin := fun e => h3 (by simp [e])
  have hB : s.B ≠ s.colonSegPin := fun e => h3 (by simp [e])
  have hC : s.C ≠ s.colonSegPin := fun e => h3 (by simp [e])
  have hD : s.D ≠ s.colonSegPin := fun e => h3 (by simp [e])
  have hE : s.E ≠ s.colonSegPin := fun e => h3 (by simp [e])
  have hF : s.F ≠ s.colonSegPin := fun e => h3 (by simp [e])
  have hG : s.G ≠ s.colonSegPin := fun e => h3 (by simp [e])
  have hDP : s.DP ≠ s.colonSegPin := fun e => h3 (by simp [e])
  unfold clearDisp
  rw [pinWrites_append, pinWrites_append, pinWrites_append,
    pinWrites_digits s _ _ (fun i hi => h4 i (List.mem_range.mp hi))]
  have hsy : ¬ (s.symbDigPin ≠ -1) := fun h => h h1
  rw [if_neg hsy]
  by_cases hdp : s.DP ≠ -1
  · rw [if_pos hdp]
    simp [pinWrites, hA, hB, hC, hD, hE, hF, hG, hDP]
  · rw [if_neg hdp]
    simp [pinWrites, hA, hB, hC, hD, hE, hF, hG]


/-- With a dedicated colon pin, the only writes to that pin are those of `setColon` and
`clearColon`. -/
theorem pinWrites_execCalls (p lvOn lvOff : Int) (n : Nat) : ∀ (cs : List Call) (s : State),
    dedicatedColon s → s.colonSegPin = p → s.segOn = lvOn → s.segOff = lvOff →
    s.numOfDigits.toNat = n → (∀ c ∈ cs, selectsBelow n c) →
    pinWrites p (execCalls s cs).2 = colonLevels lvOn lvOff cs := by
  intro cs
  induction cs with
  | nil => intro s _ _ _ _ _ _; rfl
  | cons c cs ih =>
    intro s hd hp hon hoff hn hok
    have hc := hok c (List.mem_cons_self _ _)
    have hcs : ∀ c' ∈ cs, selectsBelow n c' := fun c' h => hok c' (List.mem_cons_of_mem _ h)
    obtain ⟨h1, h2, h3, h4⟩ := hd
    have hseg : p ∉ [s.A, s.B, s.C, s.D, s.E, s.F, s.G] := by
      rw [← hp]
      intro h
      apply h3
      simp only [List.mem_cons] at h ⊢
      tauto
    have hDP : s.DP ≠ p := by
      rw [← hp]
      intro e
      exact h3 (by simp [e])
    simp only [execCalls, pinWrites_append]
    cases c with
    | changeDigit i =>
      obtain ⟨hi0, hi1⟩ : 0 ≤ i ∧ i < (n : Int) := hc
      have hdig : digPin s i ≠ p := by
        have e : i = Int.ofNat i.toNat := by
          rw [Int.ofNat_eq_coe, Int.toNat_of_nonneg hi0]
        rw [← hp, e]
        exact h4 i.toNat (by omega)
      have hcd : pinWrites p (clearDisp s) = [] := by
        rw [← hp]; exact pinWrites_clearDisp s ⟨h1, h2, h3, h4⟩
      have := ih s ⟨h1, h2, h3, h4⟩ hp hon hoff hn hcs
      simp only [execCall, changeDigit, pinWrites_append, hcd, pinWrites, if_neg hdig,
        List.nil_append, colonLevels]
      exact this
    | changeDigitChar i => exact absurd hc (by simp [selectsBelow])
    | writeDigit d =>
      have := ih s ⟨h1, h2, h3, h4⟩ hp hon hoff hn hcs
      simp only [execCall, pinWrites_segWrites s p hseg, List.nil_append, colonLevels]
      exact this
    | writeDigitChar d =>
      have := ih s ⟨h1, h2, h3, h4⟩ hp hon hoff hn hcs
      simp only [execCall, pinWrites_segWrites s p hseg, List.nil_append, colonLevels]
      exact this
    | setDP =>
      have := ih s ⟨h1, h2, h3, h4⟩ hp hon hoff hn hcs
      simp only [execCall, pinWrites, if_neg hDP, List.nil_append, colonLevels]
      exact this
    | clearDP =>
      have := ih s ⟨h1, h2, h3, h4⟩ hp hon hoff hn hcs
      simp only [execCall, pinWrites, if_neg hDP, List.nil_append, colonLevels]
      exact this
    | setColon =>
      have := ih { s with colonState := s.segOn } ⟨h1, h2, h3, h4⟩ hp hon hoff hn hcs
      have e : execCall s Call.setColon
          = ({ s with colonState := s.segOn }, [Event.digitalWrite s.colonSegPin s.segOn]) := by
        simp only [execCall, setColon, if_pos h1]
      rw [e]
      simp only [pinWrites, if_pos hp, colonLevels, List.cons_append, List.nil_append]
      rw [this, hon]
    | clearColon =>
      have := ih { s with colonState := s.segOff } ⟨h1, h2, h3, h4⟩ hp hon hoff hn hcs
      have e : execCall s Call.clearColon
          = ({ s with colonState := s.segOff }, [Event.digitalWrite s.colonSegPin s.segOff]) := by
        simp only [execCall, clearColon, if_pos h1]
      rw [e]
      simp only [pinWrites, if_pos hp, colonLevels, List.cons_append, List.nil_append]
      rw [this, hoff]
    | execDelay u =>
      have := ih s ⟨h1, h2, h3, h4⟩ hp hon hoff hn hcs
      have hdel : pinWrites p (execDelay u) = [] := by
        unfold execDelay
        split_ifs <;> rfl
      simp only [execCall, hdel, List.nil_append, colonLevels]
      exact this

/-- The sweep loop of `writeClock` with the separator `:` and no symbol digit: its
calls select only digit slots below `k`, and its colon calls alternate. -/
theorem writeClockLoop_colon (s0 : State) (lvOn lvOff : Int) (k : Nat) : ∀ num : Int,
    (∀ c ∈ writeClockLoop s0 58 false k num, selectsBelow k c)
    ∧ colonLevels lvOn lvOff (writeClockLoop s0 58 false k num)
      = (List.replicate k [lvOn, lvOff]).flatten
    ∧ colonTimeline (writeClockLoop s0 58 false k num)
      = (List.replicate k [Call.setColon, Call.execDelay s0.digitOnDelay, Call.clearColon,
          Call.execDelay s0.digitOffDelay]).flatten := by
  induction k with
  | zero => intro num; simp [writeClockLoop, colonLevels, colonTimeline]
  | succ k ih =>
    intro num
    obtain ⟨i1, i2, i3⟩ := ih (Int.tdiv num 10)
    have hblock : writeClockLoop s0 58 false (k + 1) num
        = Call.changeDigit (Int.ofNat k) :: Call.writeDigit (Int.tmod num 10) :: Call.setColon
          :: Call.execDelay s0.digitOnDelay :: Call.clearColon :: Call.writeDigitChar 32
          :: Call.execDelay s0.digitOffDelay :: writeClockLoop s0 58 false k (Int.tdiv num 10) := by
      simp [writeClockLoop]
    rw [hblock]
    refine ⟨?_, ?_, ?_⟩
    · intro c hc
      simp only [List.mem_cons] at hc
      rcases hc with h | h | h | h | h | h | h | h
      · rw [h]
        show 0 ≤ Int.ofNat k ∧ Int.ofNat k < ((k + 1 : Nat) : Int)
        have : Int.ofNat k = (k : Int) := rfl
        omega
      · rw [h]; trivial
      · rw [h]; trivial
      · rw [h]; trivial
      · rw [h]; trivial
      · rw [h]; trivial
      · rw [h]; trivial
      · have := i1 c h
        cases c with
        | changeDigit i =>
          obtain ⟨a1, a2⟩ : 0 ≤ i ∧ i < (k : Int) := this
          show 0 ≤ i ∧ i < ((k + 1 : Nat) : Int)
          omega
        | changeDigitChar i => exact this
        | writeDigit d => trivial
        | writeDigitChar d => trivial
        | setDP => trivial
        | clearDP => trivial
        | setColon => trivial
        | clearColon => trivial
        | execDelay u => trivial
    · simp only [colonLevels, i2, List.replicate_succ, List.flatten_cons, List.cons_append,
        List.nil_append]
    · have : colonTimeline (writeClockLoop s0 58 false k (Int.tdiv num 10))
          = List.filter _ (writeClockLoop s0 58 false k (Int.tdiv num 10)) := rfl
      simp only [colonTimeline, List.filter_cons, if_true, List.replicate_succ, List.flatten_cons,
        List.cons_append, List.nil_append]
      rw [← i3]
      simp [colonTimeline]
/-! ## Right alignment -/

theorem digits_getElem? (i : Nat) : ∀ a : Nat,
    (Nat.digits 10 a)[i]? = if a / 10 ^ i = 0 then none else some (a / 10 ^ i % 10) := by
  induction i with
  | zero =>
    intro a
    rcases Nat.eq_zero_or_pos a with h | h
    · subst h; simp
    · rw [Nat.digits_def' (by norm_num) h]
      have : ¬ (a / 10 ^ 0 = 0) := by simp; omega
      rw [if_neg this]
      simp
  | succ i ih =>
    intro a
    rcases Nat.eq_zero_or_pos a with h | h
    · subst h; simp
    · rw [Nat.digits_def' (by norm_num) h, List.getElem?_cons_succ, ih (a / 10),
        Nat.div_div_eq_div_mul, ← pow_succ']

theorem digits_length_le_iff (a e : Nat) : (Nat.digits 10 a).length ≤ e ↔ a / 10 ^ e = 0 := by
  have h := digits_getElem? e a
  constructor
  · intro hle
    by_contra hc
    rw [if_neg hc] at h
    have := List.getElem?_eq_none hle
    rw [this] at h
    exact Option.noConfusion h
  · intro hz
    rw [if_pos hz] at h
    exact List.getElem?_eq_none_iff.mp h

theorem decimalDigits_length_pos (a : Nat) : 1 ≤ (decimalDigits a).length := by
  unfold decimalDigits
  split_ifs with h
  · simp
  · rw [List.length_reverse]
    by_contra hc
    have : (Nat.digits 10 a).length ≤ 0 := by omega
    rw [digits_length_le_iff, pow_zero, Nat.div_one] at this
    exact h this

/-- Without decimals, slot `i` is suppressed exactly when more than the digits of `a`
remain to its right. -/
theorem suppressed_iff_left_of_digits (n a i : Nat) :
    suppressed n a (n : Int) i ↔ i + (decimalDigits a).length < n := by
  unfold suppressed decimalDigits
  split_ifs with h
  · subst h
    simp only [Nat.zero_div, List.length_singleton, true_and]
    constructor
    · intro hh; omega
    · intro hh; omega
  · rw [List.length_reverse, ← digits_length_le_iff]
    have hpos : 1 ≤ (Nat.digits 10 a).length := by
      have := decimalDigits_length_pos a
      unfold decimalDigits at this
      rw [if_neg h, List.length_reverse] at this
      exact this
    constructor
    · intro hh; omega
    · intro hh; omega

theorem decimalDigits_getElem? (a t : Nat) (ht : t < (decimalDigits a).length) :
    (decimalDigits a)[t]? = some (a / 10 ^ ((decimalDigits a).length - 1 - t) % 10) := by
  unfold decimalDigits at ht ⊢
  split_ifs at ht ⊢ with h
  · subst h
    have : t = 0 := by simpa using ht
    subst this
    simp
  · rw [List.length_reverse] at ht ⊢
    rw [List.getElem?_reverse ht, digits_getElem?]
    have : ¬ (a / 10 ^ ((Nat.digits 10 a).length - 1 - t) = 0) := by
      rw [← digits_length_le_iff]
      omega
    rw [if_neg this]

/-- The row of a sweep without decimals: blanks, the sign of a negative number, the
digits. -/
theorem row_right_aligned (n a : Nat) (neg : Bool) (hn : 1 ≤ n) (ha : a / 10 ^ n = 0)
    (hneg : neg = true → (decimalDigits a).length < n) :
    (List.range n).map (fun j => some (slotGlyph n a neg (n : Int) j))
    = List.replicate (n - (decimalDigits a).length - (if neg = true then 1 else 0))
        (some (pattern (writeDigitChar 32)))
      ++ (if neg = true then [some (pattern (writeDigitChar 45))] else [])
      ++ (decimalDigits a).map (fun d => some (pattern (writeDigit (Int.ofNat d)))) := by
  have hk1 := decimalDigits_length_pos a
  have hkn : (decimalDigits a).length ≤ n := by
    unfold decimalDigits
    split_ifs with h
    · subst h
      simp only [List.length_singleton]
      exact hn
    · rw [List.length_reverse, digits_length_le_iff]; exact ha
  apply List.ext_getElem?
  intro i
  rw [List.getElem?_map]
  by_cases hi : i < n
  · rw [List.getElem?_range hi, Option.map_some']
    by_cases hs : suppressed n a (n : Int) i
    · have hs' := (suppressed_iff_left_of_digits n a i).mp hs
      unfold slotGlyph
      rw [if_pos hs]
      cases neg with
      | false =>
        simp only [Bool.false_eq_true, false_and, if_false, Nat.sub_zero, List.append_nil]
        rw [List.getElem?_append_left (by rw [List.length_replicate]; omega),
          List.getElem?_replicate, if_pos (by omega)]
      | true =>
        simp only [true_and, if_true]
        by_cases hs1 : suppressed n a (n : Int) (i + 1)
        · have hs1' := (suppressed_iff_left_of_digits n a (i + 1)).mp hs1
          rw [if_neg (by simpa using hs1), List.append_assoc,
            List.getElem?_append_left (by rw [List.length_replicate]; omega),
            List.getElem?_replicate, if_pos (by omega)]
        · have hs1' : ¬ (i + 1 + (decimalDigits a).length < n) := fun h =>
            hs1 ((suppressed_iff_left_of_digits n a (i + 1)).mpr h)
          have hidx : i = n - (decimalDigits a).length - 1 := by omega
          rw [if_pos hs1, List.append_assoc,
            List.getElem?_append_right (by rw [List.length_replicate]; omega),
            List.length_replicate]
          have : i - (n - (decimalDigits a).length - 1) = 0 := by omega
          rw [this]
          simp
    · have hs' : ¬ (i + (decimalDigits a).length < n) := fun h =>
        hs ((suppressed_iff_left_of_digits n a i).mpr h)
      unfold slotGlyph
      rw [if_neg hs]
      have hneg' : neg = true → (decimalDigits a).length < n := hneg
      have hlen : (List.replicate (n - (decimalDigits a).length - (if neg = true then 1 else 0))
          (some (pattern (writeDigitChar 32)))
          ++ (if neg = true then [some (pattern (writeDigitChar 45))] else [])).length
          = n - (decimalDigits a).length := by
        cases neg with
        | false => simp
        | true =>
          have := hneg rfl
          simp only [if_true, List.length_append, List.length_replicate, List.length_singleton]
          omega
      rw [List.getElem?_append_right (by rw [hlen]; omega), hlen, List.getElem?_map,
        decimalDigits_getElem? a _ (by omega), Option.map_some']
      have e : (decimalDigits a).length - 1 - (i - (n - (decimalDigits a).length)) = n - 1 - i := by
        omega
      rw [e]
  · have hnone : (List.range n)[i]? = none :=
      List.getElem?_eq_none (by rw [List.length_range]; omega)
    rw [hnone, Option.map_none']
    symm
    apply List.getElem?_eq_none
    simp only [List.length_append, List.length_replicate, List.length_map]
    cases neg with
    | false => simp; omega
    | true =>
      have := hneg rfl
      simp only [if_true, List.length_singleton]
      omega
/-! ## The glyph row of a sweep -/

theorem readRow_write (s : State) (n : Nat) (hs : s.numOfDigits = (n : Int))
    (ht : s.timerID = -1) (v dp : Int) (hv : isLong v) :
    readRow (write s v dp).2 n
    = (List.range' 0 n).map (fun j => readGlyph (slotGlyph n (iaLimitInt s v).natAbs
        (decide (iaLimitInt s v < 0)) (if dp = 0 then (n : Int) else (n : Int) - dp - 1) j)) := by
  unfold readRow
  rw [frames_write s n hs ht v dp hv, displayRow_sweepFrames, List.map_map,
    List.range_eq_range']
  rfl

/-- From an unsuppressed slot on, no slot carries the minus sign. -/
theorem count_minus_digits (n a : Nat) (neg : Bool) (point : Int) (r : Nat) :
    ∀ j : Nat, ¬ suppressed n a point j →
      ((List.range' j r).map (fun i => readGlyph (slotGlyph n a neg point i))).count
        Glyph.minus = 0 := by
  induction r with
  | zero => intro j _; rfl
  | succ r ih =>
    intro j hns
    have hns1 : ¬ suppressed n a point (j + 1) := fun h => hns (suppressed_succ h)
    rw [List.range'_succ, List.map_cons, readGlyph_slotGlyph, if_neg hns,
      List.count_cons_of_ne (by simp), ih (j + 1) hns1]

/-- From a suppressed slot on, exactly one slot carries the minus sign of a negative
number. -/
theorem count_minus_suppressed (n a : Nat) (point : Int) (r : Nat) :
    ∀ j : Nat, j + r = n → suppressed n a point j →
      ((List.range' j r).map (fun i => readGlyph (slotGlyph n a true point i))).count
        Glyph.minus = 1 := by
  induction r with
  | zero =>
    intro j hj hsup
    obtain ⟨_, _, h3⟩ := hsup
    omega
  | succ r ih =>
    intro j hj hsup
    rw [List.range'_succ, List.map_cons, readGlyph_slotGlyph, if_pos hsup]
    by_cases h1 : suppressed n a point (j + 1)
    · rw [if_neg (fun h => h.2 h1), List.count_cons_of_ne (by simp), ih (j + 1) (by omega) h1]
    · rw [if_pos ⟨rfl, h1⟩, List.count_cons_self, count_minus_digits n a true point r (j + 1) h1]

/-! ## The clock sweep -/

/-- One iteration of the sweep loop of `writeClock` shows one frame with the digit
`num % 10`, whatever follows the loop. -/
theorem frames_writeClockLoop_succ (s : State) (c : Int) (symbColon : Bool) (k : Nat)
    (num : Int) (rest : List Call) (cur : Option Frame) :
    frames cur (writeClockLoop s c symbColon (k + 1) num ++ rest)
    = Frame.mk (Slot.digit (Int.ofNat k)) (pattern (writeDigit (Int.tmod num 10)))
        (decide (c = 46 ∧ (k : Int) = s.numOfDigits - 3))
      :: frames none (writeClockLoop s c symbColon k (Int.tdiv num 10) ++ rest) := by
  by_cases h1 : c = 58 ∧ symbColon = false
  · have h2 : ¬ c = 46 := by omega
    simp [writeClockLoop, frames, showCall, h1, h2]
  · by_cases h2 : c = 46
    · by_cases h3 : (k : Int) = s.numOfDigits - 3
      · simp [writeClockLoop, frames, showCall, h1, h2, h3]
      · simp [writeClockLoop, frames, showCall, h1, h2, h3]
    · simp [writeClockLoop, frames, showCall, h1, h2]

/-! ## The delays of `updDelay` -/

theorem updDelay_digitDelay (s : State) : (updDelay s).digitDelay = s.digitDelay := by
  unfold updDelay
  split_ifs <;> rfl

theorem updDelay_dutyCycle (s : State) : (updDelay s).dutyCycle = s.dutyCycle := by
  unfold updDelay
  split_ifs <;> rfl

theorem updDelay_digitOnDelay (s : State) :
    (updDelay s).digitOnDelay = Int.tdiv (wrapLong (s.digitDelay * s.dutyCycle)) 100 := by
  unfold updDelay
  split_ifs <;> rfl

theorem updDelay_digitOffDelay (s : State) :
    (updDelay s).digitOffDelay
    = wrapLong (s.digitDelay - Int.tdiv (wrapLong (s.digitDelay * s.dutyCycle)) 100) := by
  unfold updDelay
  split_ifs <;> rfl

/-- The delays of `updDelay` when the product `_digitDelay * _dutyCycle` is a `long int`:
the on-delay is the floor of the hundredth of the product, the off-delay is the rest. -/
theorem updDelay_exact (s : State) (h0 : 0 ≤ s.digitDelay) (h1 : s.digitDelay ≤ LONG_MAX)
    (p0 : 0 ≤ s.dutyCycle) (p1 : s.dutyCycle ≤ 100)
    (hrep : s.digitDelay * s.dutyCycle ≤ LONG_MAX) :
    (updDelay s).digitOnDelay = s.digitDelay * s.dutyCycle / 100
    ∧ (updDelay s).digitOffDelay = s.digitDelay - s.digitDelay * s.dutyCycle / 100
    ∧ 0 ≤ s.digitDelay * s.dutyCycle / 100
    ∧ s.digitDelay * s.dutyCycle / 100 ≤ s.digitDelay := by
  have hx0 : 0 ≤ s.digitDelay * s.dutyCycle := mul_nonneg h0 p0
  have hx1 : s.digitDelay * s.dutyCycle ≤ s.digitDelay * 100 :=
    mul_le_mul_of_nonneg_left p1 h0
  have hw : wrapLong (s.digitDelay * s.dutyCycle) = s.digitDelay * s.dutyCycle :=
    wrapLong_eq ⟨by unfold LONG_MIN; omega, hrep⟩
  have ht : Int.tdiv (s.digitDelay * s.dutyCycle) 100 = s.digitDelay * s.dutyCycle / 100 :=
    Int.tdiv_eq_ediv hx0 (by norm_num)
  have hq0 : 0 ≤ s.digitDelay * s.dutyCycle / 100 := by omega
  have hq1 : s.digitDelay * s.dutyCycle / 100 ≤ s.digitDelay := by omega
  unfold LONG_MAX at hrep h1
  refine ⟨?_, ?_, hq0, hq1⟩
  · rw [updDelay_digitOnDelay, hw, ht]
  · rw [updDelay_digitOffDelay, hw, ht]
    exact wrapLong_eq ⟨by unfold LONG_MIN; omega, by unfold LONG_MAX; omega⟩

/-- The C expression `_digitOnDelay + _digitOffDelay == _digitDelay`, evaluated in
`long int` arithmetic, holds after `updDelay` whatever the delay and the duty cycle. -/
theorem updDelay_sum_wrapped (s : State) (h : isLong s.digitDelay) :
    wrapLong ((updDelay s).digitOnDelay + (updDelay s).digitOffDelay) = (updDelay s).digitDelay := by
  rw [updDelay_digitOnDelay, updDelay_digitOffDelay, updDelay_digitDelay]
  unfold isLong LONG_MIN LONG_MAX at h
  unfold wrapLong
  omega

/-- The method `setRefreshRate` returns for a positive rate and a positive digit count. -/
theorem setRefreshRate_eq (s : State) (freq : Int) (hf : 1 ≤ freq) (hn : 1 ≤ s.numOfDigits) :
    setRefreshRate s freq
    = some (setDigitDelay s
        (1000000 / freq / (s.numOfDigits + (if s.symbDigPin ≠ -1 then 1 else 0)))) := by
  have hp0 : (0 : Int) ≤ 1000000 / freq := Int.ediv_nonneg (by norm_num) (by omega)
  have e1 : Int.tdiv 1000000 freq = 1000000 / freq :=
    Int.tdiv_eq_ediv (by norm_num) (by omega)
  unfold setRefreshRate
  rw [if_neg (by omega), if_neg (by omega)]
  simp only [e1]
  by_cases hsy : s.symbDigPin ≠ -1
  · rw [if_pos hsy, if_neg (by omega), if_pos hsy, Int.tdiv_eq_ediv hp0 (by omega)]
  · rw [if_neg hsy, if_neg hsy, Int.tdiv_eq_ediv hp0 (by omega), add_zero]

/-! ## Pin levels after a sequence of writes -/

theorem applyEvents_append (lv : Int → Int) (l1 l2 : List Event) :
    applyEvents lv (l1 ++ l2) = applyEvents (applyEvents lv l1) l2 := by
  unfold applyEvents
  exact List.foldl_append _ _ _ _

theorem mem_pinWrites (p l : Int) (es : List Event) :
    l ∈ pinWrites p es ↔ Event.digitalWrite p l ∈ es := by
  induction es with
  | nil => simp [pinWrites]
  | cons e es ih =>
    cases e with
    | digitalWrite q level =>
      by_cases h : q = p
      · subst h
        simp [pinWrites, ih]
      · have h2 : ¬ (p = q) := fun e => h e.symm
        simp [pinWrites, h, h2, ih]
    | delayMicroseconds us => simp [pinWrites, ih]
    | delay ms => simp [pinWrites, ih]

/-- The level of a pin after a sequence of events is the level last written to it. -/
theorem applyEvents_eq (es : List Event) : ∀ (lv : Int → Int) (p : Int),
    applyEvents lv es p = ((pinWrites p es).getLast?).getD (lv p) := by
  induction es with
  | nil => intro lv p; rfl
  | cons e es ih =>
    intro lv p
    have hstep : applyEvents lv (e :: es) = applyEvents (applyEvent lv e) es := rfl
    rw [hstep, ih]
    cases e with
    | digitalWrite q level =>
      by_cases h : q = p
      · subst h
        simp [pinWrites, applyEvent, List.getLast?_cons]
      · have h2 : ¬ (p = q) := fun e => h e.symm
        simp [pinWrites, applyEvent, h, h2]
    | delayMicroseconds us => simp [pinWrites, applyEvent]
    | delay ms => simp [pinWrites, applyEvent]

/-- A pin that is written, and only ever at one level, ends at that level. -/
theorem applyEvents_const (es : List Event) (lv : Int → Int) (p v : Int)
    (hall : ∀ l, Event.digitalWrite p l ∈ es → l = v)
    (hex : ∃ l, Event.digitalWrite p l ∈ es) : applyEvents lv es p = v := by
  rw [applyEvents_eq]
  obtain ⟨l, hl⟩ := hex
  have hne : pinWrites p es ≠ [] := by
    intro h
    have := (mem_pinWrites p l es).mpr hl
    rw [h] at this
    exact List.not_mem_nil _ this
  rw [List.getLast?_eq_getLast _ hne]
  simp only [Option.getD_some]
  exact hall _ ((mem_pinWrites p _ es).mp (List.getLast_mem hne))

/-- A pin that is not written keeps its level. -/
theorem applyEvents_untouched (es : List Event) (lv : Int → Int) (p : Int)
    (hno : ∀ l, Event.digitalWrite p l ∉ es) : applyEvents lv es p = lv p := by
  rw [applyEvents_eq]
  have : pinWrites p es = [] := by
    apply List.eq_nil_iff_forall_not_mem.mpr
    intro l hl
    exact hno l ((mem_pinWrites p l es).mp hl)
  rw [this]
  rfl

theorem pinStates_append (l1 l2 : List Event) : ∀ lv : Int → Int,
    pinStates lv (l1 ++ l2) = pinStates lv l1 ++ pinStates (applyEvents lv l1) l2 := by
  induction l1 with
  | nil => intro lv; rfl
  | cons e es ih =>
    intro lv
    rw [List.cons_append]
    simp only [pinStates]
    rw [ih]
    rfl

/-! ## The writes of `clearDisp` -/

/-- The method `clearDisp` writes every digit-common pin to the digit-off level and
every segment pin to the segment-off level, and nothing else. -/
theorem mem_clearDisp (s : State) (e : Event) :
    e ∈ clearDisp s
    ↔ (∃ p ∈ digitPins s, e = Event.digitalWrite p s.digOff)
      ∨ (∃ p ∈ segmentPins s, e = Event.digitalWrite p s.segOff) := by
  have e : clearDisp s
      = ((List.range s.numOfDigits.toNat).map (fun (i : Nat) => digPin s (Int.ofNat i))).map
          (fun p => Event.digitalWrite p s.digOff)
        ++ [s.A, s.B, s.C, s.D, s.E, s.F, s.G].map (fun p => Event.digitalWrite p s.segOff)
        ++ (if s.DP ≠ -1 then [s.DP] else []).map (fun p => Event.digitalWrite p s.segOff)
        ++ (if s.symbDigPin ≠ -1 then [s.symbDigPin] else []).map
            (fun p => Event.digitalWrite p s.digOff) := by
    unfold clearDisp
    rw [List.map_map]
    split_ifs <;> rfl
  rw [e]
  unfold digitPins segmentPins
  simp only [List.mem_append, List.mem_map]
  constructor
  · rintro (((⟨p, hp, rfl⟩ | ⟨p, hp, rfl⟩) | ⟨p, hp, rfl⟩) | ⟨p, hp, rfl⟩)
    · exact Or.inl ⟨p, Or.inl hp, rfl⟩
    · exact Or.inr ⟨p, Or.inl hp, rfl⟩
    · exact Or.inr ⟨p, Or.inr hp, rfl⟩
    · exact Or.inl ⟨p, Or.inr hp, rfl⟩
  · rintro (⟨p, hp | hp, rfl⟩ | ⟨p, hp | hp, rfl⟩)
    · exact Or.inl (Or.inl (Or.inl ⟨p, hp, rfl⟩))
    · exact Or.inr ⟨p, hp, rfl⟩
    · exact Or.inl (Or.inl (Or.inr ⟨p, hp, rfl⟩))
    · exact Or.inl (Or.inr ⟨p, hp, rfl⟩)

theorem distinctPins_apart (s : State) (h : distinctPins s) (p : Int)
    (hp : p ∈ digitPins s) : p ∉ segmentPins s := by
  unfold distinctPins at h
  exact fun hq => (List.nodup_append.mp h).2.2 hp hq

theorem clearDisp_digit (s : State) (h : distinctPins s) (lv : Int → Int) (p : Int)
    (hp : p ∈ digitPins s) : applyEvents lv (clearDisp s) p = s.digOff := by
  apply applyEvents_const
  · intro l hl
    rcases (mem_clearDisp s _).mp hl with ⟨q, hq, e⟩ | ⟨q, hq, e⟩
    · injection e with e1 e2
    · injection e with e1 e2
      exact absurd (e1 ▸ hq) (distinctPins_apart s h p hp)
  · exact ⟨s.digOff, (mem_clearDisp s _).mpr (Or.inl ⟨p, hp, rfl⟩)⟩

theorem clearDisp_segment (s : State) (h : distinctPins s) (lv : Int → Int) (p : Int)
    (hp : p ∈ segmentPins s) : applyEvents lv (clearDisp s) p = s.segOff := by
  apply applyEvents_const
  · intro l hl
    rcases (mem_clearDisp s _).mp hl with ⟨q, hq, e⟩ | ⟨q, hq, e⟩
    · injection e with e1 e2
      exact absurd hp (distinctPins_apart s h p (e1 ▸ hq))
    · injection e with e1 e2
  · exact ⟨s.segOff, (mem_clearDisp s _).mpr (Or.inr ⟨p, hp, rfl⟩)⟩

/-! ## Digit selection -/

theorem changeDigit_level (s : State) (i : Int) (lv : Int → Int) (p : Int) :
    applyEvents lv (changeDigit s i) p
    = if p = digPin s i then s.digOn else applyEvents lv (clearDisp s) p := by
  unfold changeDigit
  rw [applyEvents_append]
  rfl

theorem digPin_mem_digitPins (s : State) (n : Nat) (hs : s.numOfDigits = (n : Int)) (j : Int)
    (h0 : 0 ≤ j) (h1 : j < (n : Int)) : digPin s j ∈ digitPins s := by
  unfold digitPins
  apply List.mem_append_left
  rw [List.mem_map]
  refine ⟨j.toNat, ?_, ?_⟩
  · rw [List.mem_range, hs, Int.toNat_ofNat]
    omega
  · have : Int.ofNat j.toNat = j := by
      show ((j.toNat : Nat) : Int) = j
      omega
    rw [this]

theorem digPin_injective (s : State) (n : Nat) (hs : s.numOfDigits = (n : Int))
    (h : distinctPins s) (i j : Int) (hi0 : 0 ≤ i) (hi1 : i < (n : Int)) (hj0 : 0 ≤ j)
    (hj1 : j < (n : Int)) (e : digPin s j = digPin s i) : j = i := by
  unfold distinctPins digitPins at h
  have h1 := (List.nodup_append.mp (List.nodup_append.mp h).1).1
  have hinj := List.inj_on_of_nodup_map h1
  have hmem : ∀ k : Int, 0 ≤ k → k < (n : Int) → k.toNat ∈ List.range s.numOfDigits.toNat := by
    intro k k0 k1
    rw [List.mem_range, hs, Int.toNat_ofNat]
    omega
  have hof : ∀ k : Int, 0 ≤ k → Int.ofNat k.toNat = k := by
    intro k k0
    show ((k.toNat : Nat) : Int) = k
    omega
  have := hinj (hmem j hj0 hj1) (hmem i hi0 hi1) (by rw [hof j hj0, hof i hi0]; exact e)
  omega

theorem segPin_mem_segmentPins (s : State) (x : Seg) : segPin s x ∈ segmentPins s := by
  unfold segmentPins
  apply List.mem_append_left
  cases x <;> simp [segPin]

/-- An event that asserts no digit-common pin. -/
theorem assertedDigits_harmless (s : State) (lv : Int → Int) (e : Event)
    (h : ∀ p l, e = Event.digitalWrite p l → p ∈ digitPins s → l ≠ s.digOn) :
    (assertedDigits s (applyEvent lv e)).length ≤ (assertedDigits s lv).length := by
  unfold assertedDigits
  rw [← List.countP_eq_length_filter, ← List.countP_eq_length_filter]
  apply List.countP_mono_left
  intro p hp hq
  cases e with
  | digitalWrite q l =>
    by_cases hpq : p = q
    · exfalso
      have : l = s.digOn := by simpa [applyEvent, hpq] using hq
      exact h q l rfl (hpq ▸ hp) this
    · simpa [applyEvent, hpq] using hq
  | delayMicroseconds us => exact hq
  | delay ms => exact hq

theorem pinStates_harmless (s : State) (es : List Event) : ∀ lv : Int → Int,
    (∀ e ∈ es, ∀ p l, e = Event.digitalWrite p l → p ∈ digitPins s → l ≠ s.digOn) →
    ∀ lv2 ∈ pinStates lv es, (assertedDigits s lv2).length ≤ (assertedDigits s lv).length := by
  induction es with
  | nil => intro lv _ lv2 h; simp [pinStates] at h
  | cons e es ih =>
    intro lv hall lv2 h
    have h1 := assertedDigits_harmless s lv e (hall e (List.mem_cons_self _ _))
    simp only [pinStates, List.mem_cons] at h
    rcases h with h | h
    · rw [h]; exact h1
    · exact le_trans (ih _ (fun e2 he2 => hall e2 (List.mem_cons_of_mem _ he2)) lv2 h) h1

theorem clearDisp_harmless (s : State) (h : distinctPins s) (hlev : s.digOn ≠ s.digOff) :
    ∀ e ∈ clearDisp s, ∀ p l, e = Event.digitalWrite p l → p ∈ digitPins s → l ≠ s.digOn := by
  intro e he p l hpl hp
  rw [hpl] at he
  rcases (mem_clearDisp s _).mp he with ⟨q, hq, e1⟩ | ⟨q, hq, e1⟩
  · injection e1 with _ e3
    rw [e3]
    exact fun e4 => hlev e4.symm
  · injection e1 with e2 _
    exact absurd (e2 ▸ hq) (distinctPins_apart s h p hp)

/-- Selecting one digit-common pin when all are de-asserted asserts at most one. -/
theorem assertedDigits_select (s : State) (h : distinctPins s) (hlev : s.digOn ≠ s.digOff)
    (lv : Int → Int) (hclear : ∀ p ∈ digitPins s, lv p = s.digOff) (q : Int) :
    (assertedDigits s (applyEvent lv (Event.digitalWrite q s.digOn))).length ≤ 1 := by
  unfold distinctPins at h
  have hnd := (List.nodup_append.mp h).1
  unfold assertedDigits
  rw [← List.countP_eq_length_filter]
  refine le_trans (List.countP_mono_left (q := fun p => decide (p = q)) ?_) ?_
  · intro p hp hq
    by_cases hpq : p = q
    · simpa using hpq
    · exfalso
      have : lv p = s.digOn := by simpa [applyEvent, hpq] using hq
      rw [hclear p hp] at this
      exact hlev this.symm
  · have hc := List.nodup_iff_count_le_one.mp hnd q
    rw [List.count, List.countP_congr (q := fun p => decide (p = q))] at hc
    · exact hc
    · intro x _
      simp

/-! ## The segment pins after `writeDigit` -/

theorem segPin_injective (s : State) (h : [s.A, s.B, s.C, s.D, s.E, s.F, s.G].Nodup)
    (x y : Seg) (e : segPin s x = segPin s y) : x = y := by
  simp only [List.nodup_cons, List.mem_cons, List.mem_singleton, List.not_mem_nil, not_or,
    or_false] at h
  obtain ⟨⟨a1, a2, a3, a4, a5, a6⟩, ⟨b1, b2, b3, b4, b5⟩, ⟨c1, c2, c3, c4⟩, ⟨d1, d2, d3⟩,
    ⟨e1, e2⟩, f1, _⟩ := h
  cases x <;> cases y <;> first
    | rfl
    | (exfalso; simp only [segPin] at e; first
        | exact a1 e | exact a2 e | exact a3 e | exact a4 e | exact a5 e | exact a6 e
        | exact b1 e | exact b2 e | exact b3 e | exact b4 e | exact b5 e
        | exact c1 e | exact c2 e | exact c3 e | exact c4 e
        | exact d1 e | exact d2 e | exact d3 e | exact e1 e | exact e2 e | exact f1 e
        | exact a1 e.symm | exact a2 e.symm | exact a3 e.symm | exact a4 e.symm
        | exact a5 e.symm | exact a6 e.symm
        | exact b1 e.symm | exact b2 e.symm | exact b3 e.symm | exact b4 e.symm
        | exact b5 e.symm
        | exact c1 e.symm | exact c2 e.symm | exact c3 e.symm | exact c4 e.symm
        | exact d1 e.symm | exact d2 e.symm | exact d3 e.symm | exact e1 e.symm
        | exact e2 e.symm | exact f1 e.symm)

theorem pinWrites_segWrite (s : State) (h : [s.A, s.B, s.C, s.D, s.E, s.F, s.G].Nodup)
    (x : Seg) (ws : List (Seg × Bool)) :
    pinWrites (segPin s x) (ws.map (segWrite s))
    = (ws.filter (fun w => decide (w.1 = x))).map
        (fun w => if w.2 = true then s.segOn else s.segOff) := by
  induction ws with
  | nil => rfl
  | cons w ws ih =>
    by_cases hw : w.1 = x
    · have e : segPin s w.1 = segPin s x := by rw [hw]
      simp only [List.map_cons, segWrite, pinWrites, if_pos e, ih, List.filter_cons,
        decide_eq_true hw, if_true]
    · have e : ¬ (segPin s w.1 = segPin s x) := fun e => hw (segPin_injective s h _ _ e)
      simp only [List.map_cons, segWrite, pinWrites, if_neg e, ih, List.filter_cons,
        decide_eq_false hw]
      rfl

/-- With distinct segment pins, a segment that is written ends lit or dark as its last
write says, whatever the prior level of its pin. -/
theorem applyEvents_segWrites (s : State) (h : [s.A, s.B, s.C, s.D, s.E, s.F, s.G].Nodup)
    (ws : List (Seg × Bool)) (lv : Int → Int) (x : Seg) (hw : ∃ b, (x, b) ∈ ws) :
    applyEvents lv (ws.map (segWrite s)) (segPin s x)
    = if lit ws x = true then s.segOn else s.segOff := by
  rw [applyEvents_eq, pinWrites_segWrite s h, List.getLast?_map]
  obtain ⟨b, hb⟩ := hw
  have hne : ws.filter (fun w => decide (w.1 = x)) ≠ [] := by
    intro e
    have : (x, b) ∈ ws.filter (fun w => decide (w.1 = x)) := by
      rw [List.mem_filter]
      exact ⟨hb, by simp⟩
    rw [e] at this
    exact List.not_mem_nil _ this
  unfold lit
  rw [List.getLast?_eq_getLast _ hne]
  rfl

theorem mem_segsOff (x : Seg) : (x, false) ∈ segsOff := by
  unfold segsOff
  cases x <;> simp

theorem writeDigit_head (d : Int) (x : Seg) : ∃ b, (x, b) ∈ writeDigit d := by
  refine ⟨false, ?_⟩
  unfold writeDigit
  simp only [List.append_assoc]
  exact List.mem_append_left _ (mem_segsOff x)

theorem writeDigitChar_head (c : Int) (x : Seg) : ∃ b, (x, b) ∈ writeDigitChar c := by
  refine ⟨false, ?_⟩
  unfold writeDigitChar
  simp only [List.append_assoc]
  exact List.mem_append_left _ (mem_segsOff x)

theorem pattern_eq_lit (ws : List (Seg × Bool)) :
    pattern ws = [Seg.A, Seg.B, Seg.C, Seg.D, Seg.E, Seg.F, Seg.G].map (lit ws) := rfl

theorem branch_ne (digit code : Int) (l : List Seg) (h : digit ≠ code) :
    branch digit code l = [] := by
  unfold branch
  rw [if_neg h]

theorem writeLetter_none (c : Int) (h : c < 65 ∨ 90 < c) : writeLetter c = [] := by
  have hb : ∀ (code : Int) (l : List Seg), 65 ≤ code → code ≤ 90 → branch c code l = [] :=
    fun code l h1 h2 => branch_ne c code l (by omega)
  unfold writeLetter
  simp [hb]

theorem writeDigit_none (d : Int) (h : d < 0 ∨ 9 < d) : writeDigit d = segsOff := by
  have hb : ∀ (code : Int) (l : List Seg), 0 ≤ code → code ≤ 9 → branch d code l = [] :=
    fun code l h1 h2 => branch_ne d code l (by omega)
  unfold writeDigit
  simp [hb]

theorem writeDigitChar_unknown (c : Int) (h : ¬ knownGlyph c) : writeDigitChar c = segsOff := by
  unfold knownGlyph at h
  have hcap : capitalize c = c := by
    unfold capitalize
    rw [if_neg (by omega)]
  unfold writeDigitChar
  rw [hcap, writeLetter_none c (by omega), branch_ne c 45 _ (by omega),
    branch_ne c 248 _ (by omega), if_neg (by omega)]
  simp

theorem writeDigitChar_lowercase (c : Int) (h0 : 97 ≤ c) (h1 : c ≤ 122) :
    writeDigitChar c = writeDigitChar (c - 32) := by
  have hcap : capitalize c = c - 32 := by
    unfold capitalize
    rw [if_pos ⟨by omega, h1⟩]
  have hcap2 : capitalize (c - 32) = c - 32 := by
    unfold capitalize
    rw [if_neg (by omega)]
  unfold writeDigitChar
  rw [hcap, hcap2, branch_ne c 45 _ (by omega), branch_ne c 248 _ (by omega),
    branch_ne (c - 32) 45 _ (by omega), branch_ne (c - 32) 248 _ (by omega),
    if_neg (by omega), if_neg (by omega)]

theorem applyEvents_segsOff (s : State) (lv : Int → Int) (x : Seg) :
    applyEvents lv (segsOff.map (segWrite s)) (segPin s x) = s.segOff := by
  apply applyEvents_const
  · intro l hl
    rw [List.mem_map] at hl
    obtain ⟨w, hw, e⟩ := hl
    unfold segsOff at hw
    simp only [List.mem_cons, List.mem_singleton, List.not_mem_nil, or_false] at hw
    rcases hw with rfl | rfl | rfl | rfl | rfl | rfl | rfl
    all_goals (simp only [segWrite] at e; injection e with _ e2; exact e2.symm)
  · refine ⟨s.segOff, ?_⟩
    rw [List.mem_map]
    exact ⟨(x, false), mem_segsOff x, rfl⟩

/-! ## The example objects and the levels -/

/-- The example object is the one the constructor and `setDigitPins` build. -/
theorem exampleState_built :
    (setDigitPins (construct 2 3 4 5 6 7 8).1 4 [10, 11, 12, 13]).map Prod.fst
    = some (exampleState 4 (-1)) := rfl

/-- The tick-driven example object is the one `setColonPin(9)`, `setDutyCycle(50)`,
`setTimer(0)` and `startTimer()` build. -/
theorem exampleTickState_built :
    startTimer (setTimer (setDutyCycle (setColonPin (exampleState 4 (-1)) 9).1 50) 0)
    = exampleTickState := rfl

/-- The digit-on and the digit-off level differ after the constructor and after each of
the three methods that set the levels. -/
theorem digit_levels_differ (s : State) (segActive digActive A B C D E F G : Int) :
    (construct A B C D E F G).1.digOn ≠ (construct A B C D E F G).1.digOff
    ∧ (setCommonAnode s).digOn ≠ (setCommonAnode s).digOff
    ∧ (setCommonCathode s).digOn ≠ (setCommonCathode s).digOff
    ∧ (setActivePinState s segActive digActive).digOn
      ≠ (setActivePinState s segActive digActive).digOff := by
  refine ⟨?_, ?_, ?_, ?_⟩
  · show (1 : Int) ≠ 0
    decide
  · show (1 : Int) ≠ 0
    decide
  · show (0 : Int) ≠ 1
    decide
  · show digActive ≠ logicalNot digActive
    unfold logicalNot
    split_ifs <;> omega

/-! ## Text sweeps in closed form -/

theorem strAt_append (pre rest : List Int) (k : Nat) :
    strAt (pre ++ rest) (pre.length + k) = strAt rest k := by
  unfold strAt
  rw [List.getD_append_right _ _ _ _ (by omega)]
  congr 1
  omega

theorem strAt_buildText_zero (l : List (Int × Bool)) (hl : ∀ p ∈ l, p.1 ≠ 46 ∧ p.1 ≠ 0) :
    strAt (buildText l) 0 ≠ 46 := by
  cases l with
  | nil => unfold buildText strAt; simp
  | cons p l =>
    have hp := (hl p (List.mem_cons_self _ _)).1
    unfold buildText strAt
    rw [List.flatMap_cons]
    by_cases hb : p.2 = true
    · rw [if_pos hb]; simpa using hp
    · rw [if_neg hb]; simpa using hp

theorem buildText_cons (p : Int × Bool) (l : List (Int × Bool)) :
    buildText (p :: l) = (if p.2 = true then [p.1, 46] else [p.1]) ++ buildText l := by
  unfold buildText
  rw [List.flatMap_cons]

/-- The sweep loop of `write(char*)` on a built text, entered at the start of the
remaining pairs, performs the slot calls of these pairs. -/
theorem writeStrLoop_buildText (s : State) (l : List (Int × Bool)) :
    (∀ p ∈ l, p.1 ≠ 46 ∧ p.1 ≠ 0) → ∀ (pre : List Int) (j : Int),
    writeStrLoop s (pre ++ buildText l) pre.length j = textSweep s l j := by
  induction l with
  | nil =>
    intro _ pre j
    rw [writeStrLoop]
    have e : strAt (pre ++ buildText []) pre.length = 0 := by
      have := strAt_append pre (buildText []) 0
      rw [Nat.add_zero] at this
      rw [this]
      rfl
    rw [if_neg (by rw [e]; exact fun h => h rfl)]
    rfl
  | cons p l ih =>
    intro hl pre j
    have hp := hl p (List.mem_cons_self _ _)
    have hl2 : ∀ q ∈ l, q.1 ≠ 46 ∧ q.1 ≠ 0 := fun q hq => hl q (List.mem_cons_of_mem _ hq)
    have e0 : strAt (pre ++ buildText (p :: l)) pre.length = p.1 := by
      have := strAt_append pre (buildText (p :: l)) 0
      rw [Nat.add_zero] at this
      rw [this, buildText_cons]
      split_ifs <;> rfl
    rw [writeStrLoop, if_pos (by rw [e0]; exact hp.2), e0]
    by_cases hb : p.2 = true
    · have e1 : strAt (pre ++ buildText (p :: l)) (pre.length + 1) = 46 := by
        rw [strAt_append, buildText_cons, if_pos hb]
        rfl
      have e2 : pre ++ buildText (p :: l) = (pre ++ [p.1, 46]) ++ buildText l := by
        rw [buildText_cons, if_pos hb, List.append_assoc]
      have e3 : pre.length + 1 + 1 = (pre ++ [p.1, 46]).length := by simp
      rw [e1, if_pos rfl, if_pos rfl, e3, e2, ih hl2]
      simp only [textSweep, textSlot, hb, if_true]
    · have e1 : strAt (pre ++ buildText (p :: l)) (pre.length + 1) ≠ 46 := by
        rw [strAt_append, buildText_cons, if_neg hb]
        exact strAt_buildText_zero l hl2
      have e2 : pre ++ buildText (p :: l) = (pre ++ [p.1]) ++ buildText l := by
        rw [buildText_cons, if_neg hb, List.append_assoc]
      have e3 : pre.length + 1 = (pre ++ [p.1]).length := by simp
      rw [if_neg e1, if_neg e1, e3, e2, ih hl2]
      have hb2 : p.2 = false := by simpa using hb
      simp only [textSweep, textSlot, hb2]
      rfl

theorem buildText_length_pos (p : Int × Bool) (l : List (Int × Bool)) :
    0 < (buildText (p :: l)).length := by
  rw [buildText_cons]
  split_ifs <;> simp

/-- The sweep loop of `write(String)` on a built text. -/
theorem writeStringLoop_buildText (s : State) (l : List (Int × Bool)) :
    (∀ p ∈ l, p.1 ≠ 46) → ∀ (pre : List Int) (j : Int),
    writeStringLoop s (pre ++ buildText l) pre.length j = textSweep s l j := by
  induction l with
  | nil =>
    intro _ pre j
    rw [writeStringLoop]
    have e : (pre ++ buildText []).length = pre.length := by
      unfold buildText
      simp
    rw [if_neg (by rw [e]; omega)]
    rfl
  | cons p l ih =>
    intro hl pre j
    have hl2 : ∀ q ∈ l, q.1 ≠ 46 := fun q hq => hl q (List.mem_cons_of_mem _ hq)
    have e0 : strAt (pre ++ buildText (p :: l)) pre.length = p.1 := by
      have := strAt_append pre (buildText (p :: l)) 0
      rw [Nat.add_zero] at this
      rw [this, buildText_cons]
      split_ifs <;> rfl
    have hlen : pre.length < (pre ++ buildText (p :: l)).length := by
      rw [List.length_append]
      have := buildText_length_pos p l
      omega
    rw [writeStringLoop, if_pos hlen, e0]
    by_cases hb : p.2 = true
    · have e1 : strAt (pre ++ buildText (p :: l)) (pre.length + 1) = 46 := by
        rw [strAt_append, buildText_cons, if_pos hb]
        rfl
      have e2 : pre ++ buildText (p :: l) = (pre ++ [p.1, 46]) ++ buildText l := by
        rw [buildText_cons, if_pos hb, List.append_assoc]
      have e3 : pre.length + 1 + 1 = (pre ++ [p.1, 46]).length := by simp
      rw [e1, if_pos rfl, if_pos rfl, e3, e2, ih hl2]
      simp only [textSweep, textSlot, hb, if_true]
    · have e1 : strAt (pre ++ buildText (p :: l)) (pre.length + 1) ≠ 46 := by
        rw [strAt_append, buildText_cons, if_neg hb]
        cases l with
        | nil => unfold buildText strAt; simp
        | cons q l2 =>
          have hq := hl2 q (List.mem_cons_self _ _)
          rw [buildText_cons]
          unfold strAt
          split_ifs <;> simpa using hq
      have e2 : pre ++ buildText (p :: l) = (pre ++ [p.1]) ++ buildText l := by
        rw [buildText_cons, if_neg hb, List.append_assoc]
      have e3 : pre.length + 1 = (pre ++ [p.1]).length := by simp
      rw [if_neg e1, if_neg e1, e3, e2, ih hl2]
      have hb2 : p.2 = false := by simpa using hb
      simp only [textSweep, textSlot, hb2]
      rfl

theorem frames_textSlot (s : State) (j g : Int) (b : Bool) (cs : List Call) :
    frames none (textSlot s j g b ++ cs)
    = Frame.mk (Slot.digit j) (pattern (writeDigitChar g)) b :: frames none cs := by
  cases b <;> rfl

/-- The frames of a text sweep: one per pair, on consecutive slots, with the pattern of
the glyph and the point flag of the pair. -/
theorem frames_textSweep (s : State) (l : List (Int × Bool)) : ∀ j : Int,
    (frames none (textSweep s l j)).map Frame.slot
      = (List.range l.length).map (fun (k : Nat) => Slot.digit (j + Int.ofNat k))
    ∧ (frames none (textSweep s l j)).map Frame.segs
      = l.map (fun p => pattern (writeDigitChar p.1))
    ∧ (frames none (textSweep s l j)).map Frame.dp = l.map Prod.snd := by
  induction l with
  | nil => intro j; exact ⟨rfl, rfl, rfl⟩
  | cons p l ih =>
    intro j
    obtain ⟨h1, h2, h3⟩ := ih (j + 1)
    simp only [textSweep]
    rw [frames_textSlot]
    refine ⟨?_, ?_, ?_⟩
    · rw [List.map_cons, h1, List.length_cons, List.range_succ_eq_map, List.map_cons,
        List.map_map]
      congr 1
      · show Slot.digit j = Slot.digit (j + 0)
        rw [add_zero]
      · apply List.map_congr_left
        intro k _
        show Slot.digit (j + 1 + Int.ofNat k) = Slot.digit (j + Int.ofNat (k + 1))
        congr 1
        show j + 1 + (k : Int) = j + ((k + 1 : Nat) : Int)
        push_cast
        ring
    · rw [List.map_cons, h2, List.map_cons]
    · rw [List.map_cons, h3, List.map_cons]

/-! ## Phase transitions of one tick -/

/-- A tick performs both phase transitions exactly when it ends the on-part and the off
counter end is not positive. -/
theorem both_transitions_iff (s : State) :
    (onToOff s ∧ offToOn s)
    ↔ (wrapLong (s.timerCounter + 1) ≥ s.timerCounterOnEnd ∧ s.timerPhase = 1
        ∧ s.timerCounterOffEnd ≤ 0) := by
  have hc : (iaCount s).timerCounter = wrapLong (s.timerCounter + 1) := rfl
  have ho : (iaCount s).timerCounterOnEnd = s.timerCounterOnEnd := rfl
  have hp : (iaCount s).timerPhase = s.timerPhase := rfl
  unfold onToOff offToOn
  rw [hc, ho, hp]
  by_cases h : wrapLong (s.timerCounter + 1) ≥ s.timerCounterOnEnd ∧ s.timerPhase = 1
  · have e : (iaOnEnd (iaCount s)).1
        = { iaCount s with timerCounter := 0, timerPhase := 0 } := by
      unfold iaOnEnd
      rw [if_pos (by rw [hc, ho, hp]; exact h)]
    rw [e]
    have e1 : ({ iaCount s with timerCounter := 0, timerPhase := 0 } : State).timerCounter = 0 :=
      rfl
    have e2 : ({ iaCount s with timerCounter := 0, timerPhase := 0 } : State).timerCounterOffEnd
        = s.timerCounterOffEnd := rfl
    have e3 : ({ iaCount s with timerCounter := 0, timerPhase := 0 } : State).timerPhase = 0 :=
      rfl
    rw [e1, e2, e3]
    constructor
    · rintro ⟨_, h2, _⟩
      exact ⟨h.1, h.2, h2⟩
    · rintro ⟨_, _, h3⟩
      exact ⟨h, h3, rfl⟩
  · constructor
    · rintro ⟨h1, _⟩
      exact absurd h1 h
    · rintro ⟨h1, h2, _⟩
      exact absurd ⟨h1, h2⟩ h

theorem updDelay_timerCounterOffEnd (s : State) (h : s.timerID ≠ -1) :
    (updDelay s).timerCounterOffEnd
    = if (updDelay s).digitOffDelay = 0 then 0
      else Int.tdiv (updDelay s).digitOffDelay 16 - 1 := by
  unfold updDelay
  rw [if_pos h]

/-- With a timer, the off counter end set by `updDelay` is positive exactly for an
off-delay of at least 32 microseconds. -/
theorem updDelay_offEnd_pos (s : State) (h : s.timerID ≠ -1) :
    1 ≤ (updDelay s).timerCounterOffEnd ↔ 32 ≤ (updDelay s).digitOffDelay := by
  rw [updDelay_timerCounterOffEnd s h]
  by_cases h0 : 0 ≤ (updDelay s).digitOffDelay
  · rw [Int.tdiv_eq_ediv h0 (by norm_num)]
    split_ifs <;> omega
  · have hneg : Int.tdiv (updDelay s).digitOffDelay 16 ≤ 0 := by
      have e : (updDelay s).digitOffDelay = -(-(updDelay s).digitOffDelay) := by omega
      rw [e, Int.neg_tdiv, Int.tdiv_eq_ediv (by omega) (by norm_num)]
      omega
    split_ifs <;> omega

/-- A tick inside the on-part of the started example only counts. -/
theorem startedCursor_wait (c : Int) (h0 : 0 ≤ c) (h1 : c + 1 < 155) :
    (interruptAction (startedCursor c)).1 = startedCursor (c + 1) := by
  have hw : wrapLong (c + 1) = c + 1 := by unfold wrapLong; omega
  have e0 : iaCount (startedCursor c) = startedCursor (c + 1) := by
    unfold iaCount
    rw [show (startedCursor c).timerCounter = c from rfl, hw]
    rfl
  have e1 : iaOnEnd (startedCursor (c + 1)) = (startedCursor (c + 1), []) := by
    unfold iaOnEnd
    rw [if_neg]
    rintro ⟨h, _⟩
    have : (startedCursor (c + 1)).timerCounter = c + 1 := rfl
    have : (startedCursor (c + 1)).timerCounterOnEnd = 155 := rfl
    omega
  have e2 : iaOffEnd (startedCursor (c + 1)) = (startedCursor (c + 1), []) := by
    unfold iaOffEnd
    rw [if_neg]
    rintro ⟨_, h⟩
    have : (startedCursor (c + 1)).timerPhase = 1 := rfl
    omega
  unfold interruptAction
  simp only [e0, e1, e2]

theorem startedCursor_ticks (k : Nat) : ∀ c : Int, 0 ≤ c → c + k < 155 →
    ticks k (startedCursor c) = startedCursor (c + k) := by
  induction k with
  | zero => intro c _ _; simp [ticks]
  | succ k ih =>
    intro c h0 h1
    simp only [ticks]
    rw [startedCursor_wait c h0 (by omega), ih (c + 1) (by omega) (by push_cast at h1; omega)]
    congr 1
    push_cast
    ring

/-! ## The slot cursor of `interruptAction` -/

theorem iaOnEnd_config (s : State) :
    (iaOnEnd s).1.timerDigit = s.timerDigit ∧ (iaOnEnd s).1.numOfDigits = s.numOfDigits
    ∧ (iaOnEnd s).1.symbDigPin = s.symbDigPin := by
  unfold iaOnEnd
  split_ifs <;> exact ⟨rfl, rfl, rfl⟩

theorem iaOffEnd_config (s : State) :
    (iaOffEnd s).1.numOfDigits = s.numOfDigits ∧ (iaOffEnd s).1.symbDigPin = s.symbDigPin := by
  unfold iaOffEnd
  split_ifs <;> exact ⟨rfl, rfl⟩

theorem interruptAction_config (s : State) :
    (interruptAction s).1.numOfDigits = s.numOfDigits
    ∧ (interruptAction s).1.symbDigPin = s.symbDigPin := by
  have h1 := iaOnEnd_config (iaCount s)
  have h2 := iaOffEnd_config (iaOnEnd (iaCount s)).1
  have e : (interruptAction s).1 = (iaOffEnd (iaOnEnd (iaCount s)).1).1 := rfl
  rw [e, h2.1, h2.2, h1.2.1, h1.2.2]
  exact ⟨rfl, rfl⟩

/-- The slot advance in closed form: from `k` in `[0, S)` to `(k + 1) mod S`. -/
theorem iaNextDigit_mod (s : State) (n : Nat) (hn : s.numOfDigits = (n : Int))
    (h0 : 0 ≤ s.timerDigit)
    (hS : s.timerDigit < (n : Int) + (if s.symbDigPin ≠ -1 then 1 else 0)) :
    iaNextDigit s = (s.timerDigit + 1) % ((n : Int) + (if s.symbDigPin ≠ -1 then 1 else 0)) := by
  unfold iaNextDigit
  simp only [hn]
  by_cases hsy : s.symbDigPin ≠ -1
  · rw [if_pos hsy] at hS ⊢
    by_cases hk : s.timerDigit + 1 = (n : Int) + 1
    · rw [if_pos (by omega), if_neg (by omega), hk, Int.emod_self]
    · rw [Int.emod_eq_of_lt (by omega) (by omega)]
      split_ifs <;> omega
  · rw [if_neg hsy] at hS ⊢
    rw [add_zero] at hS ⊢
    by_cases hk : s.timerDigit + 1 = (n : Int)
    · rw [if_pos (by omega), if_neg (by tauto), hk, Int.emod_self]
    · rw [Int.emod_eq_of_lt (by omega) (by omega), if_neg (by omega)]

theorem changeDigit_not_mem_iaGlyphCalls (s : State) (i : Int) :
    Call.changeDigit i ∉ iaGlyphCalls s := by
  unfold iaGlyphCalls
  simp only [List.mem_append, not_or]
  refine ⟨⟨⟨⟨?_, ?_⟩, ?_⟩, ?_⟩, ?_⟩
  all_goals split_ifs
  all_goals simp

theorem changeDigit_not_mem_iaOnEnd (s : State) (i : Int) :
    Call.changeDigit i ∉ (iaOnEnd s).2 := by
  unfold iaOnEnd
  split_ifs <;> simp

/-- The tick in terms of the transition it performs. -/
theorem interruptAction_offToOn (s : State) (h : offToOn s) :
    (interruptAction s).1 = iaSelect (iaOnEnd (iaCount s)).1
    ∧ (interruptAction s).2
      = (iaOnEnd (iaCount s)).2
        ++ ((if (iaSelect (iaOnEnd (iaCount s)).1).timerDigit
                = (iaSelect (iaOnEnd (iaCount s)).1).numOfDigits
              then [Call.changeDigitChar 115]
              else [Call.changeDigit (iaSelect (iaOnEnd (iaCount s)).1).timerDigit])
            ++ (if (iaSelect (iaOnEnd (iaCount s)).1).timerDigit
                  ≠ (iaSelect (iaOnEnd (iaCount s)).1).numOfDigits
                then iaGlyphCalls (iaSelect (iaOnEnd (iaCount s)).1) else [])) := by
  unfold offToOn at h
  have e : iaOffEnd (iaOnEnd (iaCount s)).1
      = (iaSelect (iaOnEnd (iaCount s)).1,
        (if (iaSelect (iaOnEnd (iaCount s)).1).timerDigit
                = (iaSelect (iaOnEnd (iaCount s)).1).numOfDigits
              then [Call.changeDigitChar 115]
              else [Call.changeDigit (iaSelect (iaOnEnd (iaCount s)).1).timerDigit])
            ++ (if (iaSelect (iaOnEnd (iaCount s)).1).timerDigit
                  ≠ (iaSelect (iaOnEnd (iaCount s)).1).numOfDigits
                then iaGlyphCalls (iaSelect (iaOnEnd (iaCount s)).1) else [])) := by
    rw [iaOffEnd, if_pos h]
  unfold interruptAction
  simp only [e]
  exact ⟨trivial, trivial⟩

theorem interruptAction_not_offToOn (s : State) (h : ¬ offToOn s) :
    (interruptAction s).1 = (iaOnEnd (iaCount s)).1
    ∧ (interruptAction s).2 = (iaOnEnd (iaCount s)).2 := by
  unfold offToOn at h
  have e : iaOffEnd (iaOnEnd (iaCount s)).1 = ((iaOnEnd (iaCount s)).1, []) := by
    rw [iaOffEnd, if_neg h]
  unfold interruptAction
  simp only [e, List.append_nil]
  exact ⟨trivial, trivial⟩

/-! ## Ticks that only count -/

/-- A tick before the end of the running phase only increments the counter and performs
no call. -/
theorem interruptAction_idle (s : State) (hc0 : 0 ≤ s.timerCounter)
    (hc1 : s.timerCounter < LONG_MAX)
    (h1 : s.timerPhase = 1 → s.timerCounter + 1 < s.timerCounterOnEnd)
    (h0 : s.timerPhase = 0 → s.timerCounter + 1 < s.timerCounterOffEnd) :
    interruptAction s = (withCounter s (s.timerCounter + 1), []) := by
  have hw : wrapLong (s.timerCounter + 1) = s.timerCounter + 1 := by
    unfold LONG_MAX at hc1
    unfold wrapLong
    omega
  have e0 : iaCount s = withCounter s (s.timerCounter + 1) := by
    unfold iaCount
    rw [hw]
    rfl
  have f1 : (withCounter s (s.timerCounter + 1)).timerCounter = s.timerCounter + 1 := rfl
  have f2 : (withCounter s (s.timerCounter + 1)).timerPhase = s.timerPhase := rfl
  have f3 : (withCounter s (s.timerCounter + 1)).timerCounterOnEnd = s.timerCounterOnEnd := rfl
  have f4 : (withCounter s (s.timerCounter + 1)).timerCounterOffEnd = s.timerCounterOffEnd :=
    rfl
  have e1 : iaOnEnd (withCounter s (s.timerCounter + 1))
      = (withCounter s (s.timerCounter + 1), []) := by
    unfold iaOnEnd
    rw [if_neg]
    rw [f1, f2, f3]
    rintro ⟨a, b⟩
    have := h1 b
    omega
  have e2 : iaOffEnd (withCounter s (s.timerCounter + 1))
      = (withCounter s (s.timerCounter + 1), []) := by
    unfold iaOffEnd
    rw [if_neg]
    rw [f1, f2, f4]
    rintro ⟨a, b⟩
    have := h0 b
    omega
  unfold interruptAction
  simp only [e0, e1, e2]
  rfl

theorem ticks_idle (k : Nat) : ∀ s : State, 0 ≤ s.timerCounter →
    s.timerCounter + k ≤ LONG_MAX →
    (s.timerPhase = 1 → s.timerCounter + k < s.timerCounterOnEnd) →
    (s.timerPhase = 0 → s.timerCounter + k < s.timerCounterOffEnd) →
    ticks k s = withCounter s (s.timerCounter + k) := by
  induction k with
  | zero => intro s _ _ _ _; simp only [ticks, Nat.cast_zero, add_zero]; rfl
  | succ k ih =>
    intro s hc0 hc1 h1 h0
    push_cast at hc1 h1 h0
    simp only [ticks]
    rw [interruptAction_idle s hc0 (by omega) (fun h => by have := h1 h; omega)
      (fun h => by have := h0 h; omega)]
    have g1 : (withCounter s (s.timerCounter + 1)).timerCounter = s.timerCounter + 1 := rfl
    rw [ih (withCounter s (s.timerCounter + 1)) (by rw [g1]; omega) (by rw [g1]; omega)
      (fun h => by rw [g1]; have := h1 h; show _ < s.timerCounterOnEnd; omega)
      (fun h => by rw [g1]; have := h0 h; show _ < s.timerCounterOffEnd; omega)]
    rw [g1]
    show withCounter s (s.timerCounter + 1 + (k : Int)) = withCounter s (s.timerCounter + ((k + 1 : Nat) : Int))
    congr 1
    push_cast
    ring

theorem tick_idle (s : State) (hc0 : 0 ≤ s.timerCounter) (hc1 : s.timerCounter < LONG_MAX)
    (h1 : s.timerPhase = 1 → s.timerCounter + 1 < s.timerCounterOnEnd)
    (h0 : s.timerPhase = 0 → s.timerCounter + 1 < s.timerCounterOffEnd) :
    tick s = (withCounter s (s.timerCounter + 1), []) := by
  unfold tick
  rw [interruptAction_idle s hc0 hc1 h1 h0]
  rfl

/-- Ticks before the end of the running phase leave the pin levels as they are. -/
theorem runTicks_idle (k : Nat) : ∀ (s : State) (lv : Int → Int), 0 ≤ s.timerCounter →
    s.timerCounter + k ≤ LONG_MAX →
    (s.timerPhase = 1 → s.timerCounter + k < s.timerCounterOnEnd) →
    (s.timerPhase = 0 → s.timerCounter + k < s.timerCounterOffEnd) →
    runTicks k s lv = (withCounter s (s.timerCounter + k), lv) := by
  induction k with
  | zero => intro s lv _ _ _ _; simp only [runTicks, Nat.cast_zero, add_zero]; rfl
  | succ k ih =>
    intro s lv hc0 hc1 h1 h0
    push_cast at hc1 h1 h0
    simp only [runTicks]
    rw [tick_idle s hc0 (by omega) (fun h => by have := h1 h; omega)
      (fun h => by have := h0 h; omega)]
    have g1 : (withCounter s (s.timerCounter + 1)).timerCounter = s.timerCounter + 1 := rfl
    have g2 : applyEvents lv [] = lv := rfl
    simp only [g2]
    rw [ih (withCounter s (s.timerCounter + 1)) lv (by rw [g1]; omega) (by rw [g1]; omega)
      (fun h => by rw [g1]; have := h1 h; show _ < s.timerCounterOnEnd; omega)
      (fun h => by rw [g1]; have := h0 h; show _ < s.timerCounterOffEnd; omega)]
    rw [g1]
    show (withCounter s (s.timerCounter + 1 + (k : Int)), lv)
      = (withCounter s (s.timerCounter + ((k + 1 : Nat) : Int)), lv)
    congr 2
    push_cast
    ring

theorem runTicks_add (a b : Nat) : ∀ (s : State) (lv : Int → Int),
    runTicks (a + b) s lv = runTicks b (runTicks a s lv).1 (runTicks a s lv).2 := by
  induction a with
  | zero => intro s lv; simp [runTicks]
  | succ a ih =>
    intro s lv
    rw [Nat.add_right_comm]
    simp only [runTicks]
    exact ih _ _

/-! ## The slots of a synchronous sweep -/

theorem selectedSlots_append (l1 l2 : List Call) :
    selectedSlots (l1 ++ l2) = selectedSlots l1 ++ selectedSlots l2 := by
  induction l1 with
  | nil => rfl
  | cons c cs ih =>
    cases c with
    | changeDigit i =>
      show Slot.digit i :: selectedSlots (cs ++ l2) = _
      rw [ih]
      rfl
    | changeDigitChar d =>
      show (if d = 115 then Slot.symbol :: selectedSlots (cs ++ l2)
        else selectedSlots (cs ++ l2)) = _
      rw [ih]
      show _ = (if d = 115 then Slot.symbol :: selectedSlots cs else selectedSlots cs)
        ++ selectedSlots l2
      split_ifs <;> rfl
    | writeDigit d => exact ih
    | writeDigitChar d => exact ih
    | setDP => exact ih
    | clearDP => exact ih
    | setColon => exact ih
    | clearColon => exact ih
    | execDelay u => exact ih

theorem range_reverse_succ (k : Nat) :
    (List.range (k + 1)).reverse = k :: (List.range k).reverse := by
  rw [List.range_succ, List.reverse_append]
  rfl

theorem selectedSlots_writeLoop (s : State) (point : Int) (k : Nat) : ∀ (num : Int) (minus : Bool),
    selectedSlots (writeLoop s point k num minus)
    = (List.range k).reverse.map (fun (i : Nat) => Slot.digit (Int.ofNat i)) := by
  induction k with
  | zero => intro num minus; rfl
  | succ k ih =>
    intro num minus
    simp only [writeLoop, selectedSlots_append, ih, range_reverse_succ, List.map_cons]
    have e1 : ∀ b1 b2 : Prop, ∀ [Decidable b1] [Decidable b2], ∀ d : Int,
        selectedSlots (if b1 then [Call.writeDigit d]
          else if b2 then [Call.writeDigitChar 45] else [Call.writeDigitChar 32]) = [] := by
      intro b1 b2 _ _ d
      split_ifs <;> rfl
    have e2 : ∀ b : Prop, ∀ [Decidable b],
        selectedSlots (if b then [Call.setDP] else []) = [] := by
      intro b _
      split_ifs <;> rfl
    rw [e1, e2]
    rfl

theorem selectedSlots_writeClockLoop (s : State) (c : Int) (symbColon : Bool) (k : Nat) :
    ∀ num : Int,
    selectedSlots (writeClockLoop s c symbColon k num)
    = (List.range k).reverse.map (fun (i : Nat) => Slot.digit (Int.ofNat i)) := by
  induction k with
  | zero => intro num; rfl
  | succ k ih =>
    intro num
    simp only [writeClockLoop, selectedSlots_append, ih, range_reverse_succ, List.map_cons]
    have e1 : ∀ (b : Prop) [Decidable b] (x : Call),
        (x = Call.setColon ∨ x = Call.clearColon ∨ x = Call.setDP ∨ x = Call.clearDP) →
        selectedSlots (if b then [x] else []) = [] := by
      intro b _ x hx
      split_ifs
      · rcases hx with rfl | rfl | rfl | rfl <;> rfl
      · rfl
    rw [e1 _ _ (Or.inl rfl), e1 _ _ (Or.inr (Or.inr (Or.inl rfl))),
      e1 _ _ (Or.inr (Or.inl rfl)), e1 _ _ (Or.inr (Or.inr (Or.inr rfl)))]
    rfl

theorem digitSlots_spec (n : Nat) :
    ((List.range n).reverse.map (fun (i : Nat) => Slot.digit (Int.ofNat i))).Nodup
    ∧ (∀ i : Int, Slot.digit i
        ∈ (List.range n).reverse.map (fun (i : Nat) => Slot.digit (Int.ofNat i))
        ↔ 0 ≤ i ∧ i < (n : Int))
    ∧ Slot.symbol ∉ (List.range n).reverse.map (fun (i : Nat) => Slot.digit (Int.ofNat i)) := by
  refine ⟨?_, ?_, ?_⟩
  · apply List.Nodup.map
    · intro a b h
      injection h with h
      exact Int.ofNat.inj h
    · exact List.nodup_reverse.mpr (List.nodup_range n)
  · intro i
    rw [List.mem_map]
    constructor
    · rintro ⟨k, hk, e⟩
      rw [List.mem_reverse, List.mem_range] at hk
      injection e with e
      have : (k : Int) = i := e
      omega
    · rintro ⟨h0, h1⟩
      refine ⟨i.toNat, ?_, ?_⟩
      · rw [List.mem_reverse, List.mem_range]
        omega
      · congr 1
        show ((i.toNat : Nat) : Int) = i
        omega
  · intro h
    rw [List.mem_map] at h
    obtain ⟨k, _, e⟩ := h
    exact Slot.noConfusion e

/-! ## The cursor of the text example -/

theorem textCursor_fields (o : Bool) (d p c : Int) :
    (textCursor o d p c).timerCounter = c ∧ (textCursor o d p c).timerPhase = p
    ∧ (textCursor o d p c).timerCounterOnEnd = 77
    ∧ (textCursor o d p c).timerCounterOffEnd = 77 := by
  cases o <;> exact ⟨rfl, rfl, rfl, rfl⟩

theorem textCursor_idle (o : Bool) (d p : Int) (lv : Int → Int) :
    runTicks 76 (textCursor o d p 0) lv = (textCursor o d p 76, lv) := by
  obtain ⟨f1, f2, f3, f4⟩ := textCursor_fields o d p 0
  have hidle := runTicks_idle 76 (textCursor o d p 0) lv (by rw [f1])
    (by rw [f1]; decide) (fun _ => by rw [f1, f3]; decide) (fun _ => by rw [f1, f4]; decide)
  rw [hidle, f1]
  cases o <;> rfl

theorem textCursor_on (o : Bool) (d : Int) (lv : Int → Int) :
    runTicks 77 (textCursor o d 1 0) lv
    = (textCursor o d 0 0, applyEvents lv (tick (textCursor o d 1 76)).2) := by
  rw [show 77 = 76 + 1 from rfl, runTicks_add, textCursor_idle]
  have hstep : (tick (textCursor o d 1 76)).1 = textCursor o d 0 0 := by
    cases o <;> rfl
  simp only [runTicks]
  rw [hstep]

theorem textCursor_off (o : Bool) (d : Int) (hd : 0 ≤ d ∧ d ≤ 3) (lv : Int → Int) :
    runTicks 77 (textCursor o d 0 0) lv
    = (textCursor o (if d = 3 then 0 else d + 1) 1 0,
        applyEvents lv (tick (textCursor o d 0 76)).2) := by
  rw [show 77 = 76 + 1 from rfl, runTicks_add, textCursor_idle]
  have hstep : (tick (textCursor o d 0 76)).1 = textCursor o (if d = 3 then 0 else d + 1) 1 0 := by
    obtain ⟨h0, h3⟩ := hd
    interval_cases d <;> cases o <;> rfl
  simp only [runTicks]
  rw [hstep]

/-- The text example after 693 ticks: the cursor has gone once round the four slots, has
shown slot 0 again (tick 616) and has just ended its on-part (tick 693). -/
theorem textCursor_round (o : Bool) (lv : Int → Int) :
    ∃ lv1 : Int → Int,
      runTicks 693 (exampleTextTick o) lv
      = (textCursor o 0 0 0,
          applyEvents (applyEvents lv1 (tick (textCursor o 3 0 76)).2)
            (tick (textCursor o 0 1 76)).2) := by
  have e0 : exampleTextTick o = textCursor o 0 1 0 := by cases o <;> rfl
  rw [e0, show 693 = 77 + (77 + (77 + (77 + (77 + (77 + (77 + (77 + 77))))))) from rfl]
  rw [runTicks_add, textCursor_on, runTicks_add, textCursor_off o 0 (by decide),
    runTicks_add, textCursor_on, runTicks_add, textCursor_off o _ (by decide),
    runTicks_add, textCursor_on, runTicks_add, textCursor_off o _ (by decide),
    runTicks_add, textCursor_on, runTicks_add, textCursor_off o _ (by decide),
    textCursor_on]
  exact ⟨_, rfl⟩

/-! ## Text in tick-driven mode -/

theorem writeStrLoop_step (s : State) (str : List Int) (i : Nat) (j : Int)
    (h : strAt str i ≠ 0) :
    writeStrLoop s str i j
    = textSlot s j (strAt str i) (decide (strAt str (i + 1) = 46))
      ++ writeStrLoop s str (if strAt str (i + 1) = 46 then i + 1 + 1 else i + 1) (j + 1) := by
  rw [writeStrLoop, if_pos h]
  unfold textSlot
  by_cases h2 : strAt str (i + 1) = 46
  · simp only [h2, if_true, decide_True]
  · simp only [h2, if_false, decide_False]
    rfl

theorem writeStrLoop_end (s : State) (str : List Int) (i : Nat) (j : Int)
    (h : ¬ strAt str i ≠ 0) : writeStrLoop s str i j = [] := by
  rw [writeStrLoop, if_neg h]

/-- Frame `k` of the sweep of `write(char*)` entered at the indices `i`, `j`: the sweep
reaches it when the counting loop of `interruptAction` stops on a character, and it then
shows this character, with the decimal point when a `'.'` follows. -/
theorem frames_writeStrLoop (s : State) (str : List Int) (k : Nat) : ∀ (i : Nat) (j : Int),
    (frames none (writeStrLoop s str i j))[k]?
    = if strAt str (countStr str k i) ≠ 0 then
        some (Frame.mk (Slot.digit (j + (k : Int)))
          (pattern (writeDigitChar (strAt str (countStr str k i))))
          (decide (strAt str (countStr str k i + 1) = 46)))
      else none := by
  induction k with
  | zero =>
    intro i j
    simp only [countStr]
    by_cases h : strAt str i ≠ 0
    · rw [writeStrLoop_step s str i j h, frames_textSlot, if_pos h]
      simp
    · rw [writeStrLoop_end s str i j h, if_neg h]
      rfl
  | succ k ih =>
    intro i j
    by_cases h : strAt str i ≠ 0
    · rw [writeStrLoop_step s str i j h, frames_textSlot, List.getElem?_cons_succ, ih]
      simp only [countStr, if_pos h]
      have e : j + 1 + (k : Int) = j + ((k + 1 : Nat) : Int) := by push_cast; ring
      rw [e]
    · rw [writeStrLoop_end s str i j h]
      simp only [countStr, if_neg h]
      rfl

theorem iaOnEnd_target (s : State) :
    (iaOnEnd s).1.writeMode = s.writeMode ∧ (iaOnEnd s).1.writeStr = s.writeStr := by
  unfold iaOnEnd
  split_ifs <;> exact ⟨rfl, rfl⟩

theorem shown_none_iaOnEnd (s : State) : shown none (iaOnEnd s).2 = none := by
  unfold iaOnEnd
  split_ifs <;> rfl

theorem shown_append (cur : Option Frame) (l1 l2 : List Call) :
    shown cur (l1 ++ l2) = shown (shown cur l1) l2 := by
  unfold shown
  exact List.foldl_append _ _ _ _

/-- The glyph calls of a tick in the mode of `write(char*)`. -/
theorem iaGlyphCalls_text (u : State) (hm : u.writeMode = 115) :
    iaGlyphCalls u
    = [Call.writeDigitChar (strAt u.writeStr (countStr u.writeStr u.timerDigit.toNat 0))]
      ++ (if strAt u.writeStr (countStr u.writeStr u.timerDigit.toNat 0 + 1) = 46
          then [Call.setDP] else []) := by
  have m0 : ¬ (u.writeMode = 112) := by rw [hm]; decide
  have m1 : ¬ (u.writeMode = 105) := by rw [hm]; decide
  have m2 : ¬ (u.writeMode = 58 ∨ u.writeMode = 46 ∨ u.writeMode = 95) := by rw [hm]; decide
  have m4 : ¬ (u.writeMode = 111) := by rw [hm]; decide
  unfold iaGlyphCalls
  rw [if_neg m0, if_neg m1, if_neg m2, if_pos hm, if_neg m4]
  simp only [List.nil_append, List.append_nil]

/-! ## The recursion of `iaExtractDigit` -/

theorem iaExtractDigit_unfold (s : State) (number digit point : Int) :
    iaExtractDigit s number digit point
    = if digit > point - 1 ∨ digit = s.numOfDigits - 1 ∨ iaShifted s number digit ≠ 0 then
        toChar (Int.tmod (iaShifted s number digit) 10 + 48)
      else
        if iaExtractDigit s number (digit + 1) point ≠ 45
            ∧ iaExtractDigit s number (digit + 1) point ≠ 32 ∧ decide (number < 0) = true
        then 45 else 32 := by
  rw [iaExtractDigit]
  by_cases hc : digit > point - 1 ∨ digit = s.numOfDigits - 1 ∨ iaShifted s number digit ≠ 0
  · rw [if_pos hc]
    unfold iaShifted at hc ⊢
    rw [dif_pos hc]
  · rw [if_neg hc]
    unfold iaShifted at hc
    rw [dif_neg hc]

theorem iaExtractDigitTrace_unfold (s : State) (fuel : Nat) (number digit point : Int) :
    iaExtractDigitTrace s (fuel + 1) number digit point
    = if digit > point - 1 ∨ digit = s.numOfDigits - 1 ∨ iaShifted s number digit ≠ 0 then
        some (toChar (Int.tmod (iaShifted s number digit) 10 + 48), [])
      else
        match iaExtractDigitTrace s fuel number (digit + 1) point with
        | none => none
        | some r =>
          some (if r.1 ≠ 45 ∧ r.1 ≠ 32 ∧ decide (number < 0) = true then 45 else 32,
            (digit + 1) :: r.2) := rfl

/-- With fuel for `m + 1` nested activations, a call on a digit `m` places left of the
last one returns the value of `iaExtractDigit`; its nested recursive calls are on the
following digits, at most `m` of them. -/
theorem iaExtractDigitTrace_spec (s : State) (n : Nat) (hn : s.numOfDigits = (n : Int))
    (number point : Int) : ∀ (m digit : Nat), digit + m + 1 = n →
    ∃ ds : List Int,
      iaExtractDigitTrace s (m + 1) number (digit : Int) point
        = some (iaExtractDigit s number (digit : Int) point, ds)
      ∧ ds.length ≤ m
      ∧ ds = (List.range ds.length).map (fun (k : Nat) => (digit : Int) + 1 + (k : Int)) := by
  intro m
  induction m with
  | zero =>
    intro digit hd
    have hlast : (digit : Int) = s.numOfDigits - 1 := by rw [hn]; omega
    refine ⟨[], ?_, le_refl _, rfl⟩
    rw [iaExtractDigit_unfold s number digit point, iaExtractDigitTrace_unfold,
      if_pos (Or.inr (Or.inl hlast)), if_pos (Or.inr (Or.inl hlast))]
  | succ m ih =>
    intro digit hd
    obtain ⟨ds, h1, h2, h3⟩ := ih (digit + 1) (by omega)
    have hcast : ((digit + 1 : Nat) : Int) = (digit : Int) + 1 := by push_cast; rfl
    rw [hcast] at h1 h3
    rw [iaExtractDigit_unfold s number digit point, iaExtractDigitTrace_unfold]
    by_cases hc : (digit : Int) > point - 1 ∨ (digit : Int) = s.numOfDigits - 1
        ∨ iaShifted s number digit ≠ 0
    · rw [if_pos hc, if_pos hc]
      exact ⟨[], rfl, Nat.zero_le _, rfl⟩
    · rw [if_neg hc, if_neg hc, h1]
      refine ⟨((digit : Int) + 1) :: ds, rfl, ?_, ?_⟩
      · simp only [List.length_cons]
        omega
      · rw [List.length_cons, List.range_succ_eq_map, List.map_cons, List.map_map]
        have e : (List.range ds.length).map
            ((fun (k : Nat) => (digit : Int) + 1 + (k : Int)) ∘ Nat.succ) = ds := by
          nth_rewrite 2 [h3]
          apply List.map_congr_left
          intro k _
          simp only [Function.comp]
          push_cast
          ring
        rw [e]
        simp

/-- More fuel than needed changes nothing. -/
theorem iaExtractDigitTrace_mono (s : State) (number point : Int) (r : Int × List Int) :
    ∀ (fuel : Nat) (digit : Int), iaExtractDigitTrace s fuel number digit point = some r →
    iaExtractDigitTrace s (fuel + 1) number digit point = some r := by
  intro fuel
  induction fuel generalizing r with
  | zero => intro digit h; exact Option.noConfusion h
  | succ fuel ih =>
    intro digit h
    rw [iaExtractDigitTrace_unfold] at h ⊢
    by_cases hc : digit > point - 1 ∨ digit = s.numOfDigits - 1 ∨ iaShifted s number digit ≠ 0
    · rw [if_pos hc] at h ⊢
      exact h
    · rw [if_neg hc] at h ⊢
      cases hq : iaExtractDigitTrace s fuel number (digit + 1) point with
      | none => rw [hq] at h; exact Option.noConfusion h
      | some q =>
        rw [hq] at h
        rw [ih q (digit + 1) hq]
        exact h

/-! ## Divisions of `setRefreshRate` -/

/-- The method `setRefreshRate` fails exactly when one of the divisions it executes has
the divisor zero. -/
theorem setRefreshRate_none_iff (s : State) (freq : Int) :
    setRefreshRate s freq = none ↔ (0 : Int) ∈ setRefreshRateDivisors s freq := by
  unfold setRefreshRate setRefreshRateDivisors
  by_cases h1 : freq = 0
  · rw [if_pos h1, if_pos h1, h1]
    simp
  · rw [if_neg h1, if_neg h1]
    by_cases h2 : s.numOfDigits = 0
    · simp only [h2, if_true]
      simp
    · simp only [h2, if_false]
      have h1' : ¬ (0 = freq) := fun e => h1 e.symm
      have h2' : ¬ (0 = s.numOfDigits) := fun e => h2 e.symm
      by_cases h3 : s.symbDigPin ≠ -1
      · rw [if_pos h3, if_pos h3]
        by_cases h4 : s.numOfDigits + 1 = 0
        · rw [if_pos h4, h4]
          simp
        · rw [if_neg h4]
          have h4' : ¬ (0 = s.numOfDigits + 1) := fun e => h4 e.symm
          simp [h1', h2', h4']
      · rw [if_neg h3, if_neg h3]
        simp [h1', h2']

/-! ## Reading back a clamped number -/

/-- A number inside the display range, swept with no decimal point, reads back as
itself. -/
theorem readBack_sweepFrames (m : Nat) (value : Int) (h1 : -(10 ^ m) + 1 ≤ value)
    (h2 : value ≤ 10 ^ (m + 1) - 1) :
    readBack (displayRow (sweepFrames (m + 1) value.natAbs (decide (value < 0))
      ((m + 1 : Nat) : Int) (m + 1)) (m + 1)) = some value := by
  have hp : (1 : Int) ≤ 10 ^ m := one_le_pow₀ (by norm_num)
  have hsucc : (10 : Int) ^ (m + 1) = 10 * 10 ^ m := pow_succ' 10 m
  rw [displayRow_sweepFrames]
  unfold readBack
  rw [List.map_map, List.range_eq_range']
  have hfun : ((fun o : Option (List Bool) => (o.map readGlyph).getD Glyph.other)
      ∘ fun j => some (slotGlyph (m + 1) value.natAbs (decide (value < 0))
          ((m + 1 : Nat) : Int) j))
      = fun i => readGlyph (slotGlyph (m + 1) value.natAbs (decide (value < 0))
          ((m + 1 : Nat) : Int) i) := by
    funext j; rfl
  rw [hfun]
  have habs : (value.natAbs : Int) < 10 ^ (m + 1) := by omega
  have ha : value.natAbs < 10 ^ (m + 1) := by exact_mod_cast habs
  have hneg : decide (value < 0) = true → suppressed (m + 1) value.natAbs
      ((m + 1 : Nat) : Int) 0 := by
    intro h
    have hlt : value < 0 := of_decide_eq_true h
    have hb : (value.natAbs : Int) < 10 ^ m := by omega
    have hb2 : value.natAbs < 10 ^ m := by exact_mod_cast hb
    have hm1 : 1 ≤ m := by
      rcases Nat.eq_zero_or_pos m with h0 | h0
      · rw [h0] at hb2; omega
      · exact h0
    refine ⟨?_, by push_cast; omega, by omega⟩
    rw [show m + 1 - 1 - 0 = m by omega]
    exact Nat.div_eq_of_lt hb2
  rw [readNumber_slots (m + 1) value.natAbs (decide (value < 0)) (m + 1) 0 (by omega) (by omega)
    ha hneg]
  congr 1
  have hof : Int.ofNat value.natAbs = (value.natAbs : Int) := rfl
  by_cases hlt : value < 0
  · rw [if_pos (by simp [hlt]), hof]; omega
  · rw [if_neg (by simp [hlt]), hof]; omega

/-! ## The delays left by `setDigitPins` -/

/-- After `setDigitDelay(d)` at duty cycle 100 the on-delay is the whole delay and the
off-delay is zero; digit count and symbol digit are untouched. -/
theorem setDigitDelay_fields (s : State) (d : Int) (hd : s.dutyCycle = 100) (h0 : 0 ≤ d)
    (h1 : d ≤ 10000) :
    (setDigitDelay s d).digitDelay = d ∧ (setDigitDelay s d).digitOnDelay = d
    ∧ (setDigitDelay s d).digitOffDelay = 0 ∧ (setDigitDelay s d).numOfDigits = s.numOfDigits
    ∧ (setDigitDelay s d).symbDigPin = s.symbDigPin := by
  have hw : wrapLong (d * 100) = d * 100 :=
    wrapLong_eq ⟨by unfold LONG_MIN; omega, by unfold LONG_MAX; omega⟩
  have ht : Int.tdiv (d * 100) 100 = d := by
    rw [Int.tdiv_eq_ediv (by omega) (by norm_num)]; omega
  have hz : wrapLong (d - d) = 0 := by rw [sub_self]; rfl
  unfold setDigitDelay
  refine ⟨?_, ?_, ?_, ?_, ?_⟩
  · rw [updDelay_digitDelay]
  · rw [updDelay_digitOnDelay]
    show Int.tdiv (wrapLong (d * s.dutyCycle)) 100 = d
    rw [hd, hw, ht]
  · rw [updDelay_digitOffDelay]
    show wrapLong (d - Int.tdiv (wrapLong (d * s.dutyCycle)) 100) = 0
    rw [hd, hw, ht, hz]
  · unfold updDelay
    split_ifs <;> rfl
  · unfold updDelay
    split_ifs <;> rfl

/-- The method `setDigitPins(n, pins)` with `n ≥ 1` on an object with duty cycle 100
returns, and splits the 100 Hz period over the digits and the symbol digit assigned at
that moment. -/
theorem setDigitPins_delays (s : State) (m : Nat) (pins : List Int) (hd : s.dutyCycle = 100) :
    ∃ r : State × List Event, setDigitPins s ((m + 1 : Nat) : Int) pins = some r
      ∧ r.1.digitDelay = 10000 / (((m + 1 : Nat) : Int) + (if s.symbDigPin ≠ -1 then 1 else 0))
      ∧ r.1.digitOnDelay = 10000 / (((m + 1 : Nat) : Int) + (if s.symbDigPin ≠ -1 then 1 else 0))
      ∧ r.1.digitOffDelay = 0 ∧ r.1.numOfDigits = ((m + 1 : Nat) : Int)
      ∧ r.1.symbDigPin = s.symbDigPin := by
  have hden : (1 : Int) ≤ ((m + 1 : Nat) : Int) + (if s.symbDigPin ≠ -1 then 1 else 0) := by
    split_ifs <;> push_cast <;> omega
  have h0 : (0 : Int) ≤ 10000 / (((m + 1 : Nat) : Int) + (if s.symbDigPin ≠ -1 then 1 else 0)) :=
    Int.ediv_nonneg (by norm_num) (by omega)
  have h1 : (10000 : Int) / (((m + 1 : Nat) : Int) + (if s.symbDigPin ≠ -1 then 1 else 0))
      ≤ 10000 := Int.ediv_le_self _ (by norm_num)
  have e := setRefreshRate_eq { s with dig := pins, numOfDigits := ((m + 1 : Nat) : Int) } 100
    (by norm_num) (by show (1 : Int) ≤ ((m + 1 : Nat) : Int); push_cast; omega)
  have e100 : (1000000 : Int) / 100 = 10000 := by norm_num
  rw [e100] at e
  have hf := setDigitDelay_fields { s with dig := pins, numOfDigits := ((m + 1 : Nat) : Int) }
    (10000 / (((m + 1 : Nat) : Int) + (if s.symbDigPin ≠ -1 then 1 else 0))) hd h0 h1
  refine ⟨(setDigitDelay { s with dig := pins, numOfDigits := ((m + 1 : Nat) : Int) }
    (10000 / (((m + 1 : Nat) : Int) + (if s.symbDigPin ≠ -1 then 1 else 0))),
    clearDisp { s with dig := pins, numOfDigits := ((m + 1 : Nat) : Int) }), ?_, hf⟩
  unfold setDigitPins
  show Option.map _ (setRefreshRate { s with dig := pins, numOfDigits := ((m + 1 : Nat) : Int) }
    100) = _
  rw [e]
  rfl

/-! ## The slots selected by a synchronous call -/

/-- With no timer, `write(value)`, `write(value, point)` and `writeClock(mm, ss, c)`
select the ordinary digit slots `n-1, ..., 0` in this order, each once; only `writeClock`
with the separator `':'` and a symbol digit then selects the symbol slot. -/
theorem selectedSlots_sweep (s : State) (n : Nat) (hn : s.numOfDigits = (n : Int))
    (ht : s.timerID = -1) (v point mm ss c : Int) :
    selectedSlots (writeLong s v).2
      = (List.range n).reverse.map (fun (i : Nat) => Slot.digit (Int.ofNat i))
    ∧ selectedSlots (write s v point).2
      = (List.range n).reverse.map (fun (i : Nat) => Slot.digit (Int.ofNat i))
    ∧ selectedSlots (writeClock s mm ss c).2
      = (List.range n).reverse.map (fun (i : Nat) => Slot.digit (Int.ofNat i))
        ++ (if s.symbDigPin ≠ -1 ∧ c = 58 then [Slot.symbol] else []) := by
  have hnat : s.numOfDigits.toNat = n := by rw [hn]; exact Int.toNat_ofNat n
  have hw : ∀ p : Int, selectedSlots (write s v p).2
      = (List.range n).reverse.map (fun (i : Nat) => Slot.digit (Int.ofNat i)) := by
    intro p
    unfold write
    rw [if_pos ht]
    simp only [hnat]
    exact selectedSlots_writeLoop s _ n _ _
  refine ⟨?_, hw point, ?_⟩
  · unfold writeLong
    rw [if_pos ht]
    exact hw 0
  · unfold writeClock
    rw [if_pos ht]
    simp only [hnat, selectedSlots_append, selectedSlots_writeClockLoop]
    congr 1
    by_cases hsy : s.symbDigPin ≠ -1 <;> by_cases hc : c = 58
    all_goals simp [hsy, hc, selectedSlots]

/-! ## The cursor of the symbol-digit example -/

/-- One slot of the symbol-digit example: 155 ticks after a slot below 4 is selected the
next slot is selected (duty cycle 100: the on-part ends and the next slot starts in the
same tick). -/
theorem symbolCursor_slot (d : Int) (hd : 0 ≤ d ∧ d ≤ 3) :
    ticks 155 (symbolCursor d 1 0) = symbolCursor (d + 1) 1 0 := by
  have f1 : (symbolCursor d 1 0).timerCounter = 0 := rfl
  have f2 : (symbolCursor d 1 0).timerPhase = 1 := rfl
  have f3 : (symbolCursor d 1 0).timerCounterOnEnd = 155 := rfl
  have hidle := ticks_idle 154 (symbolCursor d 1 0) (by rw [f1]) (by rw [f1]; decide)
    (fun _ => by rw [f1, f3]; decide) (fun h => by rw [f2] at h; exact absurd h (by decide))
  rw [show 155 = 154 + 1 from rfl, ticks_add, hidle, f1]
  obtain ⟨h0, h3⟩ := hd
  interval_cases d <;> rfl

/-- The symbol-digit example 619 ticks after the number was staged: the cursor is in the
last tick of the on-part of slot 3. -/
theorem symbolCursor_ticks : ticks 619 (symbolCursor 0 1 0) = symbolCursor 3 1 154 := by
  rw [show 619 = 155 + (155 + (155 + 154)) from rfl]
  rw [ticks_add, symbolCursor_slot 0 (by decide), ticks_add, symbolCursor_slot _ (by decide),
    ticks_add, symbolCursor_slot _ (by decide)]
  have hidle := ticks_idle 154 (symbolCursor (0 + 1 + 1 + 1) 1 0) (by decide) (by decide)
    (fun _ => by decide) (fun h => by exact absurd h (by decide))
  rw [hidle]
  rfl

/-! ## The claims -/

/-- C1: for every digit count `n >= 1`, every `long int` value, every number of
decimals in `[0, n-1]` and every slot `i < n`, the pattern that tick-driven mode puts on
slot `i`, `writeDigit(iaExtractDigit(iaLimitInt(value), i, point'))` with `point' = n` for
no decimals and `n - decimals - 1` otherwise, is the pattern the synchronous
`write(value, decimals)` sweep shows on slot `i`.  `s` is the object in synchronous mode,
`t` the object in tick-driven mode with the same digit count.  Second part: for every
cursor `c` that holds the target staged by `write(value, decimals)` on `t` and stands at
the tick that ends an off-part and selects slot `i`, `interruptAction` leaves that same
pattern on the slot. -/
theorem C1_tick_glyph_eq_sync_glyph (s t : State) (n : Nat) (hs : s.numOfDigits = (n : Int))
    (htn : t.numOfDigits = (n : Int)) (ht : s.timerID = -1) (htt : t.timerID ≠ -1)
    (value : Int) (hv : isLong value) (decimalPlaces : Int)
    (_hdp : 0 ≤ decimalPlaces ∧ decimalPlaces ≤ (n : Int) - 1) (i : Nat) (hi : i < n) :
    glyphAt (frames none (write s value decimalPlaces).2) (Int.ofNat i)
      = some (pattern (writeDigitChar (iaExtractDigit t (iaLimitInt t value) (Int.ofNat i)
          (if decimalPlaces = 0 then (n : Int) else (n : Int) - decimalPlaces - 1))))
    ∧ ∀ c : State, c.numOfDigits = (n : Int) →
        c.writeMode = (write t value decimalPlaces).1.writeMode →
        c.writeInt = (write t value decimalPlaces).1.writeInt →
        c.writePoint = (write t value decimalPlaces).1.writePoint →
        c.timerPhase = 0 → c.timerCounterOffEnd ≤ wrapLong (c.timerCounter + 1) →
        iaNextDigit c = Int.ofNat i →
        (shown none (interruptAction c).2).map Frame.segs
          = glyphAt (frames none (write s value decimalPlaces).2) (Int.ofNat i) := by
  have hlim : iaLimitInt t value = iaLimitInt s value := by
    simp only [iaLimitInt, hs, htn]
  obtain ⟨b1, b2⟩ := iaLimitInt_bounds s value hv
  have hsync : glyphAt (frames none (write s value decimalPlaces).2) (Int.ofNat i)
      = some (slotGlyph n (iaLimitInt s value).natAbs (decide (iaLimitInt s value < 0))
          (if decimalPlaces = 0 then (n : Int) else (n : Int) - decimalPlaces - 1) i) := by
    rw [frames_write s n hs ht value decimalPlaces hv, glyphAt_sweepFrames _ _ _ _ _ i hi]
  constructor
  · rw [hsync, hlim, pattern_iaExtractDigit t n htn (iaLimitInt s value) b1 b2 _ i hi]
  · intro c hcn hmode hint hpoint hphase hend hnext
    have hstage : (write t value decimalPlaces).1.writeMode = 112
        ∧ (write t value decimalPlaces).1.writeInt = iaLimitInt t value
        ∧ (write t value decimalPlaces).1.writePoint
          = (if decimalPlaces = 0 then (n : Int) else (n : Int) - decimalPlaces - 1) := by
      unfold write
      rw [if_neg htt]
      exact ⟨rfl, rfl, by rw [htn]⟩
    obtain ⟨g1, _, g3⟩ := shown_interruptAction_fixed c n i hcn hi (hmode.trans hstage.1) hphase
      hend hnext
    rw [g3, hint, hpoint, hstage.2.1, hstage.2.2, hlim, hsync,
      pattern_iaExtractDigit _ n g1 (iaLimitInt s value) b1 b2 _ i hi]

/-- C1 at four digits, value `-7`, no decimals, slot 2. -/
theorem C1_tick_glyph_eq_sync_glyph_witness :
    (exampleState 4 (-1)).numOfDigits = ((4 : Nat) : Int)
    ∧ exampleTickState.numOfDigits = ((4 : Nat) : Int)
    ∧ (exampleState 4 (-1)).timerID = -1 ∧ exampleTickState.timerID ≠ -1 ∧ isLong (-7)
    ∧ glyphAt (frames none (write (exampleState 4 (-1)) (-7) 0).2) (Int.ofNat 2)
      = some (pattern (writeDigitChar (iaExtractDigit exampleTickState
          (iaLimitInt exampleTickState (-7)) (Int.ofNat 2)
          (if (0 : Int) = 0 then ((4 : Nat) : Int) else ((4 : Nat) : Int) - 0 - 1))))
    ∧ (shown none (interruptAction exampleFixedTick).2).map Frame.segs
      = glyphAt (frames none (write (exampleState 4 (-1)) (-7) 0).2) (Int.ofNat 2) :=
  ⟨rfl, rfl, rfl, by decide, by decide,
    (C1_tick_glyph_eq_sync_glyph (exampleState 4 (-1)) exampleTickState 4 rfl rfl rfl
      (by decide) (-7) (by decide) 0 (by decide) 2 (by decide)).1,
    (C1_tick_glyph_eq_sync_glyph (exampleState 4 (-1)) exampleTickState 4 rfl rfl rfl
      (by decide) (-7) (by decide) 0 (by decide) 2 (by decide)).2 exampleFixedTick rfl rfl rfl
      rfl rfl (by decide) (by decide)⟩

/-- C2 (as stated, refuted): with two digits the value `-50` lies in the stated range
`[-(10^(n-1)*10 - 1) + 1, 10^(n-1)*10 - 1] = [-98, 99]`, but the synchronous
`write(-50, 0)` sweep reads back as `-9`: negative numbers are clamped at
`-10^(n-1) + 1`, one slot being kept for the sign.  With ten digits the value
`2000000000` reads back as `1410065407`: `10^10` is no `long int`. -/
theorem C2_readback_counterexample :
    (-(10 ^ (2 - 1) * 10 - 1) + 1 ≤ (-50 : Int) ∧ (-50 : Int) ≤ 10 ^ (2 - 1) * 10 - 1)
    ∧ readBack (displayRow (frames none (write (exampleState 2 (-1)) (-50) 0).2) 2)
        = some (-9)
    ∧ readBack (displayRow (frames none (write (exampleState 2 (-1)) (-50) 0).2) 2)
        ≠ some (-50)
    ∧ (-(10 ^ (10 - 1) * 10 - 1) + 1 ≤ (2000000000 : Int)
        ∧ (2000000000 : Int) ≤ 10 ^ (10 - 1) * 10 - 1)
    ∧ readBack (displayRow (frames none (write (exampleState 10 (-1)) 2000000000 0).2) 10)
        = some 1410065407 := by
  decide

/-- C2 (amended): for every digit count `n >= 1` with `10^n` a `long int` and every
value in `[-10^(n-1) + 1, 10^n - 1]`, the glyphs of the synchronous `write(value, 0)`
sweep on the slots `0 .. n-1`, read back as a decimal number (leading blanks skipped,
minus sign honoured), give `value`. -/
theorem C2_readback_in_display_range (s : State) (n : Nat) (hs : s.numOfDigits = (n : Int))
    (hn : 1 ≤ n) (hrep : (10 : Int) ^ n ≤ LONG_MAX) (ht : s.timerID = -1) (value : Int)
    (h1 : -(10 ^ (n - 1)) + 1 ≤ value) (h2 : value ≤ 10 ^ n - 1) :
    readBack (displayRow (frames none (write s value 0).2) n) = some value := by
  obtain ⟨m, rfl⟩ : ∃ m, n = m + 1 := ⟨n - 1, by omega⟩
  have hm : m + 1 - 1 = m := by omega
  rw [hm] at h1
  have hp : (1 : Int) ≤ 10 ^ m := one_le_pow₀ (by norm_num)
  have hsucc : (10 : Int) ^ (m + 1) = 10 * 10 ^ m := pow_succ' 10 m
  have hv : isLong value := by
    unfold isLong LONG_MIN
    unfold LONG_MAX at hrep ⊢
    constructor <;> omega
  have hlim : iaLimitInt s value = value := by
    rw [iaLimitInt_eq s m hs hrep value, min_eq_left h2, max_eq_left h1]
  have hpt : (if (0 : Int) = 0 then ((m + 1 : Nat) : Int) else ((m + 1 : Nat) : Int) - 0 - 1)
      = ((m + 1 : Nat) : Int) := if_pos rfl
  rw [frames_write s (m + 1) hs ht value 0 hv, hlim, hpt, displayRow_sweepFrames]
  unfold readBack
  rw [List.map_map, List.range_eq_range']
  have hfun : ((fun o : Option (List Bool) => (o.map readGlyph).getD Glyph.other)
      ∘ fun j => some (slotGlyph (m + 1) value.natAbs (decide (value < 0))
          ((m + 1 : Nat) : Int) j))
      = fun i => readGlyph (slotGlyph (m + 1) value.natAbs (decide (value < 0))
          ((m + 1 : Nat) : Int) i) := by
    funext j; rfl
  rw [hfun]
  have habs : (value.natAbs : Int) < 10 ^ (m + 1) := by omega
  have ha : value.natAbs < 10 ^ (m + 1) := by exact_mod_cast habs
  have hneg : decide (value < 0) = true → suppressed (m + 1) value.natAbs
      ((m + 1 : Nat) : Int) 0 := by
    intro h
    have hlt : value < 0 := of_decide_eq_true h
    have hb : (value.natAbs : Int) < 10 ^ m := by omega
    have hb' : value.natAbs < 10 ^ m := by exact_mod_cast hb
    have hm1 : 1 ≤ m := by
      rcases Nat.eq_zero_or_pos m with h0 | h0
      · rw [h0] at hb'; omega
      · exact h0
    refine ⟨?_, by push_cast; omega, by omega⟩
    rw [show m + 1 - 1 - 0 = m by omega]
    exact Nat.div_eq_of_lt hb'
  rw [readNumber_slots (m + 1) value.natAbs (decide (value < 0)) (m + 1) 0 (by omega) (by omega)
    ha hneg]
  congr 1
  have hof : Int.ofNat value.natAbs = (value.natAbs : Int) := rfl
  by_cases hlt : value < 0
  · rw [if_pos (by simp [hlt]), hof]; omega
  · rw [if_neg (by simp [hlt]), hof]; omega

/-- C2 (amended) at four digits and the value `-70`. -/
theorem C2_readback_in_display_range_witness :
    (exampleState 4 (-1)).numOfDigits = ((4 : Nat) : Int) ∧ 1 ≤ 4
    ∧ (10 : Int) ^ 4 ≤ LONG_MAX ∧ (exampleState 4 (-1)).timerID = -1
    ∧ -(10 ^ (4 - 1)) + 1 ≤ (-70 : Int) ∧ (-70 : Int) ≤ 10 ^ 4 - 1
    ∧ readBack (displayRow (frames none (write (exampleState 4 (-1)) (-70) 0).2) 4)
        = some (-70) :=
  ⟨rfl, by decide, by decide, rfl, by decide, by decide,
    C2_readback_in_display_range (exampleState 4 (-1)) 4 rfl (by decide) (by decide) rfl (-70)
      (by decide) (by decide)⟩

/-- C3 (as stated, refuted): with ten digits the value `2000000000` lies in
`[0, 10^10 - 1]` and has the ten digits `2,0,0,0,0,0,0,0,0,0`, but the sweep of
`write(2000000000)` shows `1410065407`: `10*maxNegNum-1` leaves the 32-bit `long int`
and the clamp cuts the value down to the wrapped limit. -/
theorem C3_right_aligned_counterexample :
    ((0 : Int) ≤ 2000000000 ∧ (2000000000 : Int) ≤ 10 ^ 10 - 1)
    ∧ decimalDigits 2000000000 = [2, 0, 0, 0, 0, 0, 0, 0, 0, 0]
    ∧ readRow (write (exampleState 10 (-1)) 2000000000 0).2 10
      = [Glyph.digit 1, Glyph.digit 4, Glyph.digit 1, Glyph.digit 0, Glyph.digit 0,
         Glyph.digit 6, Glyph.digit 5, Glyph.digit 4, Glyph.digit 0, Glyph.digit 7] := by
  refine ⟨by decide, ?_, by decide⟩
  unfold decimalDigits
  norm_num

/-- C3 (amended): integers are shown right-aligned with leading zeros suppressed.  For
every digit count `n >= 1` with `10^n` a `long int` and no decimals: for
`0 <= v <= 10^n - 1` with `k` decimal digits (`k = 1` for `0`) the synchronous
`write(v)` sweep shows `n-k` blank slots followed by the `k` digits of `v`, most
significant first; for `-(10^(n-1) - 1) <= v < 0` with `k` digits of `|v|` it shows
`n-k-1` blanks, the minus sign, then the `k` digits of `|v|`. -/
theorem C3_right_aligned (s : State) (n : Nat) (hs : s.numOfDigits = (n : Int))
    (hn : 1 ≤ n) (hrep : (10 : Int) ^ n ≤ LONG_MAX) (ht : s.timerID = -1) (v : Int) :
    (0 ≤ v → v ≤ 10 ^ n - 1 →
      displayRow (frames none (write s v 0).2) n
      = List.replicate (n - (decimalDigits v.natAbs).length) (some (pattern (writeDigitChar 32)))
        ++ (decimalDigits v.natAbs).map (fun d => some (pattern (writeDigit (Int.ofNat d)))))
    ∧ (-(10 ^ (n - 1) - 1) ≤ v → v < 0 →
      displayRow (frames none (write s v 0).2) n
      = List.replicate (n - (decimalDigits v.natAbs).length - 1)
          (some (pattern (writeDigitChar 32)))
        ++ [some (pattern (writeDigitChar 45))]
        ++ (decimalDigits v.natAbs).map (fun d => some (pattern (writeDigit (Int.ofNat d))))) := by
  obtain ⟨m, rfl⟩ : ∃ m, n = m + 1 := ⟨n - 1, by omega⟩
  have hm : m + 1 - 1 = m := by omega
  rw [hm]
  have hp : (1 : Int) ≤ 10 ^ m := one_le_pow₀ (by norm_num)
  have hsucc : (10 : Int) ^ (m + 1) = 10 * 10 ^ m := pow_succ' 10 m
  have hpt : (if (0 : Int) = 0 then ((m + 1 : Nat) : Int) else ((m + 1 : Nat) : Int) - 0 - 1)
      = ((m + 1 : Nat) : Int) := if_pos rfl
  have hrow : ∀ w : Int, -(10 ^ m) + 1 ≤ w → w ≤ 10 ^ (m + 1) - 1 →
      displayRow (frames none (write s w 0).2) (m + 1)
      = (List.range (m + 1)).map (fun j => some (slotGlyph (m + 1) w.natAbs (decide (w < 0))
          ((m + 1 : Nat) : Int) j)) := by
    intro w h1 h2
    have hv : isLong w := by
      unfold isLong LONG_MIN
      unfold LONG_MAX at hrep ⊢
      constructor <;> omega
    have hlim : iaLimitInt s w = w := by
      rw [iaLimitInt_eq s m hs hrep w, min_eq_left h2, max_eq_left h1]
    rw [frames_write s (m + 1) hs ht w 0 hv, hlim, hpt, displayRow_sweepFrames]
  constructor
  · intro h1 h2
    have hb : (v.natAbs : Int) < 10 ^ (m + 1) := by omega
    have hb' : v.natAbs < 10 ^ (m + 1) := by exact_mod_cast hb
    have hnn : decide (v < 0) = false := decide_eq_false (by omega)
    rw [hrow v (by omega) h2, hnn,
      row_right_aligned (m + 1) v.natAbs false (by omega) (Nat.div_eq_of_lt hb')
        (fun h => absurd h (by decide))]
    simp
  · intro h1 h2
    have hb : (v.natAbs : Int) < 10 ^ m := by omega
    have hb' : v.natAbs < 10 ^ m := by exact_mod_cast hb
    have hb2 : v.natAbs < 10 ^ (m + 1) := by
      have : 10 ^ m ≤ 10 ^ (m + 1) := Nat.pow_le_pow_right (by norm_num) (by omega)
      omega
    have hne : v.natAbs ≠ 0 := by omega
    have hk : (decimalDigits v.natAbs).length < m + 1 := by
      unfold decimalDigits
      rw [if_neg hne, List.length_reverse]
      have := (digits_length_le_iff v.natAbs m).mpr (Nat.div_eq_of_lt hb')
      omega
    have hneg : decide (v < 0) = true := decide_eq_true h2
    rw [hrow v (by omega) (by omega), hneg,
      row_right_aligned (m + 1) v.natAbs true (by omega) (Nat.div_eq_of_lt hb2) (fun _ => hk)]
    simp

/-- C3 (amended) at four digits and the values `7` and `-7`. -/
theorem C3_right_aligned_witness :
    (exampleState 4 (-1)).numOfDigits = ((4 : Nat) : Int) ∧ 1 ≤ 4 ∧ (10 : Int) ^ 4 ≤ LONG_MAX
    ∧ (exampleState 4 (-1)).timerID = -1
    ∧ ((0 : Int) ≤ 7 ∧ (7 : Int) ≤ 10 ^ 4 - 1
      ∧ displayRow (frames none (write (exampleState 4 (-1)) 7 0).2) 4
        = List.replicate (4 - (decimalDigits (7 : Int).natAbs).length)
            (some (pattern (writeDigitChar 32)))
          ++ (decimalDigits (7 : Int).natAbs).map
            (fun d => some (pattern (writeDigit (Int.ofNat d)))))
    ∧ (-(10 ^ (4 - 1) - 1) ≤ (-7 : Int) ∧ (-7 : Int) < 0
      ∧ displayRow (frames none (write (exampleState 4 (-1)) (-7) 0).2) 4
        = List.replicate (4 - (decimalDigits (-7 : Int).natAbs).length - 1)
            (some (pattern (writeDigitChar 32)))
          ++ [some (pattern (writeDigitChar 45))]
          ++ (decimalDigits (-7 : Int).natAbs).map
            (fun d => some (pattern (writeDigit (Int.ofNat d))))) :=
  ⟨rfl, by decide, by decide, rfl,
    ⟨by decide, by decide,
      (C3_right_aligned (exampleState 4 (-1)) 4 rfl (by decide) (by decide) rfl 7).1 (by decide)
        (by decide)⟩,
    ⟨by decide, by decide,
      (C3_right_aligned (exampleState 4 (-1)) 4 rfl (by decide) (by decide) rfl (-7)).2
        (by decide) (by decide)⟩⟩

/-- C4: in a synchronous `write(value, decimalPlaces)` sweep over `n >= 2` digits the
decimal point is set on exactly one slot, slot `n - decimalPlaces - 1`, for every
`decimalPlaces` in `[1, n-1]`, and on no slot for `decimalPlaces = 0`. -/
theorem C4_decimal_point_slot (s : State) (n : Nat) (hs : s.numOfDigits = (n : Int))
    (_hn : 2 ≤ n) (ht : s.timerID = -1) (value : Int) (hv : isLong value) :
    (∀ decimalPlaces : Int, 1 ≤ decimalPlaces → decimalPlaces ≤ (n : Int) - 1 →
      dpSlots (frames none (write s value decimalPlaces).2)
        = [Slot.digit ((n : Int) - decimalPlaces - 1)])
    ∧ dpSlots (frames none (write s value 0).2) = [] := by
  constructor
  · intro dp h1 h2
    have hpt : (if dp = 0 then (n : Int) else (n : Int) - dp - 1) = (n : Int) - dp - 1 :=
      if_neg (by omega)
    rw [frames_write s n hs ht value dp hv, dpSlots_sweepFrames, hpt, if_pos (by omega)]
  · have hpt : (if (0 : Int) = 0 then (n : Int) else (n : Int) - 0 - 1) = (n : Int) := if_pos rfl
    rw [frames_write s n hs ht value 0 hv, dpSlots_sweepFrames, hpt, if_neg (by omega)]

/-- C4 at four digits, value `1234`, one decimal and no decimals. -/
theorem C4_decimal_point_slot_witness :
    (exampleState 4 (-1)).numOfDigits = ((4 : Nat) : Int) ∧ 2 ≤ 4
    ∧ (exampleState 4 (-1)).timerID = -1 ∧ isLong 1234
    ∧ dpSlots (frames none (write (exampleState 4 (-1)) 1234 1).2) = [Slot.digit 2]
    ∧ dpSlots (frames none (write (exampleState 4 (-1)) 1234 0).2) = [] :=
  ⟨rfl, by decide, rfl, by decide,
    (C4_decimal_point_slot (exampleState 4 (-1)) 4 rfl (by decide) rfl 1234 (by decide)).1 1
      (by decide) (by decide),
    (C4_decimal_point_slot (exampleState 4 (-1)) 4 rfl (by decide) rfl 1234 (by decide)).2⟩

/-- C5 (as stated, refuted): with ten digits `2000000000` lies inside the stated range
`[-10^9 + 1, 10^10 - 1]`, where `min(max(value, -10^9 + 1), 10^10 - 1)` is the value
itself, but `iaLimitInt(2000000000)` is `1410065407`: the product `10*maxNegNum`
leaves the 32-bit `long int`. -/
theorem C5_clamp_counterexample :
    (-(10 ^ (10 - 1)) + 1 ≤ (2000000000 : Int) ∧ (2000000000 : Int) ≤ 10 ^ 10 - 1)
    ∧ min (max (2000000000 : Int) (-(10 ^ (10 - 1)) + 1)) (10 ^ 10 - 1) = 2000000000
    ∧ iaLimitInt (exampleState 10 0) 2000000000 = 1410065407 := by
  decide

/-- C5 (amended): for every digit count `n >= 1` with `10^n` a `long int` and every
value, `iaLimitInt(value)` is `min(max(value, -10^(n-1) + 1), 10^n - 1)`; the synchronous
`write(value, point)` sweeps the same clamped number (its magnitude and sign enter the
sweep loop); values inside `[-10^(n-1) + 1, 10^n - 1]` are returned unchanged and the
clamp is idempotent. -/
theorem C5_clamp_saturates (s : State) (n : Nat) (hs : s.numOfDigits = (n : Int))
    (hn : 1 ≤ n) (hrep : (10 : Int) ^ n ≤ LONG_MAX) (value : Int) :
    iaLimitInt s value = min (max value (-(10 ^ (n - 1)) + 1)) (10 ^ n - 1)
    ∧ (∀ point : Int, s.timerID = -1 → isLong value →
        (write s value point).2
          = writeLoop s (if point = 0 then s.numOfDigits else s.numOfDigits - point - 1) n
              (Int.ofNat (iaLimitInt s value).natAbs) (decide (iaLimitInt s value < 0)))
    ∧ (-(10 ^ (n - 1)) + 1 ≤ value → value ≤ 10 ^ n - 1 → iaLimitInt s value = value)
    ∧ iaLimitInt s (iaLimitInt s value) = iaLimitInt s value := by
  obtain ⟨m, rfl⟩ : ∃ m, n = m + 1 := ⟨n - 1, by omega⟩
  have hm : m + 1 - 1 = m := by omega
  rw [hm]
  have hp : (1 : Int) ≤ 10 ^ m := one_le_pow₀ (by norm_num)
  have hsucc : (10 : Int) ^ (m + 1) = 10 * 10 ^ m := pow_succ' 10 m
  have hle : -(10 ^ m : Int) + 1 ≤ 10 ^ (m + 1) - 1 := by omega
  have key : ∀ v : Int, iaLimitInt s v = min (max v (-(10 ^ m) + 1)) (10 ^ (m + 1) - 1) := by
    intro v
    rw [iaLimitInt_eq s m hs hrep v, min_def, max_def, min_def, max_def]
    split_ifs <;> omega
  refine ⟨key value, ?_, ?_, ?_⟩
  · intro point ht hv
    obtain ⟨b1, b2⟩ := iaLimitInt_bounds s value hv
    rw [write_calls s value point ht, negate_eq _ b1 b2, hs, Int.toNat_ofNat]
  · intro h1 h2
    rw [key, max_eq_left h1, min_eq_left h2]
  · rw [key (iaLimitInt s value), key value, min_def, max_def, min_def, max_def]
    split_ifs <;> omega

/-- C5 (amended) at four digits and the value `123456`. -/
theorem C5_clamp_saturates_witness :
    (exampleState 4 (-1)).numOfDigits = ((4 : Nat) : Int) ∧ 1 ≤ 4 ∧ (10 : Int) ^ 4 ≤ LONG_MAX
    ∧ (iaLimitInt (exampleState 4 (-1)) 123456
        = min (max 123456 (-(10 ^ (4 - 1)) + 1)) (10 ^ 4 - 1)
      ∧ (∀ point : Int, (exampleState 4 (-1)).timerID = -1 → isLong 123456 →
          (write (exampleState 4 (-1)) 123456 point).2
            = writeLoop (exampleState 4 (-1))
                (if point = 0 then (exampleState 4 (-1)).numOfDigits
                  else (exampleState 4 (-1)).numOfDigits - point - 1) 4
                (Int.ofNat (iaLimitInt (exampleState 4 (-1)) 123456).natAbs)
                (decide (iaLimitInt (exampleState 4 (-1)) 123456 < 0)))
      ∧ (-(10 ^ (4 - 1)) + 1 ≤ (123456 : Int) → (123456 : Int) ≤ 10 ^ 4 - 1 →
          iaLimitInt (exampleState 4 (-1)) 123456 = 123456)
      ∧ iaLimitInt (exampleState 4 (-1)) (iaLimitInt (exampleState 4 (-1)) 123456)
          = iaLimitInt (exampleState 4 (-1)) 123456) :=
  ⟨rfl, by decide, by decide,
    C5_clamp_saturates (exampleState 4 (-1)) 4 rfl (by decide) (by decide) 123456⟩

/-- C6 (as stated, refuted): with four digits, the value `-5` and three decimals (all in
the stated ranges) the sweep shows `0.005`: every slot carries a digit, no slot the minus
sign; the slots at and right of the decimal-point slot always show digits.  With
thirteen digits `write(-5, 0)` shows `727379969` and no minus sign: `10^12` is no
`long int` and the wrapped lower limit is positive. -/
theorem C6_sign_counterexample :
    (2 ≤ 4 ∧ -(10 ^ (4 - 1) - 1) ≤ (-5 : Int) ∧ (-5 : Int) ≤ -1 ∧ (0 : Int) ≤ 3
      ∧ (3 : Int) ≤ 4 - 1)
    ∧ readRow (write (exampleState 4 (-1)) (-5) 3).2 4
      = [Glyph.digit 0, Glyph.digit 0, Glyph.digit 0, Glyph.digit 5]
    ∧ (readRow (write (exampleState 4 (-1)) (-5) 3).2 4).count Glyph.minus = 0
    ∧ (readRow (write (exampleState 13 (-1)) (-5) 0).2 13).count Glyph.minus = 0 := by
  decide

/-- C6 (amended): for every digit count `n >= 2` with `10^n` a `long int`, every
negative value in `[-(10^(n-1) - 1), -1]` and every number of decimals in `[0, n-2]`,
the glyph row of the synchronous `write(value, decimalPlaces)` sweep contains exactly one
minus sign. -/
theorem C6_sign_exactly_once (s : State) (n : Nat) (hs : s.numOfDigits = (n : Int))
    (hn : 2 ≤ n) (hrep : (10 : Int) ^ n ≤ LONG_MAX) (ht : s.timerID = -1) (value : Int)
    (h1 : -(10 ^ (n - 1) - 1) ≤ value) (h2 : value ≤ -1) (decimalPlaces : Int)
    (_hd1 : 0 ≤ decimalPlaces) (hd2 : decimalPlaces ≤ (n : Int) - 2) :
    (readRow (write s value decimalPlaces).2 n).count Glyph.minus = 1 := by
  obtain ⟨m, rfl⟩ : ∃ m, n = m + 1 := ⟨n - 1, by omega⟩
  have hm : m + 1 - 1 = m := by omega
  rw [hm] at h1
  have hp : (1 : Int) ≤ 10 ^ m := one_le_pow₀ (by norm_num)
  have hsucc : (10 : Int) ^ (m + 1) = 10 * 10 ^ m := pow_succ' 10 m
  have hv : isLong value := by
    unfold isLong LONG_MIN
    unfold LONG_MAX at hrep ⊢
    constructor <;> omega
  have hlim : iaLimitInt s value = value := by
    rw [iaLimitInt_eq s m hs hrep value, min_eq_left (by omega), max_eq_left (by omega)]
  have hneg : decide (value < 0) = true := decide_eq_true (by omega)
  rw [readRow_write s (m + 1) hs ht value decimalPlaces hv, hlim, hneg]
  apply count_minus_suppressed (m + 1) value.natAbs _ (m + 1) 0 (by omega)
  have hb : (value.natAbs : Int) < 10 ^ m := by omega
  have hb' : value.natAbs < 10 ^ m := by exact_mod_cast hb
  refine ⟨?_, ?_, by omega⟩
  · rw [show m + 1 - 1 - 0 = m by omega]
    exact Nat.div_eq_of_lt hb'
  · split_ifs <;> push_cast <;> omega

/-- C6 (amended) at four digits, value `-5`, two decimals. -/
theorem C6_sign_exactly_once_witness :
    (exampleState 4 (-1)).numOfDigits = ((4 : Nat) : Int) ∧ 2 ≤ 4
    ∧ (10 : Int) ^ 4 ≤ LONG_MAX ∧ (exampleState 4 (-1)).timerID = -1
    ∧ -(10 ^ (4 - 1) - 1) ≤ (-5 : Int) ∧ (-5 : Int) ≤ -1 ∧ (0 : Int) ≤ 2
    ∧ (2 : Int) ≤ ((4 : Nat) : Int) - 2
    ∧ (readRow (write (exampleState 4 (-1)) (-5) 2).2 4).count Glyph.minus = 1 :=
  ⟨rfl, by decide, by decide, rfl, by decide, by decide, by decide, by decide,
    C6_sign_exactly_once (exampleState 4 (-1)) 4 rfl (by decide) (by decide) rfl (-5)
      (by decide) (by decide) 2 (by decide) (by decide)⟩

/-- C7: zeros at or right of the decimal-point slot are never suppressed: for `n >= 2`
digits, `p` decimals in `[1, n-1]` and every `long int` value, every slot `i` with
`n - p - 1 <= i < n` of the synchronous `write(value, p)` sweep shows the pattern of a
decimal digit `d`, which reads as that digit (not as a blank, not as a minus sign). -/
theorem C7_no_suppression_right_of_point (s : State) (n : Nat)
    (hs : s.numOfDigits = (n : Int)) (_hn : 2 ≤ n) (ht : s.timerID = -1) (value : Int)
    (hv : isLong value) (p : Int) (hp1 : 1 ≤ p) (_hp2 : p ≤ (n : Int) - 1) (i : Nat)
    (hi1 : (n : Int) - p - 1 ≤ (i : Int)) (hi2 : i < n) :
    ∃ d : Nat, d < 10
      ∧ glyphAt (frames none (write s value p).2) (Int.ofNat i)
          = some (pattern (writeDigit (Int.ofNat d)))
      ∧ readGlyph (pattern (writeDigit (Int.ofNat d))) = Glyph.digit d := by
  refine ⟨(iaLimitInt s value).natAbs / 10 ^ (n - 1 - i) % 10, Nat.mod_lt _ (by norm_num), ?_,
    readGlyph_digit _ (Nat.mod_lt _ (by norm_num))⟩
  have hpt : (if p = 0 then (n : Int) else (n : Int) - p - 1) = (n : Int) - p - 1 :=
    if_neg (by omega)
  rw [frames_write s n hs ht value p hv, glyphAt_sweepFrames _ _ _ _ _ i hi2, hpt]
  unfold slotGlyph
  have hsup : ¬ suppressed n (iaLimitInt s value).natAbs ((n : Int) - p - 1) i := by
    rintro ⟨_, h2, _⟩; omega
  rw [if_neg hsup]

/-- C7 at four digits, value `5`, two decimals, slot 1. -/
theorem C7_no_suppression_right_of_point_witness :
    (exampleState 4 (-1)).numOfDigits = ((4 : Nat) : Int) ∧ 2 ≤ 4
    ∧ (exampleState 4 (-1)).timerID = -1 ∧ isLong 5 ∧ (1 : Int) ≤ 2
    ∧ (2 : Int) ≤ ((4 : Nat) : Int) - 1 ∧ ((4 : Nat) : Int) - 2 - 1 ≤ ((1 : Nat) : Int) ∧ 1 < 4
    ∧ ∃ d : Nat, d < 10
      ∧ glyphAt (frames none (write (exampleState 4 (-1)) 5 2).2) (Int.ofNat 1)
          = some (pattern (writeDigit (Int.ofNat d)))
      ∧ readGlyph (pattern (writeDigit (Int.ofNat d))) = Glyph.digit d :=
  ⟨rfl, by decide, rfl, by decide, by decide, by decide, by decide, by decide,
    C7_no_suppression_right_of_point (exampleState 4 (-1)) 4 rfl (by decide) rfl 5 (by decide) 2
      (by decide) (by decide) 1 (by decide) (by decide)⟩

/-- C8: with four digits, `0 <= mm <= 99`, `0 <= ss <= 59` and any separator `c`, the
synchronous `writeClock(mm, ss, c)` sweep shows on slot `i` (0 = most significant) the
pattern of the decimal digit `((mm*100 + ss) div 10^(3-i)) mod 10`, which reads as that
digit: no slot is blank and no leading zero is suppressed. -/
theorem C8_clock_full_width (s : State) (hs : s.numOfDigits = 4) (ht : s.timerID = -1)
    (mm ss c : Int) (hmm : 0 ≤ mm ∧ mm ≤ 99) (hss : 0 ≤ ss ∧ ss ≤ 59) (i : Nat)
    (hi : i < 4) :
    glyphAt (frames none (writeClock s mm ss c).2) (Int.ofNat i)
      = some (pattern (writeDigit ((mm * 100 + ss) / 10 ^ (3 - i) % 10)))
    ∧ readGlyph (pattern (writeDigit ((mm * 100 + ss) / 10 ^ (3 - i) % 10)))
      = Glyph.digit ((mm * 100 + ss) / 10 ^ (3 - i) % 10).toNat := by
  obtain ⟨N, hN⟩ : ∃ N : Nat, mm * 100 + ss = Int.ofNat N :=
    ⟨(mm * 100 + ss).toNat, by rw [Int.ofNat_eq_coe, Int.toNat_of_nonneg (by omega)]⟩
  have hd : ∀ e : Nat, (mm * 100 + ss) / 10 ^ e % 10 = Int.ofNat (N / 10 ^ e % 10) := by
    intro e
    rw [hN]
    simp only [Int.ofNat_eq_coe]
    push_cast
    rfl
  constructor
  · have hcalls : (writeClock s mm ss c).2
        = writeClockLoop s c (decide (s.symbDigPin ≠ -1)) 4 (Int.ofNat N)
          ++ (if decide (s.symbDigPin ≠ -1) = true ∧ c = 58 then
                [Call.changeDigitChar 115, Call.setColon, Call.execDelay s.digitOnDelay,
                 Call.clearColon, Call.execDelay s.digitOffDelay]
              else []) := by
      simp only [writeClock, ht, hs, if_true, hN]
      rfl
    rw [hcalls, frames_writeClockLoop_succ, tdiv_natCast', frames_writeClockLoop_succ,
      tdiv_natCast', frames_writeClockLoop_succ, tdiv_natCast', frames_writeClockLoop_succ,
      tmod_natCast', tmod_natCast', tmod_natCast', tmod_natCast', hd]
    have e0 : Int.ofNat (N / 10 ^ 0 % 10) = Int.ofNat (N % 10) := by simp
    have e1 : Int.ofNat (N / 10 ^ 1 % 10) = Int.ofNat (N / 10 % 10) := by simp
    have e2 : Int.ofNat (N / 10 ^ 2 % 10) = Int.ofNat (N / 10 / 10 % 10) := by
      rw [Nat.div_div_eq_div_mul]; rfl
    have e3 : Int.ofNat (N / 10 ^ 3 % 10) = Int.ofNat (N / 10 / 10 / 10 % 10) := by
      rw [Nat.div_div_eq_div_mul, Nat.div_div_eq_div_mul]; rfl
    interval_cases i
    · rw [show 3 - 0 = 3 from rfl, e3]; simp [glyphAt, List.find?]
    · rw [show 3 - 1 = 2 from rfl, e2]; simp [glyphAt, List.find?]
    · rw [show 3 - 2 = 1 from rfl, e1]; simp [glyphAt, List.find?]
    · rw [show 3 - 3 = 0 from rfl, e0]; simp [glyphAt, List.find?]
  · rw [hd]
    exact readGlyph_digit _ (Nat.mod_lt _ (by norm_num))

/-- C8 at the clock `02:05`, slot 0. -/
theorem C8_clock_full_width_witness :
    (exampleState 4 (-1)).numOfDigits = 4 ∧ (exampleState 4 (-1)).timerID = -1
    ∧ ((0 : Int) ≤ 2 ∧ (2 : Int) ≤ 99) ∧ ((0 : Int) ≤ 5 ∧ (5 : Int) ≤ 59) ∧ 0 < 4
    ∧ glyphAt (frames none (writeClock (exampleState 4 (-1)) 2 5 58).2) (Int.ofNat 0)
      = some (pattern (writeDigit (((2 : Int) * 100 + 5) / 10 ^ (3 - 0) % 10)))
    ∧ readGlyph (pattern (writeDigit (((2 : Int) * 100 + 5) / 10 ^ (3 - 0) % 10)))
      = Glyph.digit (((2 : Int) * 100 + 5) / 10 ^ (3 - 0) % 10).toNat :=
  ⟨rfl, rfl, by decide, by decide, by decide,
    C8_clock_full_width (exampleState 4 (-1)) rfl rfl 2 5 58 (by decide) (by decide) 0
      (by decide)⟩

/-- C9 (the code at the failing input): four digits, timer set and started, the clock
`02:05` staged by `writeClock(2, 5, ':')`.  After 615 ticks the cursor stands at the end
of the off-part of slot 3; the next tick selects slot 0 and writes a blank there
(`iaExtractDigit` suppresses the leading zero), while the synchronous `writeClock(2, 5,
':')` sweep shows the digit `0 = (205 div 1000) mod 10` on slot 0. -/
theorem C9_tick_clock_code_diverges :
    (exampleClockTick.writeMode = 58 ∧ exampleClockTick.writeInt = 2 * 100 + 5
      ∧ exampleClockTick.numOfDigits = 4)
    ∧ ticks 615 (writeClock exampleTickState 2 5 58).1 = exampleClockTick
    ∧ (interruptAction exampleClockTick).1.timerDigit = 0
    ∧ shown none (interruptAction exampleClockTick).2
        = some (Frame.mk (Slot.digit 0) (pattern (writeDigitChar 32)) false)
    ∧ readGlyph (pattern (writeDigitChar 32)) = Glyph.blank
    ∧ glyphAt (frames none (writeClock (exampleState 4 (-1)) 2 5 58).2) 0
        = some (pattern (writeDigit 0))
    ∧ readGlyph (pattern (writeDigit 0)) = Glyph.digit 0
    ∧ ((2 : Int) * 100 + 5) / 10 ^ (3 - 0) % 10 = 0 := by
  have hx : iaExtractDigit (interruptAction exampleClockTick).1 205 0 4 = 32 := by
    have h := iaExtractDigit_step (interruptAction exampleClockTick).1 4 rfl 205 (by decide)
      (by decide) 4 0 (by decide)
    rw [if_pos (by decide), if_neg (fun h => absurd h.2.2 (by decide))] at h
    exact h
  have hcalls : (interruptAction exampleClockTick).2
      = [Call.changeDigit 0,
         Call.writeDigitChar (iaExtractDigit (interruptAction exampleClockTick).1 205 0 4),
         Call.setColon] := by
    rfl
  refine ⟨⟨rfl, rfl, rfl⟩, ticks_clockCursor, rfl, ?_, by decide, by decide, by decide,
    by decide⟩
  rw [hcalls, hx]
  decide

/-- C10 (as stated, refuted): four digits, colon pin 9, no symbol digit, no timer.  In
the synchronous `writeClock(2, 5, ':')` sweep the colon pin is written to the
segment-on level `0` and then, in every slot, back to the segment-off level `1`: after
the first assertion it is written off four times. -/
theorem C10_colon_pin_counterexample :
    (exampleColonState.symbDigPin = -1 ∧ exampleColonState.colonSegPin = 9
      ∧ exampleColonState.timerID = -1 ∧ exampleColonState.segOn = 0
      ∧ exampleColonState.segOff = 1)
    ∧ pinWrites 9 (execCalls exampleColonState (writeClock exampleColonState 2 5 58).2).2
      = [0, 1, 0, 1, 0, 1, 0, 1] := by
  decide

/-- C10 (amended): with a dedicated colon pin, no symbol digit and no timer, a
synchronous `writeClock(mm, ss, ':')` sweep over `n` digits writes the colon pin `2n`
times, alternately to the segment-on and to the segment-off level; among the colon calls
and delays of the sweep each slot contributes `setColon`, the on-delay, `clearColon`,
the off-delay, in this order: the colon is blanked with every digit. -/
theorem C10_colon_follows_blanking (s : State) (n : Nat) (hs : s.numOfDigits = (n : Int))
    (ht : s.timerID = -1) (hd : dedicatedColon s) (mm ss : Int) :
    pinWrites s.colonSegPin (execCalls s (writeClock s mm ss 58).2).2
      = (List.replicate n [s.segOn, s.segOff]).flatten
    ∧ colonTimeline (writeClock s mm ss 58).2
      = (List.replicate n [Call.setColon, Call.execDelay s.digitOnDelay, Call.clearColon,
          Call.execDelay s.digitOffDelay]).flatten := by
  have hsy : decide (s.symbDigPin ≠ -1) = false := by
    have := hd.1
    simp [this]
  have hnat : s.numOfDigits.toNat = n := by rw [hs]; exact Int.toNat_ofNat n
  have hcalls : (writeClock s mm ss 58).2 = writeClockLoop s 58 false n (mm * 100 + ss) := by
    simp only [writeClock, ht, if_true, hsy, hnat]
    simp
  obtain ⟨h1, h2, h3⟩ := writeClockLoop_colon s s.segOn s.segOff n (mm * 100 + ss)
  rw [hcalls]
  exact ⟨by rw [pinWrites_execCalls s.colonSegPin s.segOn s.segOff n _ s hd rfl rfl rfl hnat h1,
    h2], h3⟩

/-- C10 (amended) at four digits, colon pin 9, the clock `02:05`. -/
theorem C10_colon_follows_blanking_witness :
    exampleColonState.numOfDigits = ((4 : Nat) : Int) ∧ exampleColonState.timerID = -1
    ∧ dedicatedColon exampleColonState
    ∧ pinWrites exampleColonState.colonSegPin
        (execCalls exampleColonState (writeClock exampleColonState 2 5 58).2).2
      = (List.replicate 4 [exampleColonState.segOn, exampleColonState.segOff]).flatten
    ∧ colonTimeline (writeClock exampleColonState 2 5 58).2
      = (List.replicate 4 [Call.setColon, Call.execDelay exampleColonState.digitOnDelay,
          Call.clearColon, Call.execDelay exampleColonState.digitOffDelay]).flatten :=
  ⟨rfl, rfl, by decide,
    C10_colon_follows_blanking exampleColonState 4 rfl rfl (by decide)
      2 5⟩

/-- C11: for every finite sequence of (glyph, flag) pairs in which no glyph is `'.'` or
NUL, the synchronous sweep of `write(char*)`, and of `write(String)`, on the text built
by writing each glyph followed by `'.'` exactly when its flag is set performs
`clearColon()` and then, for the pairs in order, the calls of one slot: it selects the
slots `0, 1, ..., |L|-1` in this order, on slot `j` it shows the pattern of the glyph
`g_j`, and the decimal point is set on slot `j` exactly when the flag `b_j` is set; there
are as many frames as pairs, an attached `'.'` takes no slot. -/
theorem C11_text_sweep (s : State) (hs : s.timerID = -1) (l : List (Int × Bool))
    (hl : ∀ p ∈ l, p.1 ≠ 46 ∧ p.1 ≠ 0) :
    (writeCStr s (buildText l)).2 = Call.clearColon :: textSweep s l 0
    ∧ (writeString s (buildText l)).2 = Call.clearColon :: textSweep s l 0
    ∧ (frames none (writeCStr s (buildText l)).2).map Frame.slot
      = (List.range l.length).map (fun (k : Nat) => Slot.digit (Int.ofNat k))
    ∧ (frames none (writeCStr s (buildText l)).2).map Frame.segs
      = l.map (fun p => pattern (writeDigitChar p.1))
    ∧ (frames none (writeCStr s (buildText l)).2).map Frame.dp = l.map Prod.snd := by
  have e1 : (writeCStr s (buildText l)).2 = Call.clearColon :: textSweep s l 0 := by
    unfold writeCStr
    rw [if_pos hs]
    have := writeStrLoop_buildText s l hl [] 0
    rw [List.nil_append, List.length_nil] at this
    rw [this]
    rfl
  have e2 : (writeString s (buildText l)).2 = Call.clearColon :: textSweep s l 0 := by
    unfold writeString
    rw [if_pos hs]
    have := writeStringLoop_buildText s l (fun p hp => (hl p hp).1) [] 0
    rw [List.nil_append, List.length_nil] at this
    rw [this]
    rfl
  have e3 : frames none (Call.clearColon :: textSweep s l 0) = frames none (textSweep s l 0) :=
    rfl
  obtain ⟨h1, h2, h3⟩ := frames_textSweep s l 0
  refine ⟨e1, e2, ?_, ?_, ?_⟩
  · rw [e1, e3, h1]
    apply List.map_congr_left
    intro k _
    rw [zero_add]
  · rw [e1, e3, h2]
  · rw [e1, e3, h3]

/-- C11 at the text `"1.2.3.4."`: four slots, each with its decimal point. -/
theorem C11_text_sweep_witness :
    ((exampleState 4 (-1)).timerID = -1
      ∧ ∀ p ∈ [((49 : Int), true), (50, true), (51, true), (52, true)], p.1 ≠ 46 ∧ p.1 ≠ 0)
    ∧ buildText [(49, true), (50, true), (51, true), (52, true)]
      = [49, 46, 50, 46, 51, 46, 52, 46]
    ∧ (frames none (writeCStr (exampleState 4 (-1))
        (buildText [(49, true), (50, true), (51, true), (52, true)])).2).map Frame.slot
      = [Slot.digit 0, Slot.digit 1, Slot.digit 2, Slot.digit 3]
    ∧ (frames none (writeCStr (exampleState 4 (-1))
        (buildText [(49, true), (50, true), (51, true), (52, true)])).2).map Frame.dp
      = [true, true, true, true] :=
  ⟨⟨rfl, by decide⟩, by decide,
    (C11_text_sweep (exampleState 4 (-1)) rfl [(49, true), (50, true), (51, true), (52, true)]
      (by decide)).2.2.1,
    (C11_text_sweep (exampleState 4 (-1)) rfl [(49, true), (50, true), (51, true), (52, true)]
      (by decide)).2.2.2.2⟩

/-- C12 (as stated, refuted): the digit delay `2147483647` is not negative and the duty
cycle `100` (as the constructor leaves it) lies in `[0, 100]`, but after
`setDigitDelay(2147483647)` the product `temp *= _dutyCycle` has left the 32-bit
`long int`: the on-delay is `-1`, the off-delay `-2147483648`, and their sum is not the
digit delay. -/
theorem C12_delays_sum_counterexample :
    (0 : Int) ≤ 2147483647 ∧ isLong 2147483647
    ∧ (0 ≤ (exampleState 4 (-1)).dutyCycle ∧ (exampleState 4 (-1)).dutyCycle ≤ 100)
    ∧ (setDigitDelay (exampleState 4 (-1)) 2147483647).digitDelay = 2147483647
    ∧ (setDigitDelay (exampleState 4 (-1)) 2147483647).digitOnDelay = -1
    ∧ (setDigitDelay (exampleState 4 (-1)) 2147483647).digitOffDelay = -2147483648
    ∧ (setDigitDelay (exampleState 4 (-1)) 2147483647).digitOnDelay
        + (setDigitDelay (exampleState 4 (-1)) 2147483647).digitOffDelay
      ≠ (setDigitDelay (exampleState 4 (-1)) 2147483647).digitDelay := by
  decide

/-- C12 (amended): for every duty cycle `p` in `[0, 100]` and every object, whatever its
digit count: for every digit delay `d >= 0` whose product `d * p` is a `long int`,
`_digitOnDelay + _digitOffDelay == _digitDelay` holds after `setDigitDelay(d)` and after
`setDutyCycle(p)`; every `d <= 21474836` has such a product; after `setRefreshRate(freq)`
with `freq >= 1` and a digit count `>= 1` the call returns, the digit delay is not
negative and the sum holds; and for every delay and duty cycle whatever, the sum equals
the digit delay modulo `2^32` after `updDelay`. -/
theorem C12_delays_sum (s : State) (p : Int) (hp0 : 0 ≤ p) (hp1 : p ≤ 100) :
    (∀ d : Int, 0 ≤ d → d ≤ LONG_MAX → d * p ≤ LONG_MAX → s.dutyCycle = p →
      (setDigitDelay s d).digitDelay = d
      ∧ (setDigitDelay s d).digitOnDelay + (setDigitDelay s d).digitOffDelay
        = (setDigitDelay s d).digitDelay)
    ∧ (∀ d : Int, 0 ≤ d → d ≤ LONG_MAX → d * p ≤ LONG_MAX → s.digitDelay = d →
      (setDutyCycle s p).dutyCycle = p
      ∧ (setDutyCycle s p).digitOnDelay + (setDutyCycle s p).digitOffDelay
        = (setDutyCycle s p).digitDelay)
    ∧ (∀ d : Int, 0 ≤ d → d ≤ 21474836 → d ≤ LONG_MAX ∧ d * p ≤ LONG_MAX)
    ∧ (∀ freq : Int, 1 ≤ freq → 1 ≤ s.numOfDigits → s.dutyCycle = p →
      ∃ t, setRefreshRate s freq = some t ∧ 0 ≤ t.digitDelay
        ∧ t.digitOnDelay + t.digitOffDelay = t.digitDelay)
    ∧ (∀ t : State, isLong t.digitDelay →
        wrapLong ((updDelay t).digitOnDelay + (updDelay t).digitOffDelay)
        = (updDelay t).digitDelay) := by
  have sum : ∀ t : State, 0 ≤ t.digitDelay → t.digitDelay ≤ LONG_MAX → 0 ≤ t.dutyCycle →
      t.dutyCycle ≤ 100 → t.digitDelay * t.dutyCycle ≤ LONG_MAX →
      (updDelay t).digitOnDelay + (updDelay t).digitOffDelay = (updDelay t).digitDelay := by
    intro t a0 a1 b0 b1 c
    obtain ⟨e1, e2, _, _⟩ := updDelay_exact t a0 a1 b0 b1 c
    rw [e1, e2, updDelay_digitDelay]
    omega
  refine ⟨?_, ?_, ?_, ?_, fun t ht => updDelay_sum_wrapped t ht⟩
  · intro d hd0 hd1 hrep hp
    refine ⟨updDelay_digitDelay _, ?_⟩
    exact sum { s with digitDelay := d } hd0 hd1 (by rw [← hp] at hp0; exact hp0)
      (by rw [← hp] at hp1; exact hp1) (by rw [← hp] at hrep; exact hrep)
  · intro d hd0 hd1 hrep hd
    refine ⟨updDelay_dutyCycle _, ?_⟩
    exact sum { s with dutyCycle := p } (by rw [← hd] at hd0; exact hd0)
      (by rw [← hd] at hd1; exact hd1) hp0 hp1 (by rw [← hd] at hrep; exact hrep)
  · intro d hd0 hd1
    unfold LONG_MAX
    refine ⟨by omega, ?_⟩
    nlinarith
  · intro freq hf hn hp
    have hq0 : (0 : Int) ≤ 1000000 / freq := Int.ediv_nonneg (by norm_num) (by omega)
    have hq1 : (1000000 : Int) / freq ≤ 1000000 :=
      Int.ediv_le_self _ (by norm_num)
    have hk : 0 < s.numOfDigits + (if s.symbDigPin ≠ -1 then 1 else 0) := by
      split_ifs <;> omega
    have hD0 : 0 ≤ 1000000 / freq / (s.numOfDigits + (if s.symbDigPin ≠ -1 then 1 else 0)) :=
      Int.ediv_nonneg hq0 (by omega)
    have hD1 : 1000000 / freq / (s.numOfDigits + (if s.symbDigPin ≠ -1 then 1 else 0))
        ≤ 1000000 :=
      le_trans (Int.ediv_le_self _ hq0) hq1
    refine ⟨_, setRefreshRate_eq s freq hf hn, ?_, ?_⟩
    · rw [setDigitDelay, updDelay_digitDelay]
      exact hD0
    · have hprod : 1000000 / freq / (s.numOfDigits + (if s.symbDigPin ≠ -1 then 1 else 0))
          * s.dutyCycle ≤ 100000000 := by
        rw [hp]
        nlinarith
      exact sum { s with
          digitDelay := 1000000 / freq / (s.numOfDigits + (if s.symbDigPin ≠ -1 then 1 else 0)) }
        hD0 (by unfold LONG_MAX; exact le_trans hD1 (by norm_num))
        (by rw [← hp] at hp0; exact hp0) (by rw [← hp] at hp1; exact hp1)
        (by unfold LONG_MAX; exact le_trans hprod (by norm_num))

/-- C12 (amended) at the freshly constructed object (digit count 0, duty cycle 100) with
the digit delay `5000`, and at the four-digit object with the refresh rate `100`. -/
theorem C12_delays_sum_witness :
    ((0 : Int) ≤ 100 ∧ (100 : Int) ≤ 100)
    ∧ (construct 2 3 4 5 6 7 8).1.numOfDigits = 0
    ∧ ((0 : Int) ≤ 5000 ∧ (5000 : Int) ≤ LONG_MAX ∧ (5000 : Int) * 100 ≤ LONG_MAX
      ∧ (construct 2 3 4 5 6 7 8).1.dutyCycle = 100)
    ∧ (setDigitDelay (construct 2 3 4 5 6 7 8).1 5000).digitOnDelay
        + (setDigitDelay (construct 2 3 4 5 6 7 8).1 5000).digitOffDelay
      = (setDigitDelay (construct 2 3 4 5 6 7 8).1 5000).digitDelay
    ∧ ((1 : Int) ≤ 100 ∧ 1 ≤ (exampleState 4 (-1)).numOfDigits
      ∧ (exampleState 4 (-1)).dutyCycle = 100)
    ∧ (∃ t, setRefreshRate (exampleState 4 (-1)) 100 = some t ∧ 0 ≤ t.digitDelay
        ∧ t.digitOnDelay + t.digitOffDelay = t.digitDelay) :=
  ⟨by decide, rfl, ⟨by decide, by decide, by decide, rfl⟩,
    ((C12_delays_sum (construct 2 3 4 5 6 7 8).1 100 (by decide) (by decide)).1 5000
      (by decide) (by decide) (by decide) rfl).2,
    ⟨by decide, by decide, rfl⟩,
    (C12_delays_sum (exampleState 4 (-1)) 100 (by decide) (by decide)).2.2.2.1 100
      (by decide) (by decide) rfl⟩

/-- C13: for every digit delay `d` in `[0, 99999]` and every duty cycle `p` in
`[0, 100]` the product `d * p` formed by `updDelay` is a `long int` (it is not reduced),
`_digitOnDelay` is the floor of `d * p / 100` (the product is divided, not a factor),
`0 <= _digitOnDelay <= d`, the off-delay is the rest; `p = 100` gives the on-delay `d`
and the off-delay `0`, `p = 0` gives the on-delay `0`. -/
theorem C13_on_delay_exact (s : State) (d p : Int) (hd : s.digitDelay = d)
    (hp : s.dutyCycle = p) (hd0 : 0 ≤ d) (hd1 : d ≤ 99999) (hp0 : 0 ≤ p) (hp1 : p ≤ 100) :
    isLong (d * p) ∧ wrapLong (d * p) = d * p
    ∧ (updDelay s).digitOnDelay = d * p / 100
    ∧ (0 ≤ (updDelay s).digitOnDelay ∧ (updDelay s).digitOnDelay ≤ d)
    ∧ (updDelay s).digitOffDelay = d - (updDelay s).digitOnDelay
    ∧ (p = 100 → (updDelay s).digitOnDelay = d ∧ (updDelay s).digitOffDelay = 0)
    ∧ (p = 0 → (updDelay s).digitOnDelay = 0) := by
  have hx0 : 0 ≤ d * p := mul_nonneg hd0 hp0
  have hx1 : d * p ≤ 9999900 := by nlinarith
  have hl : isLong (d * p) := ⟨by unfold LONG_MIN; omega, by unfold LONG_MAX; omega⟩
  obtain ⟨e1, e2, e3, e4⟩ := updDelay_exact s (by rw [hd]; exact hd0)
    (by rw [hd]; unfold LONG_MAX; omega) (by rw [hp]; exact hp0) (by rw [hp]; exact hp1)
    (by rw [hd, hp]; exact hl.2)
  rw [hd, hp] at e1 e2 e3 e4
  refine ⟨hl, wrapLong_eq hl, e1, ⟨by rw [e1]; exact e3, by rw [e1]; exact e4⟩,
    by rw [e2, e1], ?_, ?_⟩
  · intro h100
    rw [e1, e2, h100]
    omega
  · intro h0
    rw [e1, h0]
    simp

/-- C13 at the digit delay `150` and the duty cycle `50`: the on-delay is `75`, where
dividing the duty cycle first would give `0`. -/
theorem C13_on_delay_exact_witness :
    (({ exampleState 4 (-1) with digitDelay := 150, dutyCycle := 50 } : State).digitDelay = 150
      ∧ ({ exampleState 4 (-1) with digitDelay := 150, dutyCycle := 50 } : State).dutyCycle = 50
      ∧ (0 : Int) ≤ 150 ∧ (150 : Int) ≤ 99999 ∧ (0 : Int) ≤ 50 ∧ (50 : Int) ≤ 100)
    ∧ (updDelay { exampleState 4 (-1) with digitDelay := 150, dutyCycle := 50 }).digitOnDelay
      = 75 :=
  ⟨by decide,
    (C13_on_delay_exact { exampleState 4 (-1) with digitDelay := 150, dutyCycle := 50 } 150 50
      rfl rfl (by decide) (by decide) (by decide) (by decide)).2.2.1⟩

/-- C14: for every refresh rate `freq >= 1` and every digit count `n >= 1`,
`setRefreshRate(freq)` returns with `_digitDelay = floor(1000000 / freq / (n + s))`,
`s = 1` with a symbol digit pin and `0` without (the two divisions truncate, which is
the floor of the quotient by `freq * (n + s)`), and the delays recomputed by
`updDelay`: for a duty cycle in `[0, 100]` the on-delay is the floor of the hundredth of
delay times duty cycle and the off-delay the rest.  For `freq = 100`, `n = 4` and no
symbol digit the digit delay is `2500`, and with the duty cycle `50` both the on-delay
and the off-delay are `1250`. -/
theorem C14_refresh_rate (s : State) (freq : Int) (n : Nat) (hs : s.numOfDigits = (n : Int))
    (hf : 1 ≤ freq) (hn : 1 ≤ n) :
    setRefreshRate s freq
      = some (updDelay { s with
          digitDelay := 1000000 / freq / ((n : Int) + (if s.symbDigPin ≠ -1 then 1 else 0)) })
    ∧ (∀ t, setRefreshRate s freq = some t →
        t.digitDelay = 1000000 / freq / ((n : Int) + (if s.symbDigPin ≠ -1 then 1 else 0))
        ∧ t.digitDelay = 1000000 / (freq * ((n : Int) + (if s.symbDigPin ≠ -1 then 1 else 0)))
        ∧ (0 ≤ s.dutyCycle → s.dutyCycle ≤ 100 →
            t.digitOnDelay = t.digitDelay * s.dutyCycle / 100
            ∧ t.digitOffDelay = t.digitDelay - t.digitOnDelay)
        ∧ (freq = 100 → n = 4 → s.symbDigPin = -1 →
            t.digitDelay = 2500
            ∧ (s.dutyCycle = 50 → t.digitOnDelay = 1250 ∧ t.digitOffDelay = 1250))) := by
  have hq0 : (0 : Int) ≤ 1000000 / freq := Int.ediv_nonneg (by norm_num) (by omega)
  have hq1 : (1000000 : Int) / freq ≤ 1000000 := Int.ediv_le_self _ (by norm_num)
  have hk : 0 < (n : Int) + (if s.symbDigPin ≠ -1 then 1 else 0) := by
    split_ifs <;> omega
  have hD0 : 0 ≤ 1000000 / freq / ((n : Int) + (if s.symbDigPin ≠ -1 then 1 else 0)) :=
    Int.ediv_nonneg hq0 (by omega)
  have hD1 : 1000000 / freq / ((n : Int) + (if s.symbDigPin ≠ -1 then 1 else 0)) ≤ 1000000 :=
    le_trans (Int.ediv_le_self _ hq0) hq1
  have hcall : setRefreshRate s freq
      = some (updDelay { s with
          digitDelay := 1000000 / freq / ((n : Int) + (if s.symbDigPin ≠ -1 then 1 else 0)) }) := by
    have e := setRefreshRate_eq s freq hf (by rw [hs]; omega)
    rw [hs] at e
    exact e
  refine ⟨hcall, ?_⟩
  intro t ht
  rw [hcall] at ht
  have ht2 := (Option.some.inj ht).symm
  have hdd : t.digitDelay
      = 1000000 / freq / ((n : Int) + (if s.symbDigPin ≠ -1 then 1 else 0)) := by
    rw [ht2, updDelay_digitDelay]
  have hduty : ∀ a0 : 0 ≤ s.dutyCycle, ∀ a1 : s.dutyCycle ≤ 100,
      t.digitOnDelay = t.digitDelay * s.dutyCycle / 100
      ∧ t.digitOffDelay = t.digitDelay - t.digitOnDelay := by
    intro a0 a1
    have hprod : 1000000 / freq / ((n : Int) + (if s.symbDigPin ≠ -1 then 1 else 0))
        * s.dutyCycle ≤ 100000000 := by nlinarith
    obtain ⟨e1, e2, _, _⟩ := updDelay_exact { s with
        digitDelay := 1000000 / freq / ((n : Int) + (if s.symbDigPin ≠ -1 then 1 else 0)) }
      hD0 (by unfold LONG_MAX; exact le_trans hD1 (by norm_num)) a0 a1
      (by unfold LONG_MAX; exact le_trans hprod (by norm_num))
    rw [hdd, ht2]
    exact ⟨e1, by rw [e2, e1]⟩
  have hflat : ∀ f k : Int, 1 ≤ f → 1 ≤ k → (1000000 : Int) / f / k = 1000000 / (f * k) := by
    intro f k h1 h2
    lift f to Nat using (by omega)
    lift k to Nat using (by omega)
    norm_cast
    exact Nat.div_div_eq_div_mul _ _ _
  refine ⟨hdd, by rw [hdd]; exact hflat _ _ hf (by omega), hduty, ?_⟩
  intro h100 h4 hsy
  have h2500 : t.digitDelay = 2500 := by
    rw [hdd, h100, h4, if_neg (by simp [hsy])]
    norm_num
  refine ⟨h2500, ?_⟩
  intro h50
  obtain ⟨e1, e2⟩ := hduty (by rw [h50]; norm_num) (by rw [h50]; norm_num)
  rw [h2500, h50] at e1
  have e1' : t.digitOnDelay = 1250 := by rw [e1]; norm_num
  exact ⟨e1', by rw [e2, h2500, e1']; norm_num⟩

/-- C14 at the four-digit object with the duty cycle `50` and the refresh rate `100`:
digit delay `2500`, on-delay and off-delay `1250`. -/
theorem C14_refresh_rate_witness :
    ((setDutyCycle (exampleState 4 (-1)) 50).numOfDigits = ((4 : Nat) : Int)
      ∧ (1 : Int) ≤ 100 ∧ 1 ≤ 4)
    ∧ (setRefreshRate (setDutyCycle (exampleState 4 (-1)) 50) 100).map
        (fun t => (t.digitDelay, t.digitOnDelay, t.digitOffDelay)) = some (2500, 1250, 1250) :=
  ⟨by decide,
    by
      rw [(C14_refresh_rate (setDutyCycle (exampleState 4 (-1)) 50) 100 4 (by decide)
        (by decide) (by decide)).1]
      decide⟩

/-- C15: for every digit count `n` with pairwise distinct digit-common and segment pins,
every slot `i` in `[0, n)` and every prior pin state, after `changeDigit(i)` the
digit-common pin `i` is at the digit-on level, every other digit-common pin (and the
symbol digit pin when assigned) is at the digit-off level, and the segment pins A to G
(and DP when assigned) are at the segment-off level. -/
theorem C15_changeDigit_levels (s : State) (n : Nat) (hs : s.numOfDigits = (n : Int))
    (hdist : distinctPins s) (i : Int) (hi0 : 0 ≤ i) (hi1 : i < (n : Int))
    (lv : Int → Int) :
    applyEvents lv (changeDigit s i) (digPin s i) = s.digOn
    ∧ (∀ j : Int, 0 ≤ j → j < (n : Int) → j ≠ i →
        applyEvents lv (changeDigit s i) (digPin s j) = s.digOff)
    ∧ (s.symbDigPin ≠ -1 → applyEvents lv (changeDigit s i) s.symbDigPin = s.digOff)
    ∧ (∀ x : Seg, applyEvents lv (changeDigit s i) (segPin s x) = s.segOff)
    ∧ (s.DP ≠ -1 → applyEvents lv (changeDigit s i) s.DP = s.segOff) := by
  have hmi := digPin_mem_digitPins s n hs i hi0 hi1
  have hsegne : ∀ p ∈ segmentPins s, p ≠ digPin s i := by
    intro p hp e
    exact distinctPins_apart s hdist _ hmi (e ▸ hp)
  refine ⟨?_, ?_, ?_, ?_, ?_⟩
  · rw [changeDigit_level, if_pos rfl]
  · intro j hj0 hj1 hji
    have hne : digPin s j ≠ digPin s i :=
      fun e => hji (digPin_injective s n hs hdist i j hi0 hi1 hj0 hj1 e)
    rw [changeDigit_level, if_neg hne]
    exact clearDisp_digit s hdist lv _ (digPin_mem_digitPins s n hs j hj0 hj1)
  · intro hsy
    have hmem : s.symbDigPin ∈ digitPins s := by
      unfold digitPins
      rw [if_pos hsy]
      exact List.mem_append_right _ (List.mem_singleton_self _)
    have hne : s.symbDigPin ≠ digPin s i := by
      intro e
      have hd := hdist
      unfold distinctPins digitPins at hd
      rw [if_pos hsy] at hd
      have h1 := (List.nodup_append.mp (List.nodup_append.mp hd).1).2.2
      have hin : digPin s i ∈ (List.range s.numOfDigits.toNat).map
          (fun (k : Nat) => digPin s (Int.ofNat k)) := by
        rw [List.mem_map]
        refine ⟨i.toNat, ?_, ?_⟩
        · rw [List.mem_range, hs, Int.toNat_ofNat]
          omega
        · have : Int.ofNat i.toNat = i := by
            show ((i.toNat : Nat) : Int) = i
            omega
          rw [this]
      exact h1 hin (e ▸ List.mem_singleton_self _)
    rw [changeDigit_level, if_neg hne]
    exact clearDisp_digit s hdist lv _ hmem
  · intro x
    have hmem := segPin_mem_segmentPins s x
    rw [changeDigit_level, if_neg (hsegne _ hmem)]
    exact clearDisp_segment s hdist lv _ hmem
  · intro hdp
    have hmem : s.DP ∈ segmentPins s := by
      unfold segmentPins
      rw [if_pos hdp]
      exact List.mem_append_right _ (List.mem_singleton_self _)
    rw [changeDigit_level, if_neg (hsegne _ hmem)]
    exact clearDisp_segment s hdist lv _ hmem

/-- C15 at the four-digit object, slot 2, from all pins high: the digit pin 12 is at the
digit-on level, the digit pin 10 at the digit-off level. -/
theorem C15_changeDigit_levels_witness :
    ((exampleState 4 (-1)).numOfDigits = ((4 : Nat) : Int) ∧ distinctPins (exampleState 4 (-1))
      ∧ (0 : Int) ≤ 2 ∧ (2 : Int) < ((4 : Nat) : Int))
    ∧ applyEvents (fun _ => 1) (changeDigit (exampleState 4 (-1)) 2)
        (digPin (exampleState 4 (-1)) 2) = (exampleState 4 (-1)).digOn
    ∧ applyEvents (fun _ => 1) (changeDigit (exampleState 4 (-1)) 2)
        (digPin (exampleState 4 (-1)) 0) = (exampleState 4 (-1)).digOff :=
  ⟨by decide,
    (C15_changeDigit_levels (exampleState 4 (-1)) 4 rfl (by decide) 2 (by decide) (by decide)
      (fun _ => 1)).1,
    (C15_changeDigit_levels (exampleState 4 (-1)) 4 rfl (by decide) 2 (by decide) (by decide)
      (fun _ => 1)).2.1 0 (by decide) (by decide) (by decide)⟩

/-- C16: with pairwise distinct digit-common and segment pins and different digit-on and
digit-off levels, if at most one digit-common pin (ordinary or symbol) is asserted on
entry, then after every single pin write of `changeDigit(i)`, and of `changeDigit('s')`
when its symbol segment pins are no digit-common pins, at most one digit-common pin is
asserted.  Both methods are `clearDisp()` followed by the write that asserts the new pin;
`clearDisp()` writes every digit-common pin to the digit-off level and every segment pin
to the segment-off level, and asserts no digit-common pin. -/
theorem C16_one_digit_asserted (s : State) (hdist : distinctPins s)
    (hlev : s.digOn ≠ s.digOff) (lv : Int → Int)
    (hentry : (assertedDigits s lv).length ≤ 1) :
    (∀ i : Int,
        (∀ lv2 ∈ pinStates lv (changeDigit s i), (assertedDigits s lv2).length ≤ 1)
        ∧ changeDigit s i = clearDisp s ++ [Event.digitalWrite (digPin s i) s.digOn])
    ∧ (symbolSegsApart s →
        ∀ lv2 ∈ pinStates lv (changeDigitChar s 115), (assertedDigits s lv2).length ≤ 1)
    ∧ changeDigitChar s 115
        = clearDisp s
          ++ [Event.digitalWrite s.symbDigPin s.digOn,
              Event.digitalWrite s.colonSegPin s.colonState,
              Event.digitalWrite s.colonSegLPin s.colonState,
              Event.digitalWrite s.aposSegPin s.aposState]
    ∧ (∀ p ∈ digitPins s,
        Event.digitalWrite p s.digOff ∈ clearDisp s ∧ Event.digitalWrite p s.digOn ∉ clearDisp s)
    ∧ (∀ p ∈ segmentPins s, Event.digitalWrite p s.segOff ∈ clearDisp s) := by
  have hclear : ∀ lv2 ∈ pinStates lv (clearDisp s), (assertedDigits s lv2).length ≤ 1 :=
    fun lv2 h => le_trans
      (pinStates_harmless s _ lv (clearDisp_harmless s hdist hlev) lv2 h) hentry
  have hoff : ∀ p ∈ digitPins s, applyEvents lv (clearDisp s) p = s.digOff :=
    fun p hp => clearDisp_digit s hdist lv p hp
  have hsel : ∀ q : Int, (assertedDigits s
      (applyEvent (applyEvents lv (clearDisp s)) (Event.digitalWrite q s.digOn))).length ≤ 1 :=
    fun q => assertedDigits_select s hdist hlev _ hoff q
  refine ⟨?_, ?_, ?_, ?_, ?_⟩
  · intro i
    refine ⟨?_, rfl⟩
    intro lv2 h
    unfold changeDigit at h
    rw [pinStates_append, List.mem_append] at h
    rcases h with h | h
    · exact hclear lv2 h
    · simp only [pinStates, List.mem_singleton] at h
      rw [h]
      exact hsel _
  · intro hap lv2 h
    obtain ⟨a1, a2, a3⟩ := hap
    have e : changeDigitChar s 115
        = clearDisp s
          ++ ([Event.digitalWrite s.symbDigPin s.digOn]
            ++ [Event.digitalWrite s.colonSegPin s.colonState,
                Event.digitalWrite s.colonSegLPin s.colonState,
                Event.digitalWrite s.aposSegPin s.aposState]) := by
      unfold changeDigitChar
      rw [if_pos rfl, if_neg (by decide), List.append_nil]
      rfl
    rw [e, pinStates_append, List.mem_append] at h
    rcases h with h | h
    · exact hclear lv2 h
    · rw [pinStates_append, List.mem_append] at h
      rcases h with h | h
      · simp only [pinStates, List.mem_singleton] at h
        rw [h]
        exact hsel _
      · refine le_trans (pinStates_harmless s _ _ ?_ lv2 h) (hsel s.symbDigPin)
        intro e2 he2 p l hpl hp
        rw [hpl] at he2
        simp only [List.mem_cons, List.mem_singleton, List.not_mem_nil, or_false] at he2
        rcases he2 with h3 | h3 | h3
        · injection h3 with h4 _
          exact absurd (h4 ▸ hp) a1
        · injection h3 with h4 _
          exact absurd (h4 ▸ hp) a2
        · injection h3 with h4 _
          exact absurd (h4 ▸ hp) a3
  · unfold changeDigitChar
    rw [if_pos rfl, if_neg (by decide), List.append_nil]
  · intro p hp
    refine ⟨(mem_clearDisp s _).mpr (Or.inl ⟨p, hp, rfl⟩), ?_⟩
    intro h
    exact clearDisp_harmless s hdist hlev _ h p s.digOn rfl hp rfl
  · intro p hp
    exact (mem_clearDisp s _).mpr (Or.inr ⟨p, hp, rfl⟩)

/-- C16 at the four-digit object with a symbol digit on pin 14, asserted on entry:
at most one digit-common pin is asserted after every write of `changeDigit(2)` and of
`changeDigit('s')`. -/
theorem C16_one_digit_asserted_witness :
    (distinctPins exampleSymbolState ∧ exampleSymbolState.digOn ≠ exampleSymbolState.digOff
      ∧ (assertedDigits exampleSymbolState (fun p => if p = 14 then 1 else 0)).length ≤ 1
      ∧ symbolSegsApart exampleSymbolState)
    ∧ (∀ lv2 ∈ pinStates (fun p => if p = 14 then 1 else 0) (changeDigit exampleSymbolState 2),
        (assertedDigits exampleSymbolState lv2).length ≤ 1)
    ∧ (∀ lv2 ∈ pinStates (fun p => if p = 14 then 1 else 0)
          (changeDigitChar exampleSymbolState 115),
        (assertedDigits exampleSymbolState lv2).length ≤ 1) :=
  ⟨by decide,
    ((C16_one_digit_asserted exampleSymbolState (by decide) (by decide)
      (fun p => if p = 14 then 1 else 0) (by decide)).1 2).1,
    (C16_one_digit_asserted exampleSymbolState (by decide) (by decide)
      (fun p => if p = 14 then 1 else 0) (by decide)).2.1 (by decide)⟩

/-- C17: for each digit `d` in `0..9`, with distinct segment pins and whatever the prior
pin levels, `writeDigit(d)` leaves exactly the segments of the standard shape at the
segment-on level and the other segments at the segment-off level (0 = ABCDEF, 1 = BC,
2 = ABDEG, 3 = ABCDG, 4 = BCFG, 5 = ACDFG, 6 = ACDEFG, 7 = ABC, 8 = ABCDEFG,
9 = ABCDFG), and `writeDigit(char)` on the character `'0'+d` leaves the same levels. -/
theorem C17_digit_patterns (s : State) (hseg : [s.A, s.B, s.C, s.D, s.E, s.F, s.G].Nodup)
    (d : Int) (hd0 : 0 ≤ d) (hd1 : d ≤ 9) (lv : Int → Int) (x : Seg) :
    applyEvents lv ((writeDigit d).map (segWrite s)) (segPin s x)
      = (if x ∈ standardPattern d then s.segOn else s.segOff)
    ∧ applyEvents lv ((writeDigitChar (48 + d)).map (segWrite s)) (segPin s x)
      = (if x ∈ standardPattern d then s.segOn else s.segOff)
    ∧ pattern (writeDigit d)
      = [Seg.A, Seg.B, Seg.C, Seg.D, Seg.E, Seg.F, Seg.G].map
          (fun y => decide (y ∈ standardPattern d))
    ∧ pattern (writeDigitChar (48 + d)) = pattern (writeDigit d) := by
  have h1 : lit (writeDigit d) x = decide (x ∈ standardPattern d) := by
    interval_cases d <;> cases x <;> rfl
  have h2 : lit (writeDigitChar (48 + d)) x = decide (x ∈ standardPattern d) := by
    interval_cases d <;> cases x <;> rfl
  refine ⟨?_, ?_, ?_, ?_⟩
  · rw [applyEvents_segWrites s hseg _ lv x (writeDigit_head d x), h1]
    by_cases hx : x ∈ standardPattern d
    · rw [decide_eq_true hx, if_pos rfl, if_pos hx]
    · rw [decide_eq_false hx, if_neg (by decide), if_neg hx]
  · rw [applyEvents_segWrites s hseg _ lv x (writeDigitChar_head _ x), h2]
    by_cases hx : x ∈ standardPattern d
    · rw [decide_eq_true hx, if_pos rfl, if_pos hx]
    · rw [decide_eq_false hx, if_neg (by decide), if_neg hx]
  · interval_cases d <;> rfl
  · interval_cases d <;> rfl

/-- C17 at the digit `4`, segment pins 2 to 8 from all pins low: pin G (8) is at the
segment-on level. -/
theorem C17_digit_patterns_witness :
    ([(exampleState 4 (-1)).A, (exampleState 4 (-1)).B, (exampleState 4 (-1)).C,
        (exampleState 4 (-1)).D, (exampleState 4 (-1)).E, (exampleState 4 (-1)).F,
        (exampleState 4 (-1)).G].Nodup
      ∧ (0 : Int) ≤ 4 ∧ (4 : Int) ≤ 9)
    ∧ applyEvents (fun _ => 0) ((writeDigit 4).map (segWrite (exampleState 4 (-1))))
        (segPin (exampleState 4 (-1)) Seg.G)
      = (if Seg.G ∈ standardPattern 4 then (exampleState 4 (-1)).segOn
          else (exampleState 4 (-1)).segOff) :=
  ⟨by decide,
    (C17_digit_patterns (exampleState 4 (-1)) (by decide) 4 (by decide) (by decide)
      (fun _ => 0) Seg.G).1⟩

/-- C18: for every character `c` that is not a digit `'0'`-`'9'`, a letter, `'-'` or the
degree code 248, `writeDigit(char)` performs the seven off-writes only and leaves every
segment pin A to G at the segment-off level, whatever the prior levels; so it does for
`' '`; for every integer `d` outside `0..9`, `writeDigit(int)` does the same; and both
encoders return for every argument, starting with the seven off-writes. -/
theorem C18_unknown_glyph_dark (s : State) (lv : Int → Int) (x : Seg) (c : Int)
    (hc : ¬ knownGlyph c) (d : Int) (hd : d < 0 ∨ 9 < d) :
    (writeDigitChar c = segsOff
      ∧ applyEvents lv ((writeDigitChar c).map (segWrite s)) (segPin s x) = s.segOff)
    ∧ applyEvents lv ((writeDigitChar 32).map (segWrite s)) (segPin s x) = s.segOff
    ∧ (writeDigit d = segsOff
      ∧ applyEvents lv ((writeDigit d).map (segWrite s)) (segPin s x) = s.segOff)
    ∧ (∀ a : Int, segsOff <+: writeDigitChar a ∧ segsOff <+: writeDigit a) := by
  refine ⟨⟨writeDigitChar_unknown c hc, ?_⟩, ?_, ⟨writeDigit_none d hd, ?_⟩, ?_⟩
  · rw [writeDigitChar_unknown c hc]
    exact applyEvents_segsOff s lv x
  · rw [writeDigitChar_unknown 32 (by decide)]
    exact applyEvents_segsOff s lv x
  · rw [writeDigit_none d hd]
    exact applyEvents_segsOff s lv x
  · intro a
    refine ⟨?_, ?_⟩
    · unfold writeDigitChar
      simp only [List.append_assoc]
      exact ⟨_, rfl⟩
    · unfold writeDigit
      simp only [List.append_assoc]
      exact ⟨_, rfl⟩

/-- C18 at the character `'?'` (63) and the integer `10`, pin A from all pins low. -/
theorem C18_unknown_glyph_dark_witness :
    (¬ knownGlyph 63 ∧ ((10 : Int) < 0 ∨ (9 : Int) < 10))
    ∧ applyEvents (fun _ => 0) ((writeDigitChar 63).map (segWrite (exampleState 4 (-1))))
        (segPin (exampleState 4 (-1)) Seg.A) = (exampleState 4 (-1)).segOff
    ∧ applyEvents (fun _ => 0) ((writeDigit 10).map (segWrite (exampleState 4 (-1))))
        (segPin (exampleState 4 (-1)) Seg.A) = (exampleState 4 (-1)).segOff :=
  ⟨by decide,
    (C18_unknown_glyph_dark (exampleState 4 (-1)) (fun _ => 0) Seg.A 63 (by decide) 10
      (by decide)).1.2,
    (C18_unknown_glyph_dark (exampleState 4 (-1)) (fun _ => 0) Seg.A 63 (by decide) 10
      (by decide)).2.2.1.2⟩

/-- C19: for every lowercase letter `c` in `'a'..'z'`, `writeDigit(c)` performs the same
segment writes as `writeDigit` of the uppercase letter `c - 32`, so that from every
prior pin state both leave every pin at the same level, and the same segments lit. -/
theorem C19_case_insensitive (c : Int) (h0 : 97 ≤ c) (h1 : c ≤ 122) (s : State)
    (lv : Int → Int) (p : Int) :
    writeDigitChar c = writeDigitChar (c - 32)
    ∧ applyEvents lv ((writeDigitChar c).map (segWrite s)) p
      = applyEvents lv ((writeDigitChar (c - 32)).map (segWrite s)) p
    ∧ pattern (writeDigitChar c) = pattern (writeDigitChar (c - 32)) := by
  have e := writeDigitChar_lowercase c h0 h1
  exact ⟨e, by rw [e], by rw [e]⟩

/-- C19 at the letter `'h'` (104): the same writes as for `'H'` (72). -/
theorem C19_case_insensitive_witness :
    ((97 : Int) ≤ 104 ∧ (104 : Int) ≤ 122)
    ∧ writeDigitChar 104 = writeDigitChar (104 - 32) :=
  ⟨by decide,
    (C19_case_insensitive 104 (by decide) (by decide) (exampleState 4 (-1)) (fun _ => 0) 2).1⟩

/-- C20 (as stated, refuted): four digits, the constructor's duty cycle of 100 percent,
timer set and started, `1234` staged: the on counter end is 155, the off counter end 0.
After 154 ticks the counter stands at 154; the next tick performs the ON-to-OFF
transition (it blanks the segments) and, in the same call, the OFF-to-ON transition (it
selects slot 1 and writes its digit `'2'`). -/
theorem C20_tick_counterexample :
    (0 ≤ exampleStarted.dutyCycle ∧ exampleStarted.dutyCycle ≤ 100)
    ∧ (exampleStarted.timerCounterOnEnd = 155 ∧ exampleStarted.timerCounterOffEnd = 0)
    ∧ ticks 154 exampleStarted = startedCursor 154
    ∧ (onToOff (startedCursor 154) ∧ offToOn (startedCursor 154))
    ∧ (interruptAction (startedCursor 154)).2
        = [Call.writeDigitChar 32, Call.clearDP, Call.changeDigit 1, Call.writeDigitChar 50]
    ∧ ((startedCursor 154).timerDigit = 0
        ∧ (interruptAction (startedCursor 154)).1.timerDigit = 1
        ∧ (interruptAction (startedCursor 154)).1.timerPhase = 1) := by
  have hx : iaExtractDigit (interruptAction (startedCursor 154)).1 1234 1 4 = 50 := by
    have h := iaExtractDigit_step (interruptAction (startedCursor 154)).1 4 rfl 1234
      (by decide) (by decide) 4 1 (by decide)
    rw [if_neg (fun h => absurd h.1 (by decide))] at h
    exact h
  have hcalls : (interruptAction (startedCursor 154)).2
      = [Call.writeDigitChar 32, Call.clearDP, Call.changeDigit 1,
         Call.writeDigitChar (iaExtractDigit (interruptAction (startedCursor 154)).1 1234 1 4)] := by
    rfl
  refine ⟨by decide, ⟨rfl, rfl⟩, ?_, by decide, ?_, ⟨rfl, rfl, rfl⟩⟩
  · have h := startedCursor_ticks 154 0 (by decide) (by decide)
    exact h
  · rw [hcalls, hx]

/-- C20 (amended): a single call of `interruptAction` performs both the ON-to-OFF and
the OFF-to-ON transition exactly when it ends the on-part and the off counter end is not
positive; with an off counter end of at least 1 it never performs both.  With a timer,
`updDelay` sets an off counter end of at least 1 exactly for an off-delay of at least 32
microseconds. -/
theorem C20_one_transition_per_tick (s : State) (h : 1 ≤ s.timerCounterOffEnd) :
    ¬ (onToOff s ∧ offToOn s)
    ∧ (∀ t : State, (onToOff t ∧ offToOn t)
        ↔ (wrapLong (t.timerCounter + 1) ≥ t.timerCounterOnEnd ∧ t.timerPhase = 1
            ∧ t.timerCounterOffEnd ≤ 0))
    ∧ (∀ t : State, t.timerID ≠ -1 →
        (1 ≤ (updDelay t).timerCounterOffEnd ↔ 32 ≤ (updDelay t).digitOffDelay)) := by
  refine ⟨?_, both_transitions_iff, updDelay_offEnd_pos⟩
  intro hb
  have := ((both_transitions_iff s).mp hb).2.2
  omega

/-- C20 (amended) at the clock example (duty cycle 50, off counter end 77) at the end
of its on-part: the tick performs the ON-to-OFF transition only. -/
theorem C20_one_transition_per_tick_witness :
    (1 ≤ (clockCursor 0 1 76).timerCounterOffEnd)
    ∧ ¬ (onToOff (clockCursor 0 1 76) ∧ offToOn (clockCursor 0 1 76)) :=
  ⟨by decide, (C20_one_transition_per_tick (clockCursor 0 1 76) (by decide)).1⟩

/-- C21: for a digit count `n >= 1` and `S = n + 1` with a symbol digit pin, `S = n`
without, from `_timerDigit = k` in `[0, S)`: a tick that performs the OFF-to-ON
transition changes `_timerDigit` to `(k + 1) mod S` and selects that slot
(`changeDigit('s')` for the slot `n`, `changeDigit(int)` otherwise), a tick that does not
leaves `_timerDigit` at `k`; `_timerDigit` stays in `[0, S)` after every number of
ticks, and every index a tick passes to `changeDigit(int)` is in `[0, n)`. -/
theorem C21_slot_cursor_cycles (s : State) (n : Nat) (hn : s.numOfDigits = (n : Int))
    (h1 : 1 ≤ n) (h0 : 0 ≤ s.timerDigit)
    (hS : s.timerDigit < (n : Int) + (if s.symbDigPin ≠ -1 then 1 else 0)) :
    (offToOn s →
      (interruptAction s).1.timerDigit
        = (s.timerDigit + 1) % ((n : Int) + (if s.symbDigPin ≠ -1 then 1 else 0))
      ∧ (if (interruptAction s).1.timerDigit = (n : Int) then Call.changeDigitChar 115
          else Call.changeDigit (interruptAction s).1.timerDigit) ∈ (interruptAction s).2)
    ∧ (¬ offToOn s → (interruptAction s).1.timerDigit = s.timerDigit)
    ∧ (∀ i : Int, Call.changeDigit i ∈ (interruptAction s).2 → 0 ≤ i ∧ i < (n : Int))
    ∧ (∀ m : Nat, 0 ≤ (ticks m s).timerDigit
        ∧ (ticks m s).timerDigit < (n : Int) + (if s.symbDigPin ≠ -1 then 1 else 0)) := by
  have hpos : 0 < (n : Int) + (if s.symbDigPin ≠ -1 then 1 else 0) := by
    split_ifs <;> omega
  -- one tick, for any cursor in range
  have step : ∀ t : State, t.numOfDigits = (n : Int) → t.symbDigPin = s.symbDigPin →
      0 ≤ t.timerDigit →
      t.timerDigit < (n : Int) + (if s.symbDigPin ≠ -1 then 1 else 0) →
      (offToOn t →
        (interruptAction t).1.timerDigit
          = (t.timerDigit + 1) % ((n : Int) + (if s.symbDigPin ≠ -1 then 1 else 0)))
      ∧ (¬ offToOn t → (interruptAction t).1.timerDigit = t.timerDigit) := by
    intro t tn tsy t0 tS
    obtain ⟨c1, c2, c3⟩ := iaOnEnd_config (iaCount t)
    have d1 : (iaOnEnd (iaCount t)).1.timerDigit = t.timerDigit := c1
    have d2 : (iaOnEnd (iaCount t)).1.numOfDigits = (n : Int) := by rw [c2]; exact tn
    have d3 : (iaOnEnd (iaCount t)).1.symbDigPin = s.symbDigPin := by rw [c3]; exact tsy
    constructor
    · intro h
      rw [(interruptAction_offToOn t h).1]
      show iaNextDigit (iaOnEnd (iaCount t)).1 = _
      have := iaNextDigit_mod (iaOnEnd (iaCount t)).1 n d2 (by rw [d1]; exact t0)
        (by rw [d1, d3]; exact tS)
      rw [this, d1, d3]
    · intro h
      rw [(interruptAction_not_offToOn t h).1, d1]
  have inrange : ∀ t : State, t.numOfDigits = (n : Int) → t.symbDigPin = s.symbDigPin →
      0 ≤ t.timerDigit →
      t.timerDigit < (n : Int) + (if s.symbDigPin ≠ -1 then 1 else 0) →
      0 ≤ (interruptAction t).1.timerDigit
      ∧ (interruptAction t).1.timerDigit
        < (n : Int) + (if s.symbDigPin ≠ -1 then 1 else 0) := by
    intro t tn tsy t0 tS
    obtain ⟨a, b⟩ := step t tn tsy t0 tS
    by_cases h : offToOn t
    · rw [a h]
      exact ⟨Int.emod_nonneg _ (by omega), Int.emod_lt_of_pos _ hpos⟩
    · rw [b h]
      exact ⟨t0, tS⟩
  obtain ⟨a, b⟩ := step s hn rfl h0 hS
  obtain ⟨r0, rS⟩ := inrange s hn rfl h0 hS
  refine ⟨?_, b, ?_, ?_⟩
  · intro h
    refine ⟨a h, ?_⟩
    have e1 := (interruptAction_offToOn s h).1
    have e2 := (interruptAction_offToOn s h).2
    have hnn : (iaSelect (iaOnEnd (iaCount s)).1).numOfDigits = (n : Int) := by
      show (iaOnEnd (iaCount s)).1.numOfDigits = _
      rw [(iaOnEnd_config (iaCount s)).2.1]
      exact hn
    rw [e2, e1, hnn]
    apply List.mem_append_right
    apply List.mem_append_left
    split_ifs <;> simp
  · intro i hi
    by_cases h : offToOn s
    · have e1 := (interruptAction_offToOn s h).1
      have e2 := (interruptAction_offToOn s h).2
      have hnn : (interruptAction s).1.numOfDigits = (n : Int) := by
        rw [(interruptAction_config s).1]
        exact hn
      rw [e2, ← e1, hnn] at hi
      rcases List.mem_append.mp hi with hi | hi
      · exact absurd hi (changeDigit_not_mem_iaOnEnd _ i)
      · rcases List.mem_append.mp hi with hi | hi
        · by_cases hd : (interruptAction s).1.timerDigit = (n : Int)
          · rw [if_pos hd] at hi
            simp at hi
          · rw [if_neg hd] at hi
            have hi2 : i = (interruptAction s).1.timerDigit := by simpa using hi
            rw [hi2]
            refine ⟨r0, ?_⟩
            split_ifs at rS <;> omega
        · split_ifs at hi
          · exact absurd hi (changeDigit_not_mem_iaGlyphCalls _ i)
          · simp at hi
    · rw [(interruptAction_not_offToOn s h).2] at hi
      exact absurd hi (changeDigit_not_mem_iaOnEnd _ i)
  · intro m
    have gen : ∀ (m : Nat) (t : State), t.numOfDigits = (n : Int) →
        t.symbDigPin = s.symbDigPin → 0 ≤ t.timerDigit →
        t.timerDigit < (n : Int) + (if s.symbDigPin ≠ -1 then 1 else 0) →
        0 ≤ (ticks m t).timerDigit
        ∧ (ticks m t).timerDigit < (n : Int) + (if s.symbDigPin ≠ -1 then 1 else 0) := by
      intro m
      induction m with
      | zero => intro t _ _ t0 tS; exact ⟨t0, tS⟩
      | succ m ih =>
        intro t tn tsy t0 tS
        simp only [ticks]
        obtain ⟨q0, qS⟩ := inrange t tn tsy t0 tS
        exact ih _ (by rw [(interruptAction_config t).1]; exact tn)
          (by rw [(interruptAction_config t).2]; exact tsy) q0 qS
    exact gen m s hn rfl h0 hS

/-- C21 at the clock example at the end of the off-part of slot 3 (four digits, no
symbol digit): the tick moves the cursor to slot `(3 + 1) mod 4 = 0`. -/
theorem C21_slot_cursor_cycles_witness :
    (exampleClockTick.numOfDigits = ((4 : Nat) : Int) ∧ 1 ≤ 4
      ∧ 0 ≤ exampleClockTick.timerDigit
      ∧ exampleClockTick.timerDigit
        < ((4 : Nat) : Int) + (if exampleClockTick.symbDigPin ≠ -1 then 1 else 0)
      ∧ offToOn exampleClockTick)
    ∧ (interruptAction exampleClockTick).1.timerDigit
      = (exampleClockTick.timerDigit + 1)
        % (((4 : Nat) : Int) + (if exampleClockTick.symbDigPin ≠ -1 then 1 else 0)) :=
  ⟨by decide,
    ((C21_slot_cursor_cycles exampleClockTick 4 rfl (by decide) (by decide) (by decide)).1
      (by decide)).1⟩

/-- C22: with a timer set (`_timerID != -1`), `write(long)`, `write(long, point)`,
`write(char*)` and `writeClock(mm, ss, c)` perform no call at all (no pin write, no
delay) and return the object with the staged target only: every field outside
`_writeMode`, `_writeInt`, `_writePoint` and `_writeStr` is unchanged (pins, colon and
apostrophe flags, timing, polarity, cursor and counter ends). -/
theorem C22_tick_mode_stages_only (s : State) (ht : s.timerID ≠ -1) (num point mm ss c : Int)
    (str : List Int) :
    ((writeLong s num).2 = [] ∧ sameOutsideTarget s (writeLong s num).1
      ∧ (execCalls (writeLong s num).1 (writeLong s num).2).2 = []
      ∧ (writeLong s num).1.writeMode = 105 ∧ (writeLong s num).1.writeInt = iaLimitInt s num)
    ∧ ((write s num point).2 = [] ∧ sameOutsideTarget s (write s num point).1
      ∧ (execCalls (write s num point).1 (write s num point).2).2 = []
      ∧ (write s num point).1.writeMode = 112
      ∧ (write s num point).1.writeInt = iaLimitInt s num)
    ∧ ((writeCStr s str).2 = [] ∧ sameOutsideTarget s (writeCStr s str).1
      ∧ (execCalls (writeCStr s str).1 (writeCStr s str).2).2 = []
      ∧ (writeCStr s str).1.writeMode = 115 ∧ (writeCStr s str).1.writeStr = str)
    ∧ ((writeClock s mm ss c).2 = [] ∧ sameOutsideTarget s (writeClock s mm ss c).1
      ∧ (execCalls (writeClock s mm ss c).1 (writeClock s mm ss c).2).2 = []
      ∧ (writeClock s mm ss c).1.writeMode = c
      ∧ (writeClock s mm ss c).1.writeInt = mm * 100 + ss) := by
  have e1 : writeLong s num
      = ({ s with writeMode := 105, writeInt := iaLimitInt s num }, []) := by
    unfold writeLong
    rw [if_neg ht]
  have e2 : write s num point
      = ({ s with writeMode := 112, writeInt := iaLimitInt s num,
                  writePoint := if point = 0 then s.numOfDigits
                    else s.numOfDigits - point - 1 }, []) := by
    unfold write
    rw [if_neg ht]
  have e3 : writeCStr s str = ({ s with writeMode := 115, writeStr := str }, []) := by
    unfold writeCStr
    rw [if_neg ht]
  have e4 : writeClock s mm ss c = ({ s with writeMode := c, writeInt := mm * 100 + ss }, []) := by
    unfold writeClock
    rw [if_neg ht]
  rw [e1, e2, e3, e4]
  unfold sameOutsideTarget
  refine ⟨⟨rfl, ?_, rfl, rfl, rfl⟩, ⟨rfl, ?_, rfl, rfl, rfl⟩, ⟨rfl, ?_, rfl, rfl, rfl⟩,
    ⟨rfl, ?_, rfl, rfl, rfl⟩⟩
  all_goals exact ⟨⟨rfl, rfl, rfl, rfl, rfl, rfl, rfl, rfl⟩, ⟨rfl, rfl⟩,
    ⟨rfl, rfl, rfl, rfl, rfl, rfl⟩, ⟨rfl, rfl, rfl, rfl⟩, ⟨rfl, rfl, rfl, rfl⟩,
    ⟨rfl, rfl, rfl, rfl, rfl, rfl⟩, rfl⟩

/-- C22 at the tick-driven example object and `write(1234, 2)`: no call, the cursor and
the timing are as before. -/
theorem C22_tick_mode_stages_only_witness :
    exampleTickState.timerID ≠ -1
    ∧ (write exampleTickState 1234 2).2 = []
    ∧ sameOutsideTarget exampleTickState (write exampleTickState 1234 2).1 :=
  ⟨by decide,
    (C22_tick_mode_stages_only exampleTickState (by decide) 1234 2 0 0 0 []).2.1.1,
    (C22_tick_mode_stages_only exampleTickState (by decide) 1234 2 0 0 0 []).2.1.2.1⟩

/-- C23 (the code at the failing input): four digits, no decimal-point pin, no colon pin,
no timer.  The synchronous `write(7, 0)` calls `clearDP()` in each of its four slots,
and `clearDP()` writes `_DP = -1` without a test; `write("1")` and `writeClock(12, 34,
':')` write the unassigned colon pin through `clearColon()` and `setColon()`; in
tick-driven mode the tick that ends the on-part of the fixed-point target `write(-7, 0)`
calls `clearDP()`, which writes pin `-1`. -/
theorem C23_unset_pin_written :
    ((exampleState 4 (-1)).DP = -1 ∧ (exampleState 4 (-1)).colonSegPin = -1
      ∧ (exampleState 4 (-1)).symbDigPin = -1)
    ∧ pinWrites (-1) (execCalls (exampleState 4 (-1)) (write (exampleState 4 (-1)) 7 0).2).2
      = [1, 1, 1, 1]
    ∧ Event.digitalWrite (-1) 1
      ∈ (execCalls (exampleState 4 (-1)) (writeCStr (exampleState 4 (-1)) [49]).2).2
    ∧ Event.digitalWrite (-1) 0
      ∈ (execCalls (exampleState 4 (-1)) (writeClock (exampleState 4 (-1)) 12 34 58).2).2
    ∧ (exampleTickState.DP = -1
      ∧ ticks 76 (write exampleTickState (-7) 0).1
        = withCounter (write exampleTickState (-7) 0).1 76
      ∧ (interruptAction (withCounter (write exampleTickState (-7) 0).1 76)).2
        = [Call.writeDigitChar 32, Call.clearDP]
      ∧ Event.digitalWrite (-1) 1
        ∈ (tick (withCounter (write exampleTickState (-7) 0).1 76)).2) := by
  have htext : (writeCStr (exampleState 4 (-1)) [49]).2
      = Call.clearColon :: textSweep (exampleState 4 (-1)) [(49, false)] 0 := by
    have h := writeStrLoop_buildText (exampleState 4 (-1)) [(49, false)] (by decide) [] 0
    have e : writeCStr (exampleState 4 (-1)) [49]
        = (exampleState 4 (-1),
            [Call.clearColon] ++ writeStrLoop (exampleState 4 (-1)) [49] 0 0) := rfl
    rw [e]
    exact congrArg (fun l => Call.clearColon :: l) h
  refine ⟨by decide, by decide, ?_, by decide, by decide, ?_, by decide, by decide⟩
  · rw [htext]
    decide
  · exact ticks_idle 76 (write exampleTickState (-7) 0).1 (by decide) (by decide)
      (fun _ => by decide) (fun _ => by decide)

/-- C24 (the code departs from the claim): four digits, a symbol digit configured by
`setSymbPins(14, 2, 3, 4)`, no timer: five slots.  For every value, point and time the
synchronous `write(value)`, `write(value, point)` and `writeClock(mm, ss, c)` with a
separator other than `':'` select the slots 3, 2, 1, 0 and never the symbol slot; only
`writeClock` with `':'` ends with the symbol slot.  The rest of the code counts the
symbol slot for a number target: `setRefreshRate(100)` splits the period over five slots
(digit delay 2000), and in tick-driven mode, 619 ticks after `write(7, 0)` was staged, the
next tick of `interruptAction` selects the symbol slot. -/
theorem C24_symbol_slot_not_swept (v point mm ss c : Int) :
    (exampleSymbolState.symbDigPin = 14 ∧ exampleSymbolState.timerID = -1
      ∧ exampleSymbolState.numOfDigits = 4 ∧ slotCount exampleSymbolState = 5)
    ∧ selectedSlots (writeLong exampleSymbolState v).2
      = [Slot.digit 3, Slot.digit 2, Slot.digit 1, Slot.digit 0]
    ∧ selectedSlots (write exampleSymbolState v point).2
      = [Slot.digit 3, Slot.digit 2, Slot.digit 1, Slot.digit 0]
    ∧ selectedSlots (writeClock exampleSymbolState mm ss c).2
      = [Slot.digit 3, Slot.digit 2, Slot.digit 1, Slot.digit 0]
        ++ (if c = 58 then [Slot.symbol] else [])
    ∧ Slot.symbol ∉ selectedSlots (writeLong exampleSymbolState v).2
    ∧ Slot.symbol ∉ selectedSlots (write exampleSymbolState v point).2
    ∧ Slot.symbol ∉ selectedSlots (writeClock exampleSymbolState mm ss 46).2
    ∧ (setRefreshRate exampleSymbolState 100).map (fun t => t.digitDelay) = some 2000
    ∧ (write (startTimer (setTimer exampleSymbolState 0)) 7 0).1 = symbolCursor 0 1 0
    ∧ ticks 619 (symbolCursor 0 1 0) = symbolCursor 3 1 154
    ∧ (interruptAction (symbolCursor 3 1 154)).2
      = [Call.writeDigitChar 32, Call.clearDP, Call.changeDigitChar 115]
    ∧ selectedSlots (interruptAction (symbolCursor 3 1 154)).2 = [Slot.symbol] := by
  obtain ⟨h1, h2, h3⟩ := selectedSlots_sweep exampleSymbolState 4 rfl rfl v point mm ss c
  have hl : (List.range 4).reverse.map (fun (i : Nat) => Slot.digit (Int.ofNat i))
      = [Slot.digit 3, Slot.digit 2, Slot.digit 1, Slot.digit 0] := by decide
  have hsy : exampleSymbolState.symbDigPin ≠ -1 := by decide
  rw [hl] at h1 h2 h3
  have h3' : selectedSlots (writeClock exampleSymbolState mm ss c).2
      = [Slot.digit 3, Slot.digit 2, Slot.digit 1, Slot.digit 0]
        ++ (if c = 58 then [Slot.symbol] else []) := by
    rw [h3]
    by_cases hc : c = 58
    · rw [if_pos ⟨hsy, hc⟩, if_pos hc]
    · rw [if_neg (fun h => hc h.2), if_neg hc]
  refine ⟨by decide, h1, h2, h3', ?_, ?_, ?_, by decide, rfl, symbolCursor_ticks, by decide,
    by decide⟩
  · rw [h1]; decide
  · rw [h2]; decide
  · obtain ⟨-, -, h4⟩ := selectedSlots_sweep exampleSymbolState 4 rfl rfl v point mm ss 46
    rw [h4, hl]
    decide

/-- C25 (the code at the failing input): four digits (the digit-pin array has the four
entries 0..3), no timer, the text `"12345"`.  The sweep of `write(char*)`, and of
`write(String)`, selects the slots 0, 1, 2, 3 and 4: it calls `changeDigit(4)`, which
reads `_dig[4]`, outside the array. -/
theorem C25_text_overruns_digit_pins :
    ((exampleState 4 (-1)).numOfDigits = 4 ∧ (exampleState 4 (-1)).dig.length = 4
      ∧ (exampleState 4 (-1)).timerID = -1)
    ∧ selectedSlots (writeCStr (exampleState 4 (-1)) [49, 50, 51, 52, 53]).2
      = [Slot.digit 0, Slot.digit 1, Slot.digit 2, Slot.digit 3, Slot.digit 4]
    ∧ selectedSlots (writeString (exampleState 4 (-1)) [49, 50, 51, 52, 53]).2
      = [Slot.digit 0, Slot.digit 1, Slot.digit 2, Slot.digit 3, Slot.digit 4]
    ∧ Call.changeDigit 4 ∈ (writeCStr (exampleState 4 (-1)) [49, 50, 51, 52, 53]).2
    ∧ ¬ ((4 : Int) < (exampleState 4 (-1)).numOfDigits)
    ∧ (exampleState 4 (-1)).dig.get? 4 = none := by
  have h1 : (writeCStr (exampleState 4 (-1)) [49, 50, 51, 52, 53]).2
      = Call.clearColon :: textSweep (exampleState 4 (-1))
          [(49, false), (50, false), (51, false), (52, false), (53, false)] 0 := by
    have h := writeStrLoop_buildText (exampleState 4 (-1))
      [(49, false), (50, false), (51, false), (52, false), (53, false)] (by decide) [] 0
    have e : writeCStr (exampleState 4 (-1)) [49, 50, 51, 52, 53]
        = (exampleState 4 (-1),
            [Call.clearColon] ++ writeStrLoop (exampleState 4 (-1)) [49, 50, 51, 52, 53] 0 0) :=
      rfl
    rw [e]
    exact congrArg (fun l => Call.clearColon :: l) h
  have h2 : (writeString (exampleState 4 (-1)) [49, 50, 51, 52, 53]).2
      = Call.clearColon :: textSweep (exampleState 4 (-1))
          [(49, false), (50, false), (51, false), (52, false), (53, false)] 0 := by
    have h := writeStringLoop_buildText (exampleState 4 (-1))
      [(49, false), (50, false), (51, false), (52, false), (53, false)] (by decide) [] 0
    have e : writeString (exampleState 4 (-1)) [49, 50, 51, 52, 53]
        = (exampleState 4 (-1),
            [Call.clearColon]
              ++ writeStringLoop (exampleState 4 (-1)) [49, 50, 51, 52, 53] 0 0) := rfl
    rw [e]
    exact congrArg (fun l => Call.clearColon :: l) h
  rw [h1, h2]
  decide

/-- C26 (the code at the failing input): four digits, `setSymbPins(14, 2, 3, 4)`, no
timer, `writeClock(12, 34, ':')`.  The sweep ends with `changeDigit('s')`, `setColon()`,
the on-delay, `clearColon()`, the off-delay.  `changeDigit('s')` writes the colon
segment pins from `_colonState`, which is still segment-off, and `setColon()`, called
after it, only sets the flag: when the on-delay starts the symbol digit pin is asserted
but both colon segment pins are at the segment-off level, whatever the levels before
the call; the call leaves `_colonState` at segment-off, so the next sweep does the
same. -/
theorem C26_symbol_colon_dark (lv : Int → Int) :
    (exampleSymbolState.symbDigPin = 14 ∧ exampleSymbolState.colonSegPin = 2
      ∧ exampleSymbolState.colonSegLPin = 3 ∧ exampleSymbolState.timerID = -1
      ∧ exampleSymbolState.digOn = 1 ∧ exampleSymbolState.segOn = 0
      ∧ exampleSymbolState.segOff = 1
      ∧ exampleSymbolState.colonState = exampleSymbolState.segOff)
    ∧ (writeClock exampleSymbolState 12 34 58).2
      = writeClockLoop exampleSymbolState 58 true 4 1234
        ++ [Call.changeDigitChar 115, Call.setColon, Call.execDelay 2500, Call.clearColon,
            Call.execDelay 0]
    ∧ (applyEvents lv (execCalls exampleSymbolState
          (writeClockLoop exampleSymbolState 58 true 4 1234
            ++ [Call.changeDigitChar 115, Call.setColon])).2 14 = 1
      ∧ applyEvents lv (execCalls exampleSymbolState
          (writeClockLoop exampleSymbolState 58 true 4 1234
            ++ [Call.changeDigitChar 115, Call.setColon])).2 2 = 1
      ∧ applyEvents lv (execCalls exampleSymbolState
          (writeClockLoop exampleSymbolState 58 true 4 1234
            ++ [Call.changeDigitChar 115, Call.setColon])).2 3 = 1)
    ∧ (execCalls exampleSymbolState (writeClock exampleSymbolState 12 34 58).2).1.colonState
      = exampleSymbolState.segOff := by
  refine ⟨by decide, by decide, ⟨?_, ?_, ?_⟩, by decide⟩
  · rfl
  · rfl
  · rfl

/-- C27 (the code at the failing input): four digits, decimal-point pin 9, duty cycle 50
percent, timer set and started, the text `"1."` staged by `write(String)`.  Tick 616
selects slot 0, writes `'1'` and sets the decimal point; tick 693 ends the on-part: it
blanks the segments A to G but does not call `clearDP()` (the test names the modes `'p'`,
`'.'` and `'s'`, not `'o'`), so the cursor is in the OFF phase with the decimal-point pin
at the segment-on level, whatever the pin levels at the start.  With the same text
staged by `write(char*)` the same tick clears the decimal point. -/
theorem C27_string_point_lit_in_off_phase (lv : Int → Int) :
    ((exampleTextTick true).writeMode = 111 ∧ (exampleTextTick true).writeStrObj = [49, 46]
      ∧ (exampleTextTick true).DP = 9 ∧ (exampleTextTick true).segOn = 0
      ∧ (exampleTextTick true).segOff = 1)
    ∧ ((runTicks 693 (exampleTextTick true) lv).1.timerPhase = 0
      ∧ (runTicks 693 (exampleTextTick true) lv).1.timerDigit = 0
      ∧ (runTicks 693 (exampleTextTick true) lv).2 9 = 0)
    ∧ (interruptAction (textCursor true 0 1 76)).2 = [Call.writeDigitChar 32]
    ∧ ((exampleTextTick false).writeMode = 115
      ∧ (runTicks 693 (exampleTextTick false) lv).1.timerPhase = 0
      ∧ (runTicks 693 (exampleTextTick false) lv).2 9 = 1
      ∧ (interruptAction (textCursor false 0 1 76)).2
        = [Call.writeDigitChar 32, Call.clearDP]) := by
  obtain ⟨lv1, h1⟩ := textCursor_round true lv
  obtain ⟨lv2, h2⟩ := textCursor_round false lv
  rw [h1, h2]
  exact ⟨by decide, ⟨rfl, rfl, rfl⟩, rfl, rfl, rfl, rfl, rfl⟩

/-- C28: for every string and every slot `j` that the synchronous sweep of
`write(char*)` visits, a tick of `interruptAction` in the mode `'s'` that performs the
OFF-to-ON transition to slot `j` (a digit slot, `j < n`) shows on slot `j` exactly the
frame of the synchronous sweep on slot `j`: the pattern of the same character, which is
the one the counting loop stops on, and the decimal point set under the same
condition, a `'.'` following that character.  The glyph calls of the mode `'s'` for the
slot `j` give this frame whatever the digit count. -/
theorem C28_text_tick_eq_sync (s c : State) (str : List Int) (n j : Nat)
    (hs : s.timerID = -1) (hmode : c.writeMode = 115) (hstr : c.writeStr = str)
    (hn : c.numOfDigits = (n : Int)) (hj : j < n) (htick : offToOn c)
    (hsel : (interruptAction c).1.timerDigit = (j : Int)) (f : Frame)
    (hf : (frames none (writeCStr s str).2)[j]? = some f) :
    shown none (interruptAction c).2 = some f
    ∧ f = Frame.mk (Slot.digit (j : Int))
        (pattern (writeDigitChar (strAt str (countStr str j 0))))
        (decide (strAt str (countStr str j 0 + 1) = 46))
    ∧ (interruptAction c).2
      = (iaOnEnd (iaCount c)).2
        ++ ([Call.changeDigit (j : Int), Call.writeDigitChar (strAt str (countStr str j 0))]
          ++ (if strAt str (countStr str j 0 + 1) = 46 then [Call.setDP] else []))
    ∧ (∀ u : State, u.writeMode = 115 → u.writeStr = str → u.timerDigit = (j : Int) →
        shown (some (Frame.mk (Slot.digit (j : Int)) (pattern segsOff) false)) (iaGlyphCalls u)
        = some f) := by
  -- the synchronous frame
  have hsync : (writeCStr s str).2 = Call.clearColon :: writeStrLoop s str 0 0 := by
    unfold writeCStr
    rw [if_pos hs]
    rfl
  have hfr : frames none (Call.clearColon :: writeStrLoop s str 0 0)
      = frames none (writeStrLoop s str 0 0) := rfl
  rw [hsync, hfr, frames_writeStrLoop s str j 0 0] at hf
  have hne : strAt str (countStr str j 0) ≠ 0 := by
    intro h
    rw [if_neg (fun h2 => h2 h)] at hf
    exact Option.noConfusion hf
  rw [if_pos hne, zero_add] at hf
  have hfeq := (Option.some.inj hf).symm
  -- the tick
  obtain ⟨e1, e2⟩ := interruptAction_offToOn c htick
  have hd : (iaSelect (iaOnEnd (iaCount c)).1).timerDigit = (j : Int) := by
    rw [← e1]; exact hsel
  have hnn : (iaSelect (iaOnEnd (iaCount c)).1).numOfDigits = (n : Int) := by
    show (iaOnEnd (iaCount c)).1.numOfDigits = _
    rw [(iaOnEnd_config (iaCount c)).2.1]
    exact hn
  have hm : (iaSelect (iaOnEnd (iaCount c)).1).writeMode = 115 := by
    show (iaOnEnd (iaCount c)).1.writeMode = _
    rw [(iaOnEnd_target (iaCount c)).1]
    exact hmode
  have hw : (iaSelect (iaOnEnd (iaCount c)).1).writeStr = str := by
    show (iaOnEnd (iaCount c)).1.writeStr = _
    rw [(iaOnEnd_target (iaCount c)).2]
    exact hstr
  have hne2 : (iaSelect (iaOnEnd (iaCount c)).1).timerDigit
      ≠ (iaSelect (iaOnEnd (iaCount c)).1).numOfDigits := by
    rw [hd, hnn]; omega
  have hg := iaGlyphCalls_text (iaSelect (iaOnEnd (iaCount c)).1) hm
  rw [hw, hd, Int.toNat_ofNat] at hg
  have hcalls : (interruptAction c).2
      = (iaOnEnd (iaCount c)).2
        ++ ([Call.changeDigit (j : Int), Call.writeDigitChar (strAt str (countStr str j 0))]
          ++ (if strAt str (countStr str j 0 + 1) = 46 then [Call.setDP] else [])) := by
    rw [e2, if_neg hne2, if_pos hne2, hg, hd]
    rfl
  refine ⟨?_, hfeq, hcalls, ?_⟩
  · rw [hcalls, shown_append, shown_none_iaOnEnd, hfeq]
    by_cases hdp : strAt str (countStr str j 0 + 1) = 46
    · rw [if_pos hdp, decide_eq_true hdp]
      rfl
    · rw [if_neg hdp, decide_eq_false hdp]
      rfl
  · intro u um us ud
    have hu := iaGlyphCalls_text u um
    rw [us, ud, Int.toNat_ofNat] at hu
    rw [hu, hfeq]
    by_cases hdp : strAt str (countStr str j 0 + 1) = 46
    · rw [if_pos hdp, decide_eq_true hdp]
      rfl
    · rw [if_neg hdp, decide_eq_false hdp]
      rfl

/-- C28 at the text `"1."`: the text example staged by `write(char*)`, at the end of the
off-part of slot 3; the tick selects slot 0 and shows `'1'` with its decimal point, as
the synchronous sweep does. -/
theorem C28_text_tick_eq_sync_witness :
    ((exampleState 4 (-1)).timerID = -1 ∧ (textCursor false 3 0 76).writeMode = 115
      ∧ (textCursor false 3 0 76).writeStr = [49, 46]
      ∧ (textCursor false 3 0 76).numOfDigits = ((4 : Nat) : Int) ∧ 0 < 4
      ∧ offToOn (textCursor false 3 0 76)
      ∧ (interruptAction (textCursor false 3 0 76)).1.timerDigit = ((0 : Nat) : Int))
    ∧ (frames none (writeCStr (exampleState 4 (-1)) [49, 46]).2)[0]?
      = some (Frame.mk (Slot.digit 0) (pattern (writeDigitChar 49)) true)
    ∧ shown none (interruptAction (textCursor false 3 0 76)).2
      = some (Frame.mk (Slot.digit 0) (pattern (writeDigitChar 49)) true) :=
  have hf : (frames none (writeCStr (exampleState 4 (-1)) [49, 46]).2)[0]?
      = some (Frame.mk (Slot.digit 0) (pattern (writeDigitChar 49)) true) := by
    have h := frames_writeStrLoop (exampleState 4 (-1)) [49, 46] 0 0 0
    exact h
  ⟨by decide, hf,
    (C28_text_tick_eq_sync (exampleState 4 (-1)) (textCursor false 3 0 76) [49, 46] 4 0 rfl
      rfl rfl rfl (by decide) (by decide) rfl _ hf).1⟩

/-- C29: for every digit count `n`, every number, every point and every digit in
`[0, n)`, the call `iaExtractDigit(number, digit, point)` returns with at most
`n - digit` nested activations: the evaluation with that much fuel, and with any more,
yields the value of `iaExtractDigit`; the nested recursive calls are on `digit + 1`,
`digit + 2`, ... in this order, and there are at most `n - 1 - digit` of them. -/
theorem C29_iaExtractDigit_bounded (s : State) (n : Nat) (hn : s.numOfDigits = (n : Int))
    (number point : Int) (digit : Nat) (hd : digit < n) :
    ∃ ds : List Int,
      iaExtractDigitTrace s (n - digit) number (digit : Int) point
        = some (iaExtractDigit s number (digit : Int) point, ds)
      ∧ ds.length ≤ n - 1 - digit
      ∧ ds = (List.range ds.length).map (fun (k : Nat) => (digit : Int) + 1 + (k : Int))
      ∧ (∀ extra : Nat, iaExtractDigitTrace s (n - digit + extra) number (digit : Int) point
          = some (iaExtractDigit s number (digit : Int) point, ds)) := by
  obtain ⟨ds, h1, h2, h3⟩ :=
    iaExtractDigitTrace_spec s n hn number point (n - 1 - digit) digit (by omega)
  have hfuel : n - 1 - digit + 1 = n - digit := by omega
  rw [hfuel] at h1
  refine ⟨ds, h1, h2, h3, ?_⟩
  intro extra
  induction extra with
  | zero => exact h1
  | succ k ih => exact iaExtractDigitTrace_mono s number point _ _ _ ih

/-- C29 at four digits, the number `-7`, no decimals, digit 0: the call returns a blank
after nested calls on the digits 1, 2 and 3, which is the depth `n - 1 - digit = 3`. -/
theorem C29_iaExtractDigit_bounded_witness :
    ((exampleState 4 (-1)).numOfDigits = ((4 : Nat) : Int) ∧ 0 < 4)
    ∧ iaExtractDigitTrace (exampleState 4 (-1)) (4 - 0) (-7) ((0 : Nat) : Int) 4
      = some (32, [1, 2, 3])
    ∧ ∃ ds : List Int,
        iaExtractDigitTrace (exampleState 4 (-1)) (4 - 0) (-7) ((0 : Nat) : Int) 4
          = some (iaExtractDigit (exampleState 4 (-1)) (-7) ((0 : Nat) : Int) 4, ds)
        ∧ ds.length ≤ 4 - 1 - 0 :=
  ⟨by decide, by decide,
    (C29_iaExtractDigit_bounded (exampleState 4 (-1)) 4 rfl (-7) 4 0 (by decide)).imp
      (fun _ h => ⟨h.1, h.2.1⟩)⟩

/-- C30 (the code at the failing input): the object as the constructor leaves it (digit
count 0, no timer).  For every value and every point the sweep loop
`for(int i=_numOfDigits-1;i>=0;i--)` of `write` runs zero times: `write(v, point)` and
`write(v)` perform no call, hence no pin write, and the segment pins keep the levels
they had (segment-off since the constructor); the pattern of `5` has lit segments. -/
theorem C30_no_digit_pins_no_write (v point : Int) (lv : Int → Int) :
    ((construct 2 3 4 5 6 7 8).1.numOfDigits = 0 ∧ (construct 2 3 4 5 6 7 8).1.timerID = -1)
    ∧ (write (construct 2 3 4 5 6 7 8).1 v point).2 = []
    ∧ (writeLong (construct 2 3 4 5 6 7 8).1 v).2 = []
    ∧ (execCalls (construct 2 3 4 5 6 7 8).1 (write (construct 2 3 4 5 6 7 8).1 v point).2).2
      = []
    ∧ applyEvents lv
        (execCalls (construct 2 3 4 5 6 7 8).1 (write (construct 2 3 4 5 6 7 8).1 v point).2).2
      = lv
    ∧ pattern (writeDigit 5) = [true, false, true, true, false, true, true]
    ∧ (construct 2 3 4 5 6 7 8).2
      = [Event.digitalWrite 2 1, Event.digitalWrite 3 1, Event.digitalWrite 4 1,
         Event.digitalWrite 5 1, Event.digitalWrite 6 1, Event.digitalWrite 7 1,
         Event.digitalWrite 8 1] := by
  have e1 : (write (construct 2 3 4 5 6 7 8).1 v point).2 = [] := rfl
  have e2 : (writeLong (construct 2 3 4 5 6 7 8).1 v).2 = [] := rfl
  rw [e1, e2]
  exact ⟨⟨rfl, rfl⟩, rfl, rfl, rfl, rfl, by decide, by decide⟩

/-! ### C31 -/

/-- C31 (the code departs from the claim): on the object built by
`SevenSeg(2,3,4,5,6,7,8)` and `setSymbPins(14, 2, 3, 4)`, which has digit count 0 and a
symbol digit and therefore one slot, `setRefreshRate(freq)` divides by zero for every
`freq`: the division `period/_numOfDigits` is executed before the symbol digit is looked
at, so zero is among the divisors (for `freq = 100` they are `100, 0`) and no
`_digitDelay` results.  In general the method fails exactly when one of its divisors is
zero. -/
theorem C31_refresh_rate_divides_by_zero (freq : Int) :
    exampleSymbolOnly.numOfDigits = 0 ∧ exampleSymbolOnly.symbDigPin = 14
    ∧ slotCount exampleSymbolOnly = 1
    ∧ (0 : Int) ∈ setRefreshRateDivisors exampleSymbolOnly freq
    ∧ setRefreshRateDivisors exampleSymbolOnly 100 = [100, 0]
    ∧ setRefreshRate exampleSymbolOnly freq = none
    ∧ (∀ (s : State) (f : Int),
        setRefreshRate s f = none ↔ (0 : Int) ∈ setRefreshRateDivisors s f) := by
  have hn : exampleSymbolOnly.numOfDigits = 0 := rfl
  have hmem : (0 : Int) ∈ setRefreshRateDivisors exampleSymbolOnly freq := by
    unfold setRefreshRateDivisors
    by_cases h : freq = 0
    · rw [if_pos h, h]; simp
    · rw [if_neg h, if_pos hn, hn]; simp
  exact ⟨hn, rfl, by decide, hmem, by decide,
    (setRefreshRate_none_iff exampleSymbolOnly freq).2 hmem, setRefreshRate_none_iff⟩

/-! ### C32 -/

/-- C32 (the code departs from the claim): the constructor stores the segment-off level
of common anode (`HIGH`) in `_colonState` and `_aposState`, and neither
`setCommonCathode()` nor `setActivePinState` touches the two fields.  After
`SevenSeg(2,3,4,5,6,7,8)` and `setCommonCathode()` both fields hold `HIGH`, which is now
the segment-on level and not the segment-off level `LOW`, and `setColonPin(9)` writes
`HIGH` to pin 9: the colon is lit.  The same holds after `setActivePinState(HIGH, LOW)`.
Directly after construction, and after `setCommonAnode()`, the two fields do hold the
segment-off level. -/
theorem C32_colon_state_stale :
    (∀ s : State, (setCommonCathode s).colonState = s.colonState
        ∧ (setCommonCathode s).aposState = s.aposState)
    ∧ (∀ (s : State) (a b : Int), (setActivePinState s a b).colonState = s.colonState
        ∧ (setActivePinState s a b).aposState = s.aposState)
    ∧ (construct 2 3 4 5 6 7 8).1.colonState = (construct 2 3 4 5 6 7 8).1.segOff
    ∧ (construct 2 3 4 5 6 7 8).1.aposState = (construct 2 3 4 5 6 7 8).1.segOff
    ∧ (setCommonAnode (construct 2 3 4 5 6 7 8).1).colonState
        = (setCommonAnode (construct 2 3 4 5 6 7 8).1).segOff
    ∧ exampleCathode.segOn = 1 ∧ exampleCathode.segOff = 0
    ∧ exampleCathode.colonState = 1 ∧ exampleCathode.aposState = 1
    ∧ exampleCathode.colonState ≠ exampleCathode.segOff
    ∧ exampleCathode.aposState ≠ exampleCathode.segOff
    ∧ (setColonPin exampleCathode 9).2 = [Event.digitalWrite 9 exampleCathode.segOn]
    ∧ (setColonPin exampleCathode 9).2 ≠ [Event.digitalWrite 9 exampleCathode.segOff]
    ∧ (setActivePinState (construct 2 3 4 5 6 7 8).1 1 0).colonState
        ≠ (setActivePinState (construct 2 3 4 5 6 7 8).1 1 0).segOff
    ∧ (setColonPin (setActivePinState (construct 2 3 4 5 6 7 8).1 1 0) 9).2
        = [Event.digitalWrite 9 (setActivePinState (construct 2 3 4 5 6 7 8).1 1 0).segOn] := by
  refine ⟨fun s => ⟨rfl, rfl⟩, fun s a b => ⟨rfl, rfl⟩, rfl, rfl, rfl, rfl, rfl, rfl, rfl,
    by decide, by decide, rfl, by decide, by decide, rfl⟩

/-! ### C33 -/

/-- C33 (counterexample): with ten digits the upper limit `10^10 - 1` of `iaLimitInt`
does not fit a 32-bit `long int` and wraps to `1410065407`.  `write(2000000000, 0)` reads
back as `1410065407`, while the saturated value `min(max(value, -10^9 + 1), 10^10 - 1)`
is `2000000000` itself. -/
theorem C33_saturated_readback_counterexample :
    (exampleState 10 (-1)).numOfDigits = 10
    ∧ isLong 2000000000
    ∧ readBack (displayRow (frames none (write (exampleState 10 (-1)) 2000000000 0).2) 10)
        = some 1410065407
    ∧ min (max (2000000000 : Int) (-(10 ^ (10 - 1)) + 1)) (10 ^ 10 - 1) = 2000000000 := by
  refine ⟨rfl, by decide, by decide, by decide⟩

/-- C33 (amended): for every digit count `n ≥ 1` whose power `10^n` is representable as
a `long int` and every `long int` value, in range or not, the glyph sequence rendered by
the synchronous `write(value, 0)`, read back as a decimal number, equals the saturated
value `min(max(value, -10^(n-1) + 1), 10^n - 1)`. -/
theorem C33_saturated_readback (s : State) (n : Nat) (hs : s.numOfDigits = (n : Int))
    (hn : 1 ≤ n) (hrep : (10 : Int) ^ n ≤ LONG_MAX) (ht : s.timerID = -1)
    (value : Int) (hv : isLong value) :
    readBack (displayRow (frames none (write s value 0).2) n)
    = some (min (max value (-(10 ^ (n - 1)) + 1)) (10 ^ n - 1)) := by
  obtain ⟨m, rfl⟩ : ∃ m, n = m + 1 := ⟨n - 1, by omega⟩
  have hp : (1 : Int) ≤ 10 ^ m := one_le_pow₀ (by norm_num)
  have hsucc : (10 : Int) ^ (m + 1) = 10 * 10 ^ m := pow_succ' 10 m
  have hlim := iaLimitInt_eq s m hs hrep value
  have hb1 : -(10 ^ m) + 1 ≤ iaLimitInt s value := by
    rw [hlim]; exact le_max_right _ _
  have hb2 : iaLimitInt s value ≤ 10 ^ (m + 1) - 1 := by
    rw [hlim]; exact max_le (min_le_right _ _) (by omega)
  have hsat : min (max value (-(10 ^ (m + 1 - 1)) + 1)) (10 ^ (m + 1) - 1)
      = iaLimitInt s value := by
    rw [hlim, show m + 1 - 1 = m by omega]
    rcases le_total value (10 ^ (m + 1) - 1) with h | h
    · rcases le_total value (-(10 ^ m) + 1) with h2 | h2
      · rw [max_eq_right h2, min_eq_left (by omega), min_eq_left h, max_eq_right h2]
      · rw [max_eq_left h2, min_eq_left h, max_eq_left h2]
    · have h2 : -(10 ^ m) + 1 ≤ value := by omega
      rw [max_eq_left h2, min_eq_right h, max_eq_left (by omega)]
  rw [hsat, frames_write s (m + 1) hs ht value 0 hv, if_pos rfl]
  exact readBack_sweepFrames m (iaLimitInt s value) hb1 hb2

/-- C33 (witness): three digits, `write(123456, 0)` reads back as `999`. -/
theorem C33_saturated_readback_witness :
    ((exampleState 3 (-1)).numOfDigits = ((3 : Nat) : Int) ∧ 1 ≤ 3
      ∧ (10 : Int) ^ 3 ≤ LONG_MAX ∧ (exampleState 3 (-1)).timerID = -1 ∧ isLong 123456)
    ∧ readBack (displayRow (frames none (write (exampleState 3 (-1)) 123456 0).2) 3)
        = some (min (max 123456 (-(10 ^ (3 - 1)) + 1)) (10 ^ 3 - 1)) :=
  ⟨⟨rfl, by decide, by decide, rfl, by decide⟩,
    C33_saturated_readback (exampleState 3 (-1)) 3 rfl (by decide) (by decide) rfl 123456
      (by decide)⟩

/-! ### C34 -/

/-- C34 (the code departs from the claim): `setDigitPins` computes the delays from the
symbol digit assigned at that moment and `setSymbPins` does not recompute them.  With
four digits, `setDigitPins(4, pins)` followed by `setSymbPins(14, 2, 3, 4)` leaves
`_digitDelay = _digitOnDelay = 2500` (the 100 Hz period over 4 slots), the opposite
order leaves `2000` (the period over 5 slots), although both orders end with digit
count 4 and symbol digit pin 14.  For every digit count `m + 1` the first order leaves
`10000 / (m + 1)` and the second `10000 / (m + 2)`. -/
theorem C34_delay_depends_on_order (m : Nat) (pins : List Int) :
    (digitsThenSymbol 4 [10, 11, 12, 13]).map
        (fun t => (t.digitDelay, t.digitOnDelay, t.digitOffDelay, t.numOfDigits, t.symbDigPin))
      = some (2500, 2500, 0, 4, 14)
    ∧ (symbolThenDigits 4 [10, 11, 12, 13]).map
        (fun t => (t.digitDelay, t.digitOnDelay, t.digitOffDelay, t.numOfDigits, t.symbDigPin))
      = some (2000, 2000, 0, 4, 14)
    ∧ (digitsThenSymbol ((m + 1 : Nat) : Int) pins).map
        (fun t => (t.digitDelay, t.digitOnDelay, t.digitOffDelay, t.numOfDigits, t.symbDigPin))
      = some (10000 / ((m + 1 : Nat) : Int), 10000 / ((m + 1 : Nat) : Int), 0,
          ((m + 1 : Nat) : Int), 14)
    ∧ (symbolThenDigits ((m + 1 : Nat) : Int) pins).map
        (fun t => (t.digitDelay, t.digitOnDelay, t.digitOffDelay, t.numOfDigits, t.symbDigPin))
      = some (10000 / ((m + 2 : Nat) : Int), 10000 / ((m + 2 : Nat) : Int), 0,
          ((m + 1 : Nat) : Int), 14) := by
  have hA : (digitsThenSymbol ((m + 1 : Nat) : Int) pins).map
        (fun t => (t.digitDelay, t.digitOnDelay, t.digitOffDelay, t.numOfDigits, t.symbDigPin))
      = some (10000 / ((m + 1 : Nat) : Int), 10000 / ((m + 1 : Nat) : Int), 0,
          ((m + 1 : Nat) : Int), 14) := by
    obtain ⟨r, hr, h1, h2, h3, h4, -⟩ :=
      setDigitPins_delays (construct 2 3 4 5 6 7 8).1 m pins rfl
    have hsy : ¬ ((construct 2 3 4 5 6 7 8).1.symbDigPin ≠ -1) := fun h => h rfl
    rw [if_neg hsy, add_zero] at h1 h2
    unfold digitsThenSymbol
    rw [hr]
    show some ((setSymbPins r.1 14 2 3 4).1.digitDelay, (setSymbPins r.1 14 2 3 4).1.digitOnDelay,
      (setSymbPins r.1 14 2 3 4).1.digitOffDelay, (setSymbPins r.1 14 2 3 4).1.numOfDigits,
      (setSymbPins r.1 14 2 3 4).1.symbDigPin) = _
    show some (r.1.digitDelay, r.1.digitOnDelay, r.1.digitOffDelay, r.1.numOfDigits, (14 : Int))
      = _
    rw [h1, h2, h3, h4]
  have hB : (symbolThenDigits ((m + 1 : Nat) : Int) pins).map
        (fun t => (t.digitDelay, t.digitOnDelay, t.digitOffDelay, t.numOfDigits, t.symbDigPin))
      = some (10000 / ((m + 2 : Nat) : Int), 10000 / ((m + 2 : Nat) : Int), 0,
          ((m + 1 : Nat) : Int), 14) := by
    obtain ⟨r, hr, h1, h2, h3, h4, h5⟩ :=
      setDigitPins_delays (setSymbPins (construct 2 3 4 5 6 7 8).1 14 2 3 4).1 m pins rfl
    have hsy : (setSymbPins (construct 2 3 4 5 6 7 8).1 14 2 3 4).1.symbDigPin ≠ -1 := by
      decide
    have hcast : ((m + 1 : Nat) : Int) + 1 = ((m + 2 : Nat) : Int) := by push_cast; ring
    rw [if_pos hsy, hcast] at h1 h2
    unfold symbolThenDigits
    rw [hr]
    show some (r.1.digitDelay, r.1.digitOnDelay, r.1.digitOffDelay, r.1.numOfDigits,
      r.1.symbDigPin) = _
    rw [h1, h2, h3, h4, h5]
    rfl
  exact ⟨by decide, by decide, hA, hB⟩

end SevenSeg
